import Mathlib

/-!
Shallow embedding of the BusTub storage core: the extendible hash table
(`src/container/hash/extendible_hash_table.cpp`), the LRU-K replacer and the
buffer pool manager (both in `src/buffer`).  Pure Lean functions mirror the
C++ member functions; the `std::shared_ptr<Bucket>` aliasing of the directory
is modelled by a bucket store indexed by bucket ids, and the unbounded
`while (true)` insert loop takes explicit fuel.
-/

namespace BusTub

/-- One hash-table bucket: the `std::list<std::pair<K, V>>` of entries
(`list_`) and the bucket's local depth (`depth_`). -/
structure Bucket (K V : Type) where
  items : List (K × V)
  depth : Nat
  deriving DecidableEq

/-- The extendible hash table.  `dir` holds bucket ids into the `buckets`
store; several directory slots holding the same id model several
`std::shared_ptr` copies of one bucket. -/
structure EHT (K V : Type) where
  globalDepth : Nat
  bucketSize : Nat
  numBuckets : Nat
  buckets : List (Bucket K V)
  dir : List Nat
  deriving DecidableEq

variable {K V : Type} [DecidableEq K]

namespace Bucket

/-- `Bucket::Find`: linear scan, the first matching key wins. -/
def Find (b : Bucket K V) (key : K) : Option V :=
  (b.items.find? fun kv => decide (kv.1 = key)).map (·.2)

/-- The scan of `Bucket::Remove`: erase the first entry carrying `key` and
report whether one was found. -/
def removeFirst (key : K) : List (K × V) → List (K × V) × Bool
  | [] => ([], false)
  | kv :: rest =>
    if kv.1 = key then (rest, true)
    else
      let p := removeFirst key rest
      (kv :: p.1, p.2)

/-- `Bucket::Remove`. -/
def Remove (b : Bucket K V) (key : K) : Bucket K V × Bool :=
  let p := removeFirst key b.items
  ({ b with items := p.1 }, p.2)

/-- The first loop of `Bucket::Insert`: overwrite the value of the first
entry carrying `key`; `none` when the key is absent. -/
def updateFirst (key : K) (value : V) : List (K × V) → Option (List (K × V))
  | [] => none
  | kv :: rest =>
    if kv.1 = key then some ((kv.1, value) :: rest)
    else (updateFirst key value rest).map (kv :: ·)

/-- `Bucket::IsFull`.  Modelled from the spec: the bucket class body is not
among the sources; a bucket is "an unordered collection of (key, value)
entries bounded by a configured `bucket_capacity`", so it is full when it
holds `bucket_capacity` entries. -/
def IsFull (cap : Nat) (b : Bucket K V) : Bool := cap ≤ b.items.length

/-- `Bucket::Insert`: overwrite an existing key, otherwise append unless the
bucket is full; `none` models the rejecting `false` result. -/
def Insert (cap : Nat) (b : Bucket K V) (key : K) (value : V) :
    Option (Bucket K V) :=
  match updateFirst key value b.items with
  | some items => some { b with items := items }
  | none =>
    if IsFull cap b then none
    else some { b with items := b.items ++ [(key, value)] }

end Bucket

namespace EHT

variable (hash : K → Nat)

/-- The `ExtendibleHashTable` constructor: global depth 0 and a single empty
bucket of depth 0. -/
def init (bucketSize : Nat) : EHT K V :=
  { globalDepth := 0, bucketSize := bucketSize, numBuckets := 1,
    buckets := [{ items := [], depth := 0 }], dir := [0] }

/-- `IndexOf`: the key's hash masked to the low `global_depth` bits. -/
def IndexOf (s : EHT K V) (key : K) : Nat :=
  hash key &&& (2 ^ s.globalDepth - 1)

/-- Dereference a bucket id (out-of-range ids yield a junk bucket; the
invariant keeps every id stored in the directory in range). -/
def bucketAt (s : EHT K V) (bid : Nat) : Bucket K V :=
  s.buckets.getD bid { items := [], depth := 0 }

/-- `ExtendibleHashTable::Find`. -/
def Find (s : EHT K V) (key : K) : Option V :=
  (s.bucketAt (s.dir.getD (s.IndexOf hash key) 0)).Find key

/-- `ExtendibleHashTable::Remove`. -/
def Remove (s : EHT K V) (key : K) : EHT K V × Bool :=
  let bid := s.dir.getD (s.IndexOf hash key) 0
  let p := (s.bucketAt bid).Remove key
  ({ s with buckets := s.buckets.set bid p.1 }, p.2)

/-- The redistribution loop of `RedistributeBucket`: entries whose hash under
the current mask no longer matches the old residue move to the new bucket
(the source ignores the result of `new_bucket->Insert`, so a rejected entry
would be dropped); the survivors keep their order. -/
def redist (cap currMask oldHash : Nat) :
    List (K × V) → Bucket K V → List (K × V) × Bucket K V
  | [], nb => ([], nb)
  | kv :: rest, nb =>
    if hash kv.1 &&& currMask ≠ oldHash then
      redist cap currMask oldHash rest ((nb.Insert cap kv.1 kv.2).getD nb)
    else
      let p := redist cap currMask oldHash rest nb
      (kv :: p.1, p.2)

/-- The directory rewiring loop of `RedistributeBucket`: every slot whose
index matches the old residue under the old mask but not under the current
mask is pointed at the new bucket. -/
def rebindDir (oldMask currMask oldHash newId : Nat) (dir : List Nat) :
    List Nat :=
  (List.range dir.length).map fun i =>
    if i &&& oldMask = oldHash ∧ i &&& currMask ≠ oldHash then newId
    else dir.getD i 0

/-- `ExtendibleHashTable::RedistributeBucket` (its caller has already
incremented the bucket's depth).  `lists.front()` is undefined behaviour on
an empty bucket; `Insert` only splits full buckets, so the `[]` branch is
unreachable from it and leaves the state unchanged. -/
def RedistributeBucket (s : EHT K V) (bid : Nat) : EHT K V :=
  let b := s.bucketAt bid
  match b.items with
  | [] => s
  | first :: _ =>
    let oldMask := 2 ^ (b.depth - 1) - 1
    let currMask := 2 ^ b.depth - 1
    let oldHash := hash first.1 &&& oldMask
    let newId := s.buckets.length
    let p := redist hash s.bucketSize currMask oldHash b.items
      { items := [], depth := b.depth }
    { s with
      numBuckets := s.numBuckets + 1,
      buckets := s.buckets.set bid { b with items := p.1 } ++ [p.2],
      dir := rebindDir oldMask currMask oldHash newId s.dir }

/-- One pass of the `while (true)` loop of `ExtendibleHashTable::Insert`:
`Sum.inl` is the successful break, `Sum.inr` carries the state after a
directory doubling or a bucket split. -/
def insertOnce (s : EHT K V) (key : K) (value : V) : EHT K V ⊕ EHT K V :=
  let idx := s.IndexOf hash key
  let bid := s.dir.getD idx 0
  let b := s.bucketAt bid
  match b.Insert s.bucketSize key value with
  | some b2 => Sum.inl { s with buckets := s.buckets.set bid b2 }
  | none =>
    if b.depth = s.globalDepth then
      Sum.inr { s with globalDepth := s.globalDepth + 1, dir := s.dir ++ s.dir }
    else
      Sum.inr (RedistributeBucket hash
        { s with buckets := s.buckets.set bid { b with depth := b.depth + 1 } }
        bid)

/-- `ExtendibleHashTable::Insert`: the source loops until the bucket insert
succeeds; the C++ loop has no bound, so the embedding takes explicit fuel
and returns `none` when the fuel runs out. -/
def Insert (key : K) (value : V) : Nat → EHT K V → Option (EHT K V)
  | 0, _ => none
  | fuel + 1, s =>
    match insertOnce hash s key value with
    | Sum.inl s2 => some s2
    | Sum.inr s2 => Insert key value fuel s2

/-- The states reachable through the public hash-table operations, starting
from a fresh table with a positive bucket capacity (spec configuration:
`bucket_capacity ≥ 1`).  `Find` does not change the state. -/
inductive Reach : EHT K V → Prop
  | init (bucketSize : Nat) (h : 0 < bucketSize) : Reach (init bucketSize)
  | insert (s s2 : EHT K V) (key : K) (value : V) (fuel : Nat) :
      Reach s → Insert hash key value fuel s = some s2 → Reach s2
  | remove (s : EHT K V) (key : K) :
      Reach s → Reach (Remove hash s key).1

end EHT

/-- The per-frame record of the LRU-K replacer.  Modelled from the spec: the
replacer header is not among the sources; the record holds "a bounded queue
of up to `k` access timestamps (oldest at front) and an `evictable` flag",
and `std::unordered_map::operator[]` value-initializes a fresh record (empty
queue, flag `false`). -/
structure FrameInfo where
  timeSeq : List Nat
  evictable : Bool
  deriving DecidableEq

/-- The LRU-K replacer.  `frameInfos` models `frame_infos_` as an association
list in map iteration order (new frames are appended); `currSize` caches the
number of evictable records and `currentTimestamp` is the monotonic counter,
both starting at 0 (modelled from the spec: "a process-wide monotonic
`timestamp` counter", "a cached `evictable_count`"). -/
structure LRUK where
  frameInfos : List (Nat × FrameInfo)
  replacerSize : Nat
  k : Nat
  currSize : Nat
  currentTimestamp : Nat
  deriving DecidableEq

namespace LRUK

/-- The `LRUKReplacer` constructor. -/
def init (numFrames k : Nat) : LRUK :=
  { frameInfos := [], replacerSize := numFrames, k := k, currSize := 0,
    currentTimestamp := 0 }

/-- Lookup of `frame_infos_[fid]` for a tracked frame. -/
def getInfo (r : LRUK) (fid : Nat) : Option FrameInfo :=
  (r.frameInfos.find? fun p => decide (p.1 = fid)).map (·.2)

/-- `frame_infos_[fid] = info`: overwrite the record of a tracked frame, or
append a fresh record (`std::unordered_map::operator[]` insertion). -/
def setInfo (fid : Nat) (info : FrameInfo) :
    List (Nat × FrameInfo) → List (Nat × FrameInfo)
  | [] => [(fid, info)]
  | p :: rest =>
    if p.1 = fid then (fid, info) :: rest else p :: setInfo fid info rest

/-- The comparator of `LRUKReplacer::Evict`: a frame with fewer than `k`
recorded accesses beats a frame with `k` of them; otherwise the older
front-of-queue timestamp wins.  `front()` on an empty queue is undefined
behaviour in the source; tracked frames always hold at least one timestamp,
and the embedding reads `0` there. -/
def evictCmp (r : LRUK) (a b : Nat) : Bool :=
  let qa := ((r.getInfo a).getD { timeSeq := [], evictable := false }).timeSeq
  let qb := ((r.getInfo b).getD { timeSeq := [], evictable := false }).timeSeq
  if qa.length < r.k ∧ qb.length = r.k then true
  else if qb.length < r.k ∧ qa.length = r.k then false
  else decide (qa.headD 0 < qb.headD 0)

/-- The selection loop of `LRUKReplacer::Evict`: scan every record, keeping
the best evictable frame seen so far (`*frame_id`, `none` models `-1`). -/
def evictScan (r : LRUK) : List (Nat × FrameInfo) → Option Nat → Option Nat
  | [], best => best
  | p :: rest, best =>
    if p.2.evictable then
      match best with
      | none => evictScan r rest (some p.1)
      | some b =>
        if evictCmp r p.1 b then evictScan r rest (some p.1)
        else evictScan r rest (some b)
    else evictScan r rest best

/-- `LRUKReplacer::Evict`: `none` models the `false` return with no victim;
otherwise the victim's record is erased and `curr_size_` decremented. -/
def Evict (r : LRUK) : Option (Nat × LRUK) :=
  match evictScan r r.frameInfos none with
  | none => none
  | some fid =>
    some (fid,
      { r with frameInfos := r.frameInfos.filter fun p => decide (p.1 ≠ fid),
               currSize := r.currSize - 1 })

/-- `LRUKReplacer::RecordAccess`: drop the call when the frame is new and the
replacer is full; otherwise pop the oldest timestamp if the queue already
holds `k`, push the current timestamp and advance the counter. -/
def RecordAccess (r : LRUK) (fid : Nat) : LRUK :=
  if r.getInfo fid = none ∧ r.frameInfos.length = r.replacerSize then r
  else
    let info := (r.getInfo fid).getD { timeSeq := [], evictable := false }
    let q := if info.timeSeq.length = r.k then info.timeSeq.tail
      else info.timeSeq
    { r with
      frameInfos :=
        setInfo fid { info with timeSeq := q ++ [r.currentTimestamp] }
          r.frameInfos,
      currentTimestamp := r.currentTimestamp + 1 }

/-- `LRUKReplacer::SetEvictable`: untracked frames are ignored; otherwise the
flag is updated and `curr_size_` adjusted on an actual change. -/
def SetEvictable (r : LRUK) (fid : Nat) (setEv : Bool) : LRUK :=
  match r.getInfo fid with
  | none => r
  | some info =>
    let r1 :=
      { r with
        frameInfos := setInfo fid { info with evictable := setEv }
          r.frameInfos }
    if ¬info.evictable ∧ setEv then { r1 with currSize := r.currSize + 1 }
    else if info.evictable ∧ ¬setEv then { r1 with currSize := r.currSize - 1 }
    else r1

/-- `LRUKReplacer::Remove`: `none` models the thrown
`"Remove a non-evictable frame!"`; untracked frames are ignored. -/
def Remove (r : LRUK) (fid : Nat) : Option LRUK :=
  match r.getInfo fid with
  | none => some r
  | some info =>
    if ¬info.evictable then none
    else
      some { r with
        frameInfos := r.frameInfos.filter fun p => decide (p.1 ≠ fid),
        currSize := r.currSize - 1 }

/-- `LRUKReplacer::Size`. -/
def Size (r : LRUK) : Nat := r.currSize

end LRUK

/-- One buffer-pool frame (`Page`).  Modelled from the spec: the `Page` class
is not among the sources; a frame carries "`page_id` ..., `pin_count`
(non-negative integer ...), `is_dirty`", with the unused sentinel
`INVALID_PAGE_ID = -1`; the byte buffer itself is not modelled (no claim
inspects page contents, disk traffic is recorded as events). -/
structure Page where
  pageId : Int
  pinCount : Nat
  isDirty : Bool
  deriving DecidableEq

/-- A recorded effect of a buffer-pool operation on its collaborators, in
program order: `DiskManager::WritePage`, `DiskManager::ReadPage`, directory
removal/insertion (`page_table_->Remove` / `->Insert`) and
`DeallocatePage`. -/
inductive BPEv where
  | write (pid : Int)
  | read (pid : Int)
  | removeDir (pid : Int)
  | insertDir (pid : Int)
  | dealloc (pid : Int)
  deriving DecidableEq

/-- `std::hash<int>` on the page ids the manager uses (the identity on
non-negative values). -/
def pidHash (i : Int) : Nat := i.toNat

/-- `BufferPoolManagerInstance`: the frame array, the extendible-hash page
directory, the LRU-K replacer, the free list and the monotonic
`next_page_id_`. -/
structure BPM where
  poolSize : Nat
  pages : List Page
  pageTable : EHT Int Nat
  replacer : LRUK
  freeList : List Nat
  nextPageId : Int
  deriving DecidableEq

namespace BPM

/-- The `BufferPoolManagerInstance` constructor: every frame starts on the
free list; `replacer_k` is `k` and `bucketSize` is the directory's
`bucket_size_`.  Fresh frames are value-initialized `Page`s (modelled from
the spec: unused frames hold the INVALID sentinel, pin count 0, clean). -/
def init (poolSize bucketSize k : Nat) : BPM :=
  { poolSize := poolSize,
    pages := List.replicate poolSize
      { pageId := -1, pinCount := 0, isDirty := false },
    pageTable := EHT.init bucketSize,
    replacer := LRUK.init poolSize k,
    freeList := List.range poolSize,
    nextPageId := 0 }

/-- `pages_[fid]` (out-of-range frames read as a junk unused page; all frame
ids the manager produces are in range). -/
def getPage (m : BPM) (fid : Nat) : Page :=
  m.pages.getD fid { pageId := -1, pinCount := 0, isDirty := false }

/-- The shared tail of `NewPgImp` and `FetchPgImp` once a frame has been
acquired: bind `pid` in the directory, reset the frame to a pinned clean
page, record the access and pin it in the replacer.  The table insert runs on
`fuel`; `none` is fuel exhaustion (the C++ loop would not have returned). -/
def installPage (fuel : Nat) (m : BPM) (f : Nat) (pid : Int)
    (ev : List BPEv) : Option (BPM × Option (Int × Nat) × List BPEv) :=
  match EHT.Insert pidHash pid f fuel m.pageTable with
  | none => none
  | some pt =>
    let fresh : Page := { pageId := pid, pinCount := 1, isDirty := false }
    some
      ({ m with
          pageTable := pt,
          pages := m.pages.set f fresh,
          replacer := (m.replacer.RecordAccess f).SetEvictable f false },
        some (pid, f), ev ++ [BPEv.insertDir pid])

/-- Frame acquisition shared by `NewPgImp` and `FetchPgImp`: pop the free
list, else ask the replacer for a victim, writing a dirty victim back and
dropping its directory binding; `none` models the `nullptr` return. -/
def acquireFrame (m : BPM) : Option (BPM × Nat × List BPEv) :=
  match m.freeList with
  | f :: rest => some ({ m with freeList := rest }, f, [])
  | [] =>
    match m.replacer.Evict with
    | none => none
    | some (f, rep) =>
      let victim := m.getPage f
      some
        ({ m with
            replacer := rep,
            pageTable := (EHT.Remove pidHash m.pageTable victim.pageId).1 },
          f,
          (if victim.isDirty then [BPEv.write victim.pageId] else []) ++
            [BPEv.removeDir victim.pageId])

/-- `BufferPoolManagerInstance::NewPgImp`: the result is the fresh page id
and its frame, or `none` for the `nullptr` return; the outer `Option` is
table-insert fuel exhaustion. -/
def NewPgImp (fuel : Nat) (m : BPM) :
    Option (BPM × Option (Int × Nat) × List BPEv) :=
  match acquireFrame m with
  | none => some (m, none, [])
  | some (m1, f, ev) =>
    let pid := m1.nextPageId
    installPage fuel { m1 with nextPageId := m1.nextPageId + 1 } f pid ev

/-- `BufferPoolManagerInstance::FetchPgImp`: on a directory hit the frame is
re-pinned; on a miss a frame is acquired, the page installed and read from
disk. -/
def FetchPgImp (fuel : Nat) (pid : Int) (m : BPM) :
    Option (BPM × Option (Int × Nat) × List BPEv) :=
  match EHT.Find pidHash m.pageTable pid with
  | some f =>
    some
      ({ m with
          replacer := (m.replacer.RecordAccess f).SetEvictable f false,
          pages := m.pages.set f
            { m.getPage f with pinCount := (m.getPage f).pinCount + 1 } },
        some (pid, f), [])
  | none =>
    match acquireFrame m with
    | none => some (m, none, [])
    | some (m1, f, ev) =>
      match installPage fuel m1 f pid ev with
      | none => none
      | some (m2, r, ev2) => some (m2, r, ev2 ++ [BPEv.read pid])

/-- `BufferPoolManagerInstance::UnpinPgImp`. -/
def UnpinPgImp (pid : Int) (isDirty : Bool) (m : BPM) : BPM × Bool :=
  match EHT.Find pidHash m.pageTable pid with
  | none => (m, false)
  | some f =>
    let p := m.getPage f
    if p.pinCount = 0 then (m, false)
    else
      let p1 : Page :=
        { p with pinCount := p.pinCount - 1, isDirty := p.isDirty || isDirty }
      let m1 := { m with pages := m.pages.set f p1 }
      if p.pinCount - 1 = 0 then
        ({ m1 with replacer := m1.replacer.SetEvictable f true }, true)
      else (m1, true)

/-- `BufferPoolManagerInstance::FlushPgImp`.  The source writes the frame's
buffer to disk but then executes `pages_->is_dirty_ = false`, which clears
the dirty flag of frame 0 (the first element of the frame array), not of the
flushed frame. -/
def FlushPgImp (pid : Int) (m : BPM) : BPM × Bool × List BPEv :=
  match EHT.Find pidHash m.pageTable pid with
  | none => (m, false, [])
  | some f =>
    ({ m with pages :=
        m.pages.set 0 { m.getPage 0 with isDirty := false } },
      true, [BPEv.write (m.getPage f).pageId])

/-- `BufferPoolManagerInstance::DeletePgImp`: deallocate unconditionally;
succeed vacuously when the page is not resident; refuse when it is pinned;
otherwise write back a dirty frame (again clearing frame 0's flag, see
`FlushPgImp`), drop the replacer record and the binding and free the frame.
`none` models the exception thrown by `LRUKReplacer::Remove` on a tracked
non-evictable frame. -/
def DeletePgImp (pid : Int) (m : BPM) : Option (BPM × Bool × List BPEv) :=
  match EHT.Find pidHash m.pageTable pid with
  | none => some (m, true, [BPEv.dealloc pid])
  | some f =>
    if 0 < (m.getPage f).pinCount then some (m, false, [BPEv.dealloc pid])
    else
      let wb := (m.getPage f).isDirty
      let m1 :=
        if wb then
          { m with pages := m.pages.set 0 { m.getPage 0 with isDirty := false } }
        else m
      match m1.replacer.Remove f with
      | none => none
      | some rep =>
        some
          ({ m1 with
              replacer := rep,
              freeList := m1.freeList ++ [f],
              pageTable := (EHT.Remove pidHash m1.pageTable pid).1 },
            true,
            [BPEv.dealloc pid] ++
              (if wb then [BPEv.write (m.getPage f).pageId] else []))

/-- The states reachable through the five public page-lifecycle operations
from a fresh manager (spec configuration: `bucket_capacity ≥ 1`,
`replacer_k ≥ 1`). -/
inductive Reach : BPM → Prop
  | init (poolSize bucketSize k : Nat) (hb : 0 < bucketSize) :
      Reach (init poolSize bucketSize k)
  | newPage (m m2 : BPM) (fuel : Nat) (r : Option (Int × Nat))
      (ev : List BPEv) :
      Reach m → NewPgImp fuel m = some (m2, r, ev) → Reach m2
  | fetchPage (m m2 : BPM) (fuel : Nat) (pid : Int) (r : Option (Int × Nat))
      (ev : List BPEv) :
      Reach m → FetchPgImp fuel pid m = some (m2, r, ev) → Reach m2
  | unpinPage (m : BPM) (pid : Int) (d : Bool) :
      Reach m → Reach (UnpinPgImp pid d m).1
  | flushPage (m : BPM) (pid : Int) :
      Reach m → Reach (FlushPgImp pid m).1
  | deletePage (m m2 : BPM) (pid : Int) (r : Bool) (ev : List BPEv) :
      Reach m → DeletePgImp pid m = some (m2, r, ev) → Reach m2

end BPM

namespace EHT

variable (hash : K → Nat)

/-- The structural invariant of the extendible hash table: the directory has
length `2^global_depth`; every slot holds a valid bucket id of local depth at
most `global_depth`; slots sharing a bucket agree on their low
`local_depth` bits (`agree`), and congruent slots share their bucket
(`complete`); every key rests in a bucket whose slots match its hash residue;
bucket key lists are duplicate-free and within capacity. -/
structure Inv (s : EHT K V) : Prop where
  bsPos : 0 < s.bucketSize
  dlen : s.dir.length = 2 ^ s.globalDepth
  refs : ∀ i, i < s.dir.length → s.dir.getD i 0 < s.buckets.length
  depthLe : ∀ i, i < s.dir.length →
    (s.bucketAt (s.dir.getD i 0)).depth ≤ s.globalDepth
  agree : ∀ i j, i < s.dir.length → j < s.dir.length →
    s.dir.getD i 0 = s.dir.getD j 0 →
    i % 2 ^ (s.bucketAt (s.dir.getD i 0)).depth =
      j % 2 ^ (s.bucketAt (s.dir.getD i 0)).depth
  complete : ∀ i j, i < s.dir.length → j < s.dir.length →
    i % 2 ^ (s.bucketAt (s.dir.getD j 0)).depth =
      j % 2 ^ (s.bucketAt (s.dir.getD j 0)).depth →
    s.dir.getD i 0 = s.dir.getD j 0
  keysRes : ∀ i, i < s.dir.length →
    ∀ k ∈ (s.bucketAt (s.dir.getD i 0)).items.map Prod.fst,
      hash k % 2 ^ (s.bucketAt (s.dir.getD i 0)).depth =
        i % 2 ^ (s.bucketAt (s.dir.getD i 0)).depth
  keysNodup : ∀ i, i < s.dir.length →
    ((s.bucketAt (s.dir.getD i 0)).items.map Prod.fst).Nodup
  lenLe : ∀ i, i < s.dir.length →
    (s.bucketAt (s.dir.getD i 0)).items.length ≤ s.bucketSize

/-- The local depth of the bucket a key currently hashes to. -/
def localDepthOf (s : EHT K V) (key : K) : Nat :=
  (s.bucketAt (s.dir.getD (s.IndexOf hash key) 0)).depth

/-- Every key stored anywhere in the bucket store. -/
def allKeys (s : EHT K V) : List K :=
  (s.buckets.map fun b => b.items.map Prod.fst).flatten

/-- The non-degeneracy hypothesis for insert termination: below width `D`,
the hash of every stored key other than `key` separates from the hash of
`key`. -/
def Separated (D : Nat) (s : EHT K V) (key : K) : Prop :=
  ∀ k ∈ s.allKeys, k ≠ key → hash k % 2 ^ D ≠ hash key % 2 ^ D

end EHT

namespace LRUK

/-- The eviction priority of the specification: a frame with fewer than `k`
recorded accesses is preferred over one with exactly `k`; ties within either
subgroup go to the smaller (older) front-of-queue timestamp. -/
def Prefers (k : Nat) (a b : FrameInfo) : Prop :=
  (a.timeSeq.length < k ∧ b.timeSeq.length = k) ∨
  (((a.timeSeq.length < k ∧ b.timeSeq.length < k) ∨
      (a.timeSeq.length = k ∧ b.timeSeq.length = k)) ∧
    a.timeSeq.headD 0 < b.timeSeq.headD 0)

/-- Well-formedness of a replacer state, as every state reachable through
`RecordAccess` satisfies: records carry distinct frame ids, histories hold at
most `k` timestamps, and front-of-queue timestamps are pairwise distinct
(timestamps come from the strictly increasing counter). -/
def WFrep (r : LRUK) : Prop :=
  (r.frameInfos.map Prod.fst).Nodup ∧
  (∀ p ∈ r.frameInfos, p.2.timeSeq.length ≤ r.k) ∧
  r.frameInfos.Pairwise fun p q => p.2.timeSeq.headD 0 ≠ q.2.timeSeq.headD 0

/-- Iterated eviction: the ids of the victims of `n` successive `Evict`
calls. -/
def evictList : Nat → LRUK → List Nat
  | 0, _ => []
  | n + 1, r =>
    match r.Evict with
    | none => []
    | some (f, r2) => f :: evictList n r2

/-- The replacer state of the k=2, capacity-7 scenario: accesses
1,2,3,4,5,6, 1,2,3,4,5,6, 1, each followed by `SetEvictable(id, true)`. -/
def c2Scenario : LRUK :=
  [1, 2, 3, 4, 5, 6, 1, 2, 3, 4, 5, 6, 1].foldl
    (fun r f => (r.RecordAccess f).SetEvictable f true) (init 7 2)

/-- A replacer tracking frame 1 as already evictable. -/
def c9State : LRUK := ((init 3 2).RecordAccess 1).SetEvictable 1 true

end LRUK

namespace BPM

/-- The invariant tying the three components together inside the buffer pool
manager, for states reachable through the public operations. -/
structure Inv (m : BPM) : Prop where
  pagesLen : m.pages.length = m.poolSize
  tableInv : EHT.Inv pidHash m.pageTable
  framesLt : ∀ pid f, EHT.Find pidHash m.pageTable pid = some f →
    f < m.poolSize
  pidMatch : ∀ pid f, EHT.Find pidHash m.pageTable pid = some f →
    (m.getPage f).pageId = pid
  freeLt : ∀ f ∈ m.freeList, f < m.poolSize
  freeNodup : m.freeList.Nodup
  freeNotRes : ∀ f ∈ m.freeList, ∀ pid,
    EHT.Find pidHash m.pageTable pid ≠ some f
  trackedLt : ∀ p ∈ m.replacer.frameInfos, p.1 < m.poolSize
  replNodup : (m.replacer.frameInfos.map Prod.fst).Nodup
  replSize : m.replacer.replacerSize = m.poolSize
  resTracked : ∀ pid f, EHT.Find pidHash m.pageTable pid = some f →
    m.replacer.getInfo f ≠ none
  unpinnedEv : ∀ pid f, EHT.Find pidHash m.pageTable pid = some f →
    (m.getPage f).pinCount = 0 →
    ∃ info, m.replacer.getInfo f = some info ∧ info.evictable = true

end BPM

/-- The table reached by inserting keys 0 and 4 into a fresh table with
identity hash and bucket capacity 2: both keys land in the sole bucket,
filling it. -/
def c5Base : EHT Nat Nat :=
  { globalDepth := 0, bucketSize := 2, numBuckets := 1,
    buckets := [{ items := [(0, 0), (4, 0)], depth := 0 }],
    dir := [0] }

/-- The table reached by inserting keys 0 and 4 (identity hash, capacity 2)
and then running the first pass of the insert loop for key 8: that pass
doubles the directory.  The bucket the full keys share is bucket 0. -/
def c5State : EHT Nat Nat :=
  { globalDepth := 1, bucketSize := 2, numBuckets := 1,
    buckets := [{ items := [(0, 0), (4, 0)], depth := 0 }],
    dir := [0, 0] }

/-- The state after the second pass of the insert loop for key 8 on
`c5State`: the split moves no entry, leaves the global depth at 1 and the
overfull bucket still holding its two entries. -/
def c5State2 : EHT Nat Nat :=
  { globalDepth := 1, bucketSize := 2, numBuckets := 2,
    buckets := [{ items := [(0, 0), (4, 0)], depth := 1 },
      { items := [], depth := 1 }],
    dir := [0, 1] }

/-- The flush-bug scenario, step 1: a fresh two-frame pool (bucket size 1,
k = 2) after allocating page 0 into frame 0. -/
def c1m1 : BPM :=
  ((BPM.NewPgImp 4 (BPM.init 2 1 2)).map Prod.fst).getD (BPM.init 2 1 2)

/-- Step 2: page 1 allocated into frame 1. -/
def c1m2 : BPM := ((BPM.NewPgImp 4 c1m1).map Prod.fst).getD c1m1

/-- Step 3: page 1 unpinned with the caller's dirty bit set, so frame 1 is
dirty and evictable. -/
def c1m3 : BPM := (BPM.UnpinPgImp 1 true c1m2).1

/-! ### Bucket-level lemmas -/

namespace Bucket

theorem updateFirst_eq_none {key : K} {value : V} {l : List (K × V)} :
    updateFirst key value l = none ↔ key ∉ l.map Prod.fst := by
  induction l with
  | nil => simp [updateFirst]
  | cons kv rest ih =>
    by_cases h : kv.1 = key
    · simp [updateFirst, h]
    · simp only [updateFirst, if_neg h, Option.map_eq_none', ih,
        List.map_cons, List.mem_cons]
      constructor
      · intro hnot hor
        rcases hor with h1 | h2
        · exact h h1.symm
        · exact hnot h2
      · intro hnot h2
        exact hnot (Or.inr h2)

theorem updateFirst_keys {key : K} {value : V} :
    ∀ {l l2 : List (K × V)}, updateFirst key value l = some l2 →
      l2.map Prod.fst = l.map Prod.fst := by
  intro l
  induction l with
  | nil => intro l2 h; simp [updateFirst] at h
  | cons kv rest ih =>
    intro l2 h
    by_cases hk : kv.1 = key
    · simp only [updateFirst, if_pos hk] at h
      cases h
      simp
    · simp only [updateFirst, if_neg hk, Option.map_eq_some'] at h
      obtain ⟨l3, h3, rfl⟩ := h
      simp [ih h3]

theorem updateFirst_find_self {key : K} {value : V} :
    ∀ {l l2 : List (K × V)}, updateFirst key value l = some l2 →
      (l2.find? fun kv => decide (kv.1 = key)).map (·.2) = some value := by
  intro l
  induction l with
  | nil => intro l2 h; simp [updateFirst] at h
  | cons kv rest ih =>
    intro l2 h
    by_cases hk : kv.1 = key
    · simp only [updateFirst, if_pos hk] at h
      cases h
      simp [List.find?_cons_of_pos, hk]
    · simp only [updateFirst, if_neg hk, Option.map_eq_some'] at h
      obtain ⟨l3, h3, rfl⟩ := h
      rw [List.find?_cons_of_neg _ (by simpa using hk)]
      exact ih h3

theorem updateFirst_find_other {key k2 : K} {value : V} (hne : k2 ≠ key) :
    ∀ {l l2 : List (K × V)}, updateFirst key value l = some l2 →
      (l2.find? fun kv => decide (kv.1 = k2)) =
        l.find? fun kv => decide (kv.1 = k2) := by
  intro l
  induction l with
  | nil => intro l2 h; simp [updateFirst] at h
  | cons kv rest ih =>
    intro l2 h
    by_cases hk : kv.1 = key
    · simp only [updateFirst, if_pos hk] at h
      cases h
      have hk2 : ¬kv.1 = k2 := fun hh => hne (hh ▸ hk.symm ▸ rfl)
      rw [List.find?_cons_of_neg _ (by simpa using hk2),
        List.find?_cons_of_neg _ (by simpa using hk2)]
    · simp only [updateFirst, if_neg hk, Option.map_eq_some'] at h
      obtain ⟨l3, h3, rfl⟩ := h
      by_cases hk2 : kv.1 = k2
      · rw [List.find?_cons_of_pos _ (by simpa using hk2),
          List.find?_cons_of_pos _ (by simpa using hk2)]
      · rw [List.find?_cons_of_neg _ (by simpa using hk2),
          List.find?_cons_of_neg _ (by simpa using hk2)]
        exact ih h3

theorem removeFirst_sublist (key : K) :
    ∀ l : List (K × V), (removeFirst key l).1.Sublist l := by
  intro l
  induction l with
  | nil => simp [removeFirst]
  | cons kv rest ih =>
    by_cases hk : kv.1 = key
    · simp only [removeFirst, if_pos hk]
      exact List.sublist_cons_self kv rest
    · simpa [removeFirst, hk] using List.Sublist.cons₂ kv ih

theorem removeFirst_find_self (key : K) :
    ∀ {l : List (K × V)}, (l.map Prod.fst).Nodup →
      ((removeFirst key l).1.find? fun kv => decide (kv.1 = key)) = none := by
  intro l
  induction l with
  | nil => intro _; simp [removeFirst]
  | cons kv rest ih =>
    intro hnd
    simp only [List.map_cons, List.nodup_cons] at hnd
    by_cases hk : kv.1 = key
    · simp only [removeFirst, if_pos hk]
      rw [List.find?_eq_none]
      intro x hx
      simp only [decide_eq_true_eq]
      intro hxk
      exact hnd.1 (by
        rw [hk, ← hxk]
        exact List.mem_map_of_mem Prod.fst hx)
    · simp only [removeFirst, if_neg hk]
      rw [List.find?_cons_of_neg _ (by simpa using hk)]
      exact ih hnd.2

theorem removeFirst_find_other {key k2 : K} (hne : k2 ≠ key) :
    ∀ l : List (K × V),
      ((removeFirst key l).1.find? fun kv => decide (kv.1 = k2)) =
        l.find? fun kv => decide (kv.1 = k2) := by
  intro l
  induction l with
  | nil => simp [removeFirst]
  | cons kv rest ih =>
    by_cases hk : kv.1 = key
    · have hk2 : ¬kv.1 = k2 := fun hh => hne (hh ▸ hk.symm ▸ rfl)
      simp only [removeFirst, if_pos hk]
      rw [List.find?_cons_of_neg _ (by simpa using hk2)]
    · simp only [removeFirst, if_neg hk]
      by_cases hk2 : kv.1 = k2
      · rw [List.find?_cons_of_pos _ (by simpa using hk2),
          List.find?_cons_of_pos _ (by simpa using hk2)]
      · rw [List.find?_cons_of_neg _ (by simpa using hk2),
          List.find?_cons_of_neg _ (by simpa using hk2)]
        exact ih

theorem Insert_cases {cap : Nat} {b b2 : Bucket K V} {key : K} {value : V}
    (h : Insert cap b key value = some b2) :
    (∃ l2, updateFirst key value b.items = some l2 ∧
      b2 = { b with items := l2 }) ∨
    (updateFirst key value b.items = none ∧ b.items.length < cap ∧
      b2 = { b with items := b.items ++ [(key, value)] }) := by
  unfold Insert at h
  cases hu : updateFirst key value b.items with
  | some l2 =>
    rw [hu] at h
    exact Or.inl ⟨l2, rfl, (Option.some.inj h).symm⟩
  | none =>
    rw [hu] at h
    cases hf : IsFull cap b with
    | true => rw [hf] at h; simp at h
    | false =>
      rw [hf] at h
      simp only [Bool.false_eq_true, if_false] at h
      refine Or.inr ⟨rfl, ?_, (Option.some.inj h).symm⟩
      simpa [IsFull, Nat.not_le] using hf

theorem Insert_eq_none {cap : Nat} {b : Bucket K V} {key : K} {value : V} :
    Insert cap b key value = none ↔
      key ∉ b.items.map Prod.fst ∧ cap ≤ b.items.length := by
  constructor
  · intro h
    unfold Insert at h
    cases hu : updateFirst key value b.items with
    | some l2 => rw [hu] at h; exact absurd h (by simp)
    | none =>
      rw [hu] at h
      refine ⟨updateFirst_eq_none.mp hu, ?_⟩
      by_contra hlen
      have hf : IsFull cap b = false := by
        simp only [IsFull, decide_eq_false_iff_not]
        exact hlen
      rw [hf] at h
      simp at h
  · intro ⟨hk, hlen⟩
    unfold Insert
    rw [updateFirst_eq_none.mpr hk]
    have hf : IsFull cap b = true := by
      simp only [IsFull, decide_eq_true_eq]
      exact hlen
    rw [hf]
    simp

theorem Insert_depth {cap : Nat} {b b2 : Bucket K V} {key : K} {value : V}
    (h : Insert cap b key value = some b2) : b2.depth = b.depth := by
  rcases Insert_cases h with ⟨l2, _, rfl⟩ | ⟨_, _, rfl⟩ <;> rfl

theorem Insert_find_self {cap : Nat} {b b2 : Bucket K V} {key : K} {value : V}
    (h : Insert cap b key value = some b2) : b2.Find key = some value := by
  rcases Insert_cases h with ⟨l2, hu, rfl⟩ | ⟨hu, _, rfl⟩
  · exact updateFirst_find_self hu
  · show ((b.items ++ [(key, value)]).find? fun kv =>
      decide (kv.1 = key)).map (·.2) = some value
    rw [updateFirst_eq_none] at hu
    rw [List.find?_append, List.find?_eq_none.mpr, Option.none_or]
    · simp
    · intro x hx
      simp only [decide_eq_true_eq]
      intro hxk
      exact hu (hxk ▸ List.mem_map_of_mem Prod.fst hx)

theorem Insert_find_other {cap : Nat} {b b2 : Bucket K V} {key k2 : K}
    {value : V} (hne : k2 ≠ key) (h : Insert cap b key value = some b2) :
    b2.Find k2 = b.Find k2 := by
  rcases Insert_cases h with ⟨l2, hu, rfl⟩ | ⟨hu, _, rfl⟩
  · show (_ : Option V) = _
    unfold Find
    rw [updateFirst_find_other hne hu]
  · unfold Find
    simp only []
    rw [List.find?_append, List.find?_cons_of_neg, List.find?_nil,
      Option.or_none]
    simpa using Ne.symm hne

theorem Insert_keys {cap : Nat} {b b2 : Bucket K V} {key : K} {value : V}
    (h : Insert cap b key value = some b2) :
    b2.items.map Prod.fst = b.items.map Prod.fst ∨
      (key ∉ b.items.map Prod.fst ∧
        b2.items.map Prod.fst = b.items.map Prod.fst ++ [key] ∧
        b.items.length < cap) := by
  rcases Insert_cases h with ⟨l2, hu, rfl⟩ | ⟨hu, hlt, rfl⟩
  · exact Or.inl (updateFirst_keys hu)
  · exact Or.inr ⟨updateFirst_eq_none.mp hu, by simp, hlt⟩

theorem Insert_len {cap : Nat} {b b2 : Bucket K V} {key : K} {value : V}
    (h : Insert cap b key value = some b2)
    (hle : b.items.length ≤ cap) : b2.items.length ≤ cap := by
  have hkeys := Insert_keys h
  have h1 : b2.items.length = (b2.items.map Prod.fst).length :=
    (List.length_map _ _).symm
  have h2 : b.items.length = (b.items.map Prod.fst).length :=
    (List.length_map _ _).symm
  rcases hkeys with hk | ⟨_, hk, hlt⟩
  · rw [h1, hk, ← h2]; exact hle
  · rw [h1, hk, List.length_append, ← h2]
    simpa using hlt

theorem Insert_nodup {cap : Nat} {b b2 : Bucket K V} {key : K} {value : V}
    (h : Insert cap b key value = some b2)
    (hnd : (b.items.map Prod.fst).Nodup) : (b2.items.map Prod.fst).Nodup := by
  rcases Insert_keys h with hk | ⟨hmem, hk, _⟩
  · rw [hk]; exact hnd
  · rw [hk, List.nodup_append]
    refine ⟨hnd, List.nodup_singleton key, fun a ha hb => ?_⟩
    rw [List.mem_singleton] at hb
    exact hmem (hb ▸ ha)

end Bucket

/-! ### Arithmetic and list-access helpers -/

theorem mod_pow_mod {a m n : Nat} (h : n ≤ m) :
    a % 2 ^ m % 2 ^ n = a % 2 ^ n :=
  Nat.mod_mod_of_dvd a (Nat.pow_dvd_pow 2 h)

theorem mod_pow_succ_cases {a d r : Nat} (h : a % 2 ^ d = r) :
    a % 2 ^ (d + 1) = r ∨ a % 2 ^ (d + 1) = r + 2 ^ d := by
  have hm : a % 2 ^ (d + 1) % 2 ^ d = r := by
    rw [mod_pow_mod (Nat.le_succ d), h]
  have hlt : a % 2 ^ (d + 1) < 2 ^ (d + 1) :=
    Nat.mod_lt _ (Nat.two_pow_pos _)
  generalize hg : a % 2 ^ (d + 1) = m at hm hlt ⊢
  have hdm : 2 ^ d * (m / 2 ^ d) + m % 2 ^ d = m := Nat.div_add_mod m (2 ^ d)
  have hq : m / 2 ^ d < 2 := Nat.div_lt_of_lt_mul (by
    calc m < 2 ^ (d + 1) := hlt
    _ = 2 ^ d * 2 := by ring)
  rcases Nat.le_one_iff_eq_zero_or_eq_one.mp (Nat.lt_succ_iff.mp hq) with
      h2 | h2 <;>
    rw [h2, hm] at hdm <;> omega

theorem getD_lt {α : Type} {l : List α} {i : Nat} {d : α} (h : i < l.length) :
    l.getD i d = l[i] := by
  simp [List.getElem?_eq_getElem h]

theorem getD_append_self {l : List Nat} {i : Nat} (h : i < 2 * l.length) :
    (l ++ l).getD i 0 = l.getD (i % l.length) 0 := by
  by_cases hi : i < l.length
  · rw [Nat.mod_eq_of_lt hi, getD_lt (by simp; omega), getD_lt hi]
    exact List.getElem_append_left hi
  · push_neg at hi
    have hpos : 0 < l.length := by omega
    have h2 : i % l.length = i - l.length := by
      rw [Nat.mod_eq_sub_mod hi, Nat.mod_eq_of_lt (by omega)]
    rw [h2, getD_lt (by simp; omega), getD_lt (by omega)]
    exact List.getElem_append_right hi

theorem find?_filter_of_imp {α : Type} {p q : α → Bool} :
    ∀ {l : List α}, (∀ x ∈ l, q x = true → p x = true) →
      (l.filter p).find? q = l.find? q := by
  intro l
  induction l with
  | nil => intro _; simp
  | cons a rest ih =>
    intro h
    have hrest := ih fun x hx => h x (List.mem_cons_of_mem a hx)
    by_cases hq : q a = true
    · have hp : p a = true := h a (List.mem_cons_self a rest) hq
      rw [List.filter_cons_of_pos hp, List.find?_cons_of_pos _ hq,
        List.find?_cons_of_pos _ hq]
    · cases hp : p a with
      | false =>
        rw [List.filter_cons_of_neg (by simp [hp]), hrest,
          List.find?_cons_of_neg _ hq]
      | true =>
        rw [List.filter_cons_of_pos hp, List.find?_cons_of_neg _ hq,
          List.find?_cons_of_neg _ hq, hrest]

/-! ### Extendible-hash-table lemmas -/

theorem Bucket.Insert_append {cap : Nat} {b : Bucket K V} {key : K}
    {value : V} (hmem : key ∉ b.items.map Prod.fst)
    (hlt : b.items.length < cap) :
    Bucket.Insert cap b key value =
      some { b with items := b.items ++ [(key, value)] } := by
  unfold Bucket.Insert
  rw [Bucket.updateFirst_eq_none.mpr hmem]
  have hf : Bucket.IsFull cap b = false := by
    simp only [Bucket.IsFull, decide_eq_false_iff_not]
    omega
  rw [hf]
  simp

namespace EHT

theorem rebindDir_length {oldMask currMask oldHash newId : Nat}
    {dir : List Nat} :
    (rebindDir oldMask currMask oldHash newId dir).length = dir.length := by
  simp [rebindDir]

theorem rebindDir_getD {oldMask currMask oldHash newId : Nat}
    {dir : List Nat} {i : Nat} (h : i < dir.length) :
    (rebindDir oldMask currMask oldHash newId dir).getD i 0 =
      if i &&& oldMask = oldHash ∧ i &&& currMask ≠ oldHash then newId
      else dir.getD i 0 := by
  rw [getD_lt (by simpa [rebindDir] using h)]
  simp [rebindDir]

omit [DecidableEq K] in
theorem IndexOf_eq_mod {hash : K → Nat} (s : EHT K V) (key : K) :
    s.IndexOf hash key = hash key % 2 ^ s.globalDepth := by
  simp [IndexOf, Nat.and_pow_two_sub_one_eq_mod]

omit [DecidableEq K] in
theorem IndexOf_lt {hash : K → Nat} {s : EHT K V} (hInv : Inv hash s)
    (key : K) : s.IndexOf hash key < s.dir.length := by
  rw [IndexOf_eq_mod, hInv.dlen]
  exact Nat.mod_lt _ (Nat.two_pow_pos _)

theorem redist_eq {hash : K → Nat} {cap currMask oldHash : Nat} :
    ∀ (l : List (K × V)) (nb : Bucket K V),
      (l.map Prod.fst).Nodup →
      (∀ k ∈ l.map Prod.fst, k ∉ nb.items.map Prod.fst) →
      nb.items.length +
          (l.filter fun kv =>
            !decide (hash kv.1 &&& currMask = oldHash)).length ≤
        cap →
      redist hash cap currMask oldHash l nb =
        (l.filter fun kv => decide (hash kv.1 &&& currMask = oldHash),
          { nb with
            items := nb.items ++
              l.filter fun kv =>
                !decide (hash kv.1 &&& currMask = oldHash) })
  | [], nb => by
    intro _ _ _
    simp [redist]
  | kv :: rest, nb => by
    intro hnd hdis hlen
    simp only [List.map_cons, List.nodup_cons] at hnd
    by_cases hp : hash kv.1 &&& currMask = oldHash
    · have hfc :
          (kv :: rest).filter
              (fun kv => !decide (hash kv.1 &&& currMask = oldHash)) =
            rest.filter
              (fun kv => !decide (hash kv.1 &&& currMask = oldHash)) := by
        rw [List.filter_cons_of_neg (by simp [hp])]
      have hlen2 : nb.items.length +
          (rest.filter fun kv =>
            !decide (hash kv.1 &&& currMask = oldHash)).length ≤ cap := by
        rw [← hfc]
        exact hlen
      have ih := @redist_eq hash cap currMask oldHash rest nb hnd.2
        (fun k hk => hdis k (List.mem_cons_of_mem _ hk)) hlen2
      simp only [redist, ih]
      rw [List.filter_cons_of_pos (by simp [hp]), hfc,
        if_neg (show ¬(hash kv.1 &&& currMask ≠ oldHash) from
          fun hcon => hcon hp)]
    · have hfc :
          (kv :: rest).filter
              (fun kv => !decide (hash kv.1 &&& currMask = oldHash)) =
            kv :: rest.filter
              (fun kv => !decide (hash kv.1 &&& currMask = oldHash)) := by
        rw [List.filter_cons_of_pos (by simp [hp])]
      rw [hfc] at hlen
      simp only [List.length_cons] at hlen
      have hins : Bucket.Insert cap nb kv.1 kv.2 =
          some { nb with items := nb.items ++ [(kv.1, kv.2)] } :=
        Bucket.Insert_append (hdis kv.1 (by simp)) (by omega)
      have hlen2 : ({ nb with items := nb.items ++ [(kv.1, kv.2)] } :
            Bucket K V).items.length +
          (rest.filter fun kv =>
            !decide (hash kv.1 &&& currMask = oldHash)).length ≤ cap := by
        simp only [List.length_append, List.length_cons, List.length_nil]
        omega
      have ih := @redist_eq hash cap currMask oldHash rest
        { nb with items := nb.items ++ [(kv.1, kv.2)] } hnd.2
        (fun k hk => by
          simp only [List.map_append, List.mem_append, List.map_cons,
            List.map_nil, List.mem_singleton, List.mem_cons,
            List.not_mem_nil, or_false]
          intro hor
          rcases hor with h1 | h2
          · exact hdis k (List.mem_cons_of_mem _ hk) h1
          · exact hnd.1 (h2 ▸ hk)) hlen2
      simp only [redist, if_pos hp, hins, Option.getD_some, ih]
      rw [List.filter_cons_of_neg (by simp [hp]), hfc]
      simp

theorem bucketAt_set_self {s : EHT K V} {bid : Nat} {b : Bucket K V}
    (hbid : bid < s.buckets.length) :
    ({ s with buckets := s.buckets.set bid b } : EHT K V).bucketAt bid = b := by
  unfold bucketAt
  rw [getD_lt (by simpa using hbid)]
  simp

theorem bucketAt_set_ne {s : EHT K V} {bid : Nat} {b : Bucket K V} {c : Nat}
    (hne : c ≠ bid) :
    ({ s with buckets := s.buckets.set bid b } : EHT K V).bucketAt c =
      s.bucketAt c := by
  unfold bucketAt
  by_cases hlt : c < s.buckets.length
  · rw [getD_lt (by simpa using hlt), getD_lt hlt]
    exact List.getElem_set_ne (fun h => hne h.symm) (by simpa using hlt)
  · rw [List.getD_eq_getElem?_getD, List.getD_eq_getElem?_getD,
      List.getElem?_eq_none (by simpa using hlt),
      List.getElem?_eq_none (by omega)]

theorem mem_allKeys {s : EHT K V} {k : K} :
    k ∈ s.allKeys ↔ ∃ b ∈ s.buckets, k ∈ b.items.map Prod.fst := by
  unfold allKeys
  rw [List.mem_flatten]
  constructor
  · intro ⟨l, hl, hk⟩
    rw [List.mem_map] at hl
    obtain ⟨b, hb, rfl⟩ := hl
    exact ⟨b, hb, hk⟩
  · intro ⟨b, hb, hk⟩
    exact ⟨b.items.map Prod.fst, List.mem_map_of_mem _ hb, hk⟩

theorem bucketAt_mem {s : EHT K V} {bid : Nat} (h : bid < s.buckets.length) :
    s.bucketAt bid ∈ s.buckets := by
  unfold bucketAt
  rw [getD_lt h]
  exact List.getElem_mem h

theorem succStep_spec {hash : K → Nat} {s s2 : EHT K V} {key : K} {value : V}
    {b2 : Bucket K V} (hInv : Inv hash s)
    (hsucc : Bucket.Insert s.bucketSize
      (s.bucketAt (s.dir.getD (s.IndexOf hash key) 0)) key value = some b2)
    (hs2 : s2 = { s with
      buckets := s.buckets.set (s.dir.getD (s.IndexOf hash key) 0) b2 }) :
    Inv hash s2 ∧ Find hash s2 key = some value ∧
      (∀ k2, k2 ≠ key → Find hash s2 k2 = Find hash s k2) ∧
      (∀ k ∈ s2.allKeys, k ∈ s.allKeys ∨ k = key) := by
  have hidx : s.IndexOf hash key < s.dir.length := IndexOf_lt hInv key
  set idx := s.IndexOf hash key with hidxdef
  set bid := s.dir.getD idx 0 with hbiddef
  have hbid : bid < s.buckets.length := hInv.refs idx hidx
  set b := s.bucketAt bid with hbdef
  -- the state shares the directory and all buckets except `bid`
  have hdir2 : s2.dir = s.dir := by rw [hs2]
  have hgd2 : s2.globalDepth = s.globalDepth := by rw [hs2]
  have hbs2 : s2.bucketSize = s.bucketSize := by rw [hs2]
  have hAtBid : s2.bucketAt bid = b2 := by
    rw [hs2]; exact bucketAt_set_self hbid
  have hAtNe : ∀ c, c ≠ bid → s2.bucketAt c = s.bucketAt c := by
    intro c hc
    rw [hs2]; exact bucketAt_set_ne hc
  have hdepth : ∀ c, (s2.bucketAt c).depth = (s.bucketAt c).depth := by
    intro c
    by_cases hc : c = bid
    · rw [hc, hAtBid, ← hbdef, Bucket.Insert_depth hsucc]
    · rw [hAtNe c hc]
  have hIdxEq : ∀ k2, s2.IndexOf hash k2 = s.IndexOf hash k2 := by
    intro k2
    rw [IndexOf_eq_mod, IndexOf_eq_mod, hgd2]
  have hkeyRes : ∀ i, i < s.dir.length → s.dir.getD i 0 = bid →
      hash key % 2 ^ b.depth = i % 2 ^ b.depth := by
    intro i hi hieq
    have hdep : b.depth ≤ s.globalDepth := by
      have := hInv.depthLe idx hidx
      rw [← hbiddef, ← hbdef] at this
      exact this
    have h1 : hash key % 2 ^ b.depth = idx % 2 ^ b.depth := by
      rw [hidxdef, IndexOf_eq_mod, mod_pow_mod hdep]
    have h2 := hInv.agree i idx hi hidx (by rw [hieq])
    rw [hieq] at h2
    rw [h1, hbdef]
    exact h2.symm
  refine ⟨?_, ?_, ?_, ?_⟩
  · -- the invariant is preserved
    refine ⟨by rw [hbs2]; exact hInv.bsPos,
      by rw [hdir2, hgd2]; exact hInv.dlen, ?_, ?_, ?_, ?_, ?_, ?_, ?_⟩
    · intro i hi
      rw [hdir2] at hi ⊢
      rw [hs2]
      simpa using hInv.refs i hi
    · intro i hi
      rw [hdir2] at hi ⊢
      rw [hdepth, hgd2]
      exact hInv.depthLe i hi
    · intro i j hi hj heq
      rw [hdir2] at hi hj heq ⊢
      rw [hdepth]
      exact hInv.agree i j hi hj heq
    · intro i j hi hj heq
      rw [hdir2] at hi hj heq ⊢
      rw [hdepth] at heq
      exact hInv.complete i j hi hj heq
    · intro i hi k hk
      rw [hdir2] at hi hk ⊢
      rw [hdepth]
      by_cases hc : s.dir.getD i 0 = bid
      · rw [hc, hAtBid] at hk
        rcases Bucket.Insert_keys hsucc with hkk | ⟨_, hkk, _⟩ <;>
            rw [hkk] at hk
        · exact hInv.keysRes i hi k (by rw [hc, ← hbdef]; exact hk)
        · rw [List.mem_append, List.mem_singleton] at hk
          rcases hk with hk | rfl
          · exact hInv.keysRes i hi k (by rw [hc, ← hbdef]; exact hk)
          · rw [hc, ← hbdef]
            exact hkeyRes i hi hc
      · rw [hAtNe _ hc] at hk
        exact hInv.keysRes i hi k hk
    · intro i hi
      rw [hdir2] at hi ⊢
      by_cases hc : s.dir.getD i 0 = bid
      · rw [hc, hAtBid]
        exact Bucket.Insert_nodup hsucc (by
          have := hInv.keysNodup i hi
          rw [hc, ← hbdef] at this
          exact this)
      · rw [hAtNe _ hc]
        exact hInv.keysNodup i hi
    · intro i hi
      rw [hdir2] at hi ⊢
      rw [hbs2]
      by_cases hc : s.dir.getD i 0 = bid
      · rw [hc, hAtBid]
        exact Bucket.Insert_len hsucc (by
          have := hInv.lenLe i hi
          rw [hc, ← hbdef] at this
          exact this)
      · rw [hAtNe _ hc]
        exact hInv.lenLe i hi
  · -- the inserted key is found
    unfold Find
    rw [hIdxEq, hdir2, ← hidxdef, ← hbiddef, hAtBid]
    exact Bucket.Insert_find_self hsucc
  · -- other keys are unaffected
    intro k2 hne
    unfold Find
    rw [hIdxEq, hdir2]
    by_cases hc : s.dir.getD (s.IndexOf hash k2) 0 = bid
    · rw [hc, hAtBid, ← hbdef]
      exact Bucket.Insert_find_other hne hsucc
    · rw [hAtNe _ hc]
  · -- no fresh keys except the inserted one
    intro k hk
    rw [mem_allKeys] at hk
    obtain ⟨bb, hbb, hkbb⟩ := hk
    rw [hs2] at hbb
    simp only at hbb
    have hbmem : b ∈ s.buckets := by
      rw [hbdef]
      exact bucketAt_mem hbid
    rcases List.mem_or_eq_of_mem_set hbb with hbb | rfl
    · exact Or.inl (mem_allKeys.mpr ⟨bb, hbb, hkbb⟩)
    · rcases Bucket.Insert_keys hsucc with hkk | ⟨_, hkk, _⟩ <;>
          rw [hkk] at hkbb
      · exact Or.inl (mem_allKeys.mpr ⟨b, hbmem, hkbb⟩)
      · rw [List.mem_append, List.mem_singleton] at hkbb
        rcases hkbb with hkbb | rfl
        · exact Or.inl (mem_allKeys.mpr ⟨b, hbmem, hkbb⟩)
        · exact Or.inr rfl

theorem doubleStep_spec {hash : K → Nat} {s s2 : EHT K V} (hInv : Inv hash s)
    (hs2 : s2 =
      { s with globalDepth := s.globalDepth + 1, dir := s.dir ++ s.dir }) :
    Inv hash s2 ∧ (∀ k2, Find hash s2 k2 = Find hash s k2) ∧
      s2.allKeys = s.allKeys ∧
      (∀ key, s2.dir.getD (s2.IndexOf hash key) 0 =
        s.dir.getD (s.IndexOf hash key) 0) := by
  have hlen : s.dir.length = 2 ^ s.globalDepth := hInv.dlen
  have hpow : 2 ^ (s.globalDepth + 1) = 2 * 2 ^ s.globalDepth := by ring
  have hgd : s2.globalDepth = s.globalDepth + 1 := by rw [hs2]
  have hbs : s2.bucketSize = s.bucketSize := by rw [hs2]
  have hbuck : s2.buckets = s.buckets := by rw [hs2]
  have hbAt : ∀ c, s2.bucketAt c = s.bucketAt c := by
    intro c
    unfold bucketAt
    rw [hbuck]
  have hdlen2 : s2.dir.length = 2 ^ (s.globalDepth + 1) := by
    rw [hs2]
    simp only [List.length_append]
    omega
  have hdir : ∀ i, i < 2 ^ (s.globalDepth + 1) →
      s2.dir.getD i 0 = s.dir.getD (i % 2 ^ s.globalDepth) 0 := by
    intro i hi
    have h2i : i < 2 * s.dir.length := by rw [hlen]; omega
    calc s2.dir.getD i 0 = (s.dir ++ s.dir).getD i 0 := by rw [hs2]
    _ = s.dir.getD (i % s.dir.length) 0 := getD_append_self h2i
    _ = s.dir.getD (i % 2 ^ s.globalDepth) 0 := by rw [hlen]
  have hmlt : ∀ i : Nat, i % 2 ^ s.globalDepth < s.dir.length := by
    intro i
    rw [hlen]
    exact Nat.mod_lt _ (Nat.two_pow_pos _)
  have hdepLe : ∀ i : Nat,
      (s.bucketAt (s.dir.getD (i % 2 ^ s.globalDepth) 0)).depth ≤
        s.globalDepth :=
    fun i => hInv.depthLe _ (hmlt i)
  refine ⟨?_, ?_, ?_, ?_⟩
  · refine ⟨by rw [hbs]; exact hInv.bsPos, by rw [hdlen2, hgd], ?_, ?_, ?_,
      ?_, ?_, ?_, ?_⟩
    · intro i hi
      rw [hdlen2] at hi
      rw [hdir i hi, hbuck]
      exact hInv.refs _ (hmlt i)
    · intro i hi
      rw [hdlen2] at hi
      rw [hdir i hi, hbAt, hgd]
      exact Nat.le_succ_of_le (hdepLe i)
    · intro i j hi hj heq
      rw [hdlen2] at hi hj
      rw [hdir i hi, hdir j hj] at heq
      rw [hdir i hi, hbAt]
      have hagree := hInv.agree _ _ (hmlt i) (hmlt j) heq
      have hdep := hdepLe i
      calc i % 2 ^ (s.bucketAt (s.dir.getD (i % 2 ^ s.globalDepth) 0)).depth
          = i % 2 ^ s.globalDepth %
            2 ^ (s.bucketAt (s.dir.getD (i % 2 ^ s.globalDepth) 0)).depth :=
            (mod_pow_mod hdep).symm
      _ = j % 2 ^ s.globalDepth %
            2 ^ (s.bucketAt (s.dir.getD (i % 2 ^ s.globalDepth) 0)).depth :=
            hagree
      _ = j % 2 ^ (s.bucketAt (s.dir.getD (i % 2 ^ s.globalDepth) 0)).depth :=
            mod_pow_mod hdep
    · intro i j hi hj heq
      rw [hdlen2] at hi hj
      rw [hdir j hj, hbAt] at heq
      rw [hdir i hi, hdir j hj]
      have hdep := hdepLe j
      refine hInv.complete _ _ (hmlt i) (hmlt j) ?_
      rw [mod_pow_mod hdep, mod_pow_mod hdep]
      exact heq
    · intro i hi k hk
      rw [hdlen2] at hi
      rw [hdir i hi, hbAt] at hk ⊢
      have hdep := hdepLe i
      have hres := hInv.keysRes _ (hmlt i) k hk
      rw [hres, mod_pow_mod hdep]
    · intro i hi
      rw [hdlen2] at hi
      rw [hdir i hi, hbAt]
      exact hInv.keysNodup _ (hmlt i)
    · intro i hi
      rw [hdlen2] at hi
      rw [hdir i hi, hbAt, hbs]
      exact hInv.lenLe _ (hmlt i)
  · intro k2
    unfold Find
    have hi2 : s2.IndexOf hash k2 < 2 ^ (s.globalDepth + 1) := by
      rw [IndexOf_eq_mod, hgd]
      exact Nat.mod_lt _ (Nat.two_pow_pos _)
    rw [hdir _ hi2, hbAt]
    have : s2.IndexOf hash k2 % 2 ^ s.globalDepth = s.IndexOf hash k2 := by
      rw [IndexOf_eq_mod, IndexOf_eq_mod, hgd,
        mod_pow_mod (Nat.le_succ s.globalDepth)]
    rw [this]
  · rw [hs2]
    rfl
  · intro key
    have hi2 : s2.IndexOf hash key < 2 ^ (s.globalDepth + 1) := by
      rw [IndexOf_eq_mod, hgd]
      exact Nat.mod_lt _ (Nat.two_pow_pos _)
    rw [hdir _ hi2]
    have : s2.IndexOf hash key % 2 ^ s.globalDepth = s.IndexOf hash key := by
      rw [IndexOf_eq_mod, IndexOf_eq_mod, hgd,
        mod_pow_mod (Nat.le_succ s.globalDepth)]
    rw [this]

theorem RedistributeBucket_eq {hash : K → Nat} {t : EHT K V} {bid : Nat}
    {first : K × V} {rest : List (K × V)}
    (hitems : (t.bucketAt bid).items = first :: rest)
    (hnd : ((t.bucketAt bid).items.map Prod.fst).Nodup)
    (hcap : (t.bucketAt bid).items.length ≤ t.bucketSize) :
    RedistributeBucket hash t bid =
      { globalDepth := t.globalDepth, bucketSize := t.bucketSize,
        numBuckets := t.numBuckets + 1,
        buckets := t.buckets.set bid
            { items := (t.bucketAt bid).items.filter fun kv =>
                decide (hash kv.1 &&& (2 ^ (t.bucketAt bid).depth - 1) =
                  hash first.1 &&& (2 ^ ((t.bucketAt bid).depth - 1) - 1)),
              depth := (t.bucketAt bid).depth } ++
          [{ items := (t.bucketAt bid).items.filter fun kv =>
                !decide (hash kv.1 &&& (2 ^ (t.bucketAt bid).depth - 1) =
                  hash first.1 &&& (2 ^ ((t.bucketAt bid).depth - 1) - 1)),
              depth := (t.bucketAt bid).depth }],
        dir := rebindDir (2 ^ ((t.bucketAt bid).depth - 1) - 1)
          (2 ^ (t.bucketAt bid).depth - 1)
          (hash first.1 &&& (2 ^ ((t.bucketAt bid).depth - 1) - 1))
          t.buckets.length t.dir } := by
  have hnd2 : ((first :: rest).map Prod.fst).Nodup := by
    rw [← hitems]
    exact hnd
  have hcap2 : (first :: rest).length ≤ t.bucketSize := by
    rw [← hitems]
    exact hcap
  have hredist := @redist_eq K V _ hash t.bucketSize
    (2 ^ (t.bucketAt bid).depth - 1)
    (hash first.1 &&& (2 ^ ((t.bucketAt bid).depth - 1) - 1))
    (first :: rest) { items := [], depth := (t.bucketAt bid).depth }
    hnd2 (by intro k _ hk; simp at hk)
    (by
      simp only [List.length_nil, Nat.zero_add]
      exact le_trans (List.length_filter_le _ _) hcap2)
  simp only [RedistributeBucket, hitems, hredist]
  simp

theorem splitStep_spec {hash : K → Nat} {s s2 : EHT K V} {idx : Nat}
    (hInv : Inv hash s) (hidx : idx < s.dir.length)
    (hfull : s.bucketSize ≤ (s.bucketAt (s.dir.getD idx 0)).items.length)
    (hdlt : (s.bucketAt (s.dir.getD idx 0)).depth < s.globalDepth)
    (hs2 : s2 = RedistributeBucket hash
      { s with
        buckets := s.buckets.set (s.dir.getD idx 0)
          { s.bucketAt (s.dir.getD idx 0) with
            depth := (s.bucketAt (s.dir.getD idx 0)).depth + 1 } }
      (s.dir.getD idx 0)) :
    Inv hash s2 ∧ (∀ k2, Find hash s2 k2 = Find hash s k2) ∧
      s2.globalDepth = s.globalDepth ∧ s2.bucketSize = s.bucketSize ∧
      (s2.bucketAt (s2.dir.getD idx 0)).depth =
        (s.bucketAt (s.dir.getD idx 0)).depth + 1 ∧
      (∀ k ∈ s2.allKeys, k ∈ s.allKeys) := by
  have hbid : s.dir.getD idx 0 < s.buckets.length := hInv.refs idx hidx
  have hcappos : 0 < s.bucketSize := hInv.bsPos
  have hndB : ((s.bucketAt (s.dir.getD idx 0)).items.map Prod.fst).Nodup :=
    hInv.keysNodup idx hidx
  have hlenB : (s.bucketAt (s.dir.getD idx 0)).items.length ≤ s.bucketSize :=
    hInv.lenLe idx hidx
  obtain ⟨bid, hbidg⟩ : ∃ c, s.dir.getD idx 0 = c := ⟨_, rfl⟩
  rw [hbidg] at hbid hfull hdlt hs2 hndB hlenB ⊢
  obtain ⟨b, hbg⟩ : ∃ bb, s.bucketAt bid = bb := ⟨_, rfl⟩
  rw [hbg] at hfull hdlt hs2 hndB hlenB ⊢
  obtain ⟨d0, hd0⟩ : ∃ dd, b.depth = dd := ⟨_, rfl⟩
  rw [hd0] at hdlt hs2 ⊢
  have hne : b.items ≠ [] := by
    intro h
    rw [h] at hfull
    simp at hfull
    omega
  obtain ⟨first, rest, hitems⟩ : ∃ f r, b.items = f :: r := by
    cases hb : b.items with
    | nil => exact absurd hb hne
    | cons f r => exact ⟨f, r, rfl⟩
  -- reduce the redistribution to an explicit record
  obtain ⟨t, ht⟩ : ∃ t : EHT K V, t =
      { s with
        buckets := s.buckets.set bid { b with depth := d0 + 1 } } :=
    ⟨_, rfl⟩
  rw [← ht] at hs2
  have htAt : t.bucketAt bid = { b with depth := d0 + 1 } := by
    rw [ht]
    exact bucketAt_set_self hbid
  have hitems2 : (t.bucketAt bid).items = first :: rest := by
    rw [htAt]
    exact hitems
  have hnd2 : ((t.bucketAt bid).items.map Prod.fst).Nodup := by
    rw [htAt]
    exact hndB
  have hcap2 : (t.bucketAt bid).items.length ≤ t.bucketSize := by
    rw [htAt, ht]
    exact hlenB
  have hsE : s2 =
      { globalDepth := s.globalDepth, bucketSize := s.bucketSize,
        numBuckets := s.numBuckets + 1,
        buckets := s.buckets.set bid
            { items := b.items.filter fun kv =>
                decide (hash kv.1 &&& (2 ^ (d0 + 1) - 1) =
                  hash first.1 &&& (2 ^ d0 - 1)),
              depth := d0 + 1 } ++
          [{ items := b.items.filter fun kv =>
                !decide (hash kv.1 &&& (2 ^ (d0 + 1) - 1) =
                  hash first.1 &&& (2 ^ d0 - 1)),
              depth := d0 + 1 }],
        dir := rebindDir (2 ^ d0 - 1) (2 ^ (d0 + 1) - 1)
          (hash first.1 &&& (2 ^ d0 - 1)) s.buckets.length s.dir } := by
    rw [hs2, @RedistributeBucket_eq K V _ hash _ _ first rest
      hitems2 hnd2 hcap2]
    rw [htAt, ht]
    simp [List.set_set]
  -- arithmetic abbreviations
  have hrhlt : idx % 2 ^ d0 < 2 ^ d0 := Nat.mod_lt _ (Nat.two_pow_pos _)
  have hdle : d0 + 1 ≤ s.globalDepth := hdlt
  have hoh : hash first.1 &&& (2 ^ d0 - 1) = idx % 2 ^ d0 := by
    rw [Nat.and_pow_two_sub_one_eq_mod]
    have hx := hInv.keysRes idx hidx first.1 (by
      rw [hbidg, hbg, hitems]
      simp)
    rw [hbidg, hbg, hd0] at hx
    exact hx
  have hproj : ∀ i : Nat, i % 2 ^ (d0 + 1) % 2 ^ d0 = i % 2 ^ d0 :=
    fun i => mod_pow_mod (Nat.le_succ d0)
  -- directory slot characterization
  have hgd2 : s2.globalDepth = s.globalDepth := by rw [hsE]
  have hbs2 : s2.bucketSize = s.bucketSize := by rw [hsE]
  have hdlen2 : s2.dir.length = s.dir.length := by
    rw [hsE]
    exact rebindDir_length
  have hdirEq : ∀ i, i < s.dir.length → s2.dir.getD i 0 =
      if i % 2 ^ d0 = idx % 2 ^ d0 ∧ i % 2 ^ (d0 + 1) ≠ idx % 2 ^ d0
      then s.buckets.length else s.dir.getD i 0 := by
    intro i hi
    have h1 : s2.dir = rebindDir (2 ^ d0 - 1) (2 ^ (d0 + 1) - 1)
        (hash first.1 &&& (2 ^ d0 - 1)) s.buckets.length s.dir := by
      rw [hsE]
    rw [h1, rebindDir_getD hi]
    simp only [Nat.and_pow_two_sub_one_eq_mod]
    rw [Nat.and_pow_two_sub_one_eq_mod] at hoh
    rw [hoh]
  have hdirOld : ∀ i, i < s.dir.length →
      i % 2 ^ (d0 + 1) = idx % 2 ^ d0 →
      s2.dir.getD i 0 = bid ∧ s.dir.getD i 0 = bid := by
    intro i hi h1
    have h0 : i % 2 ^ d0 = idx % 2 ^ d0 := by
      rw [← hproj i, h1, Nat.mod_eq_of_lt hrhlt]
    have hsd : s.dir.getD i 0 = bid := by
      rw [← hbidg]
      refine hInv.complete i idx hi hidx ?_
      rw [hbidg, hbg, hd0]
      exact h0
    refine ⟨?_, hsd⟩
    rw [hdirEq i hi, if_neg, hsd]
    intro ⟨_, hcon⟩
    exact hcon h1
  have hdirNew : ∀ i, i < s.dir.length →
      i % 2 ^ (d0 + 1) = idx % 2 ^ d0 + 2 ^ d0 →
      s2.dir.getD i 0 = s.buckets.length ∧ s.dir.getD i 0 = bid := by
    intro i hi h1
    have h0 : i % 2 ^ d0 = idx % 2 ^ d0 := by
      rw [← hproj i, h1, Nat.add_mod_right, Nat.mod_eq_of_lt hrhlt]
    have hsd : s.dir.getD i 0 = bid := by
      rw [← hbidg]
      refine hInv.complete i idx hi hidx ?_
      rw [hbidg, hbg, hd0]
      exact h0
    refine ⟨?_, hsd⟩
    rw [hdirEq i hi, if_pos]
    exact ⟨h0, by omega⟩
  have hdirOth : ∀ i, i < s.dir.length → i % 2 ^ d0 ≠ idx % 2 ^ d0 →
      s2.dir.getD i 0 = s.dir.getD i 0 ∧ s.dir.getD i 0 ≠ bid := by
    intro i hi h0
    constructor
    · rw [hdirEq i hi, if_neg]
      intro ⟨hcon, _⟩
      exact h0 hcon
    · intro hcon
      refine h0 ?_
      have hx := hInv.agree i idx hi hidx (by rw [hbidg, hcon])
      rw [hcon, hbg, hd0] at hx
      exact hx
  -- bucket accesses in the new state
  have hAtBid2 : s2.bucketAt bid =
      { items := b.items.filter fun kv =>
          decide (hash kv.1 &&& (2 ^ (d0 + 1) - 1) =
            hash first.1 &&& (2 ^ d0 - 1)),
        depth := d0 + 1 } := by
    rw [hsE]
    unfold bucketAt
    rw [getD_lt (by simp; omega)]
    rw [List.getElem_append_left (by simpa using hbid)]
    simp [hbid]
  have hAtNew2 : s2.bucketAt s.buckets.length =
      { items := b.items.filter fun kv =>
          !decide (hash kv.1 &&& (2 ^ (d0 + 1) - 1) =
            hash first.1 &&& (2 ^ d0 - 1)),
        depth := d0 + 1 } := by
    rw [hsE]
    unfold bucketAt
    rw [getD_lt (by simp)]
    rw [List.getElem_append_right (by simp)]
    simp
  have hAtOth2 : ∀ c, c < s.buckets.length → c ≠ bid →
      s2.bucketAt c = s.bucketAt c := by
    intro c hc hcb
    rw [hsE]
    unfold bucketAt
    rw [getD_lt (by simp; omega), getD_lt hc]
    rw [List.getElem_append_left (by simpa using hc)]
    exact List.getElem_set_ne (fun h => hcb h.symm) (by simpa using hc)
  have hbidNotNew : bid ≠ s.buckets.length := by omega
  -- hash residues of keys in the two halves
  have hkeyClass : ∀ k2 : K, hash k2 % 2 ^ (d0 + 1) =
      s.IndexOf hash k2 % 2 ^ (d0 + 1) := by
    intro k2
    rw [IndexOf_eq_mod, mod_pow_mod hdle]
  refine ⟨?_, ?_, hgd2, hbs2, ?_, ?_⟩
  · -- the invariant
    refine ⟨by rw [hbs2]; exact hcappos, by rw [hdlen2, hgd2]; exact hInv.dlen,
      ?_, ?_, ?_, ?_, ?_, ?_, ?_⟩
    · -- refs
      intro i hi
      rw [hdlen2] at hi
      have hlen2 : s2.buckets.length = s.buckets.length + 1 := by
        rw [hsE]
        simp
      rw [hlen2, hdirEq i hi]
      by_cases hc : i % 2 ^ d0 = idx % 2 ^ d0 ∧
          i % 2 ^ (d0 + 1) ≠ idx % 2 ^ d0
      · rw [if_pos hc]; omega
      · rw [if_neg hc]
        have := hInv.refs i hi
        omega
    · -- depthLe
      intro i hi
      rw [hdlen2] at hi
      rw [hgd2]
      by_cases h0 : i % 2 ^ d0 = idx % 2 ^ d0
      · rcases mod_pow_succ_cases h0 with h1 | h1
        · rw [(hdirOld i hi h1).1, hAtBid2]
          exact hdle
        · rw [(hdirNew i hi h1).1, hAtNew2]
          exact hdle
      · obtain ⟨he, hnb⟩ := hdirOth i hi h0
        rw [he, hAtOth2 _ (hInv.refs i hi) hnb]
        exact hInv.depthLe i hi
    · -- agree
      intro i j hi hj heq
      rw [hdlen2] at hi hj
      by_cases h0i : i % 2 ^ d0 = idx % 2 ^ d0
      · rcases mod_pow_succ_cases h0i with h1i | h1i
        · obtain ⟨hei, _⟩ := hdirOld i hi h1i
          rw [hei, hAtBid2]
          by_cases h0j : j % 2 ^ d0 = idx % 2 ^ d0
          · rcases mod_pow_succ_cases h0j with h1j | h1j
            · rw [h1i, h1j]
            · obtain ⟨hej, _⟩ := hdirNew j hj h1j
              rw [hei, hej] at heq
              exact absurd heq hbidNotNew
          · obtain ⟨hej, hnbj⟩ := hdirOth j hj h0j
            rw [hei, hej] at heq
            exact absurd heq.symm hnbj
        · obtain ⟨hei, _⟩ := hdirNew i hi h1i
          rw [hei, hAtNew2]
          by_cases h0j : j % 2 ^ d0 = idx % 2 ^ d0
          · rcases mod_pow_succ_cases h0j with h1j | h1j
            · obtain ⟨hej, _⟩ := hdirOld j hj h1j
              rw [hei, hej] at heq
              exact absurd heq.symm hbidNotNew
            · rw [h1i, h1j]
          · obtain ⟨hej, hnbj⟩ := hdirOth j hj h0j
            rw [hei, hej] at heq
            have := hInv.refs j hj
            omega
      · obtain ⟨hei, hnbi⟩ := hdirOth i hi h0i
        rw [hei, hAtOth2 _ (hInv.refs i hi) hnbi]
        by_cases h0j : j % 2 ^ d0 = idx % 2 ^ d0
        · rcases mod_pow_succ_cases h0j with h1j | h1j
          · obtain ⟨hej, _⟩ := hdirOld j hj h1j
            rw [hei, hej] at heq
            exact absurd heq hnbi
          · obtain ⟨hej, _⟩ := hdirNew j hj h1j
            rw [hei, hej] at heq
            have := hInv.refs i hi
            rw [heq] at this
            omega
        · obtain ⟨hej, _⟩ := hdirOth j hj h0j
          rw [hei, hej] at heq
          exact hInv.agree i j hi hj heq
    · -- complete
      intro i j hi hj heq
      rw [hdlen2] at hi hj
      by_cases h0j : j % 2 ^ d0 = idx % 2 ^ d0
      · rcases mod_pow_succ_cases h0j with h1j | h1j
        · obtain ⟨hej, _⟩ := hdirOld j hj h1j
          rw [hej, hAtBid2] at heq
          simp only at heq
          rw [hej, (hdirOld i hi (by rw [heq, h1j])).1]
        · obtain ⟨hej, _⟩ := hdirNew j hj h1j
          rw [hej, hAtNew2] at heq
          simp only at heq
          rw [hej, (hdirNew i hi (by rw [heq, h1j])).1]
      · obtain ⟨hej, hnbj⟩ := hdirOth j hj h0j
        rw [hej, hAtOth2 _ (hInv.refs j hj) hnbj] at heq
        have hsij : s.dir.getD i 0 = s.dir.getD j 0 :=
          hInv.complete i j hi hj heq
        have h0i : i % 2 ^ d0 ≠ idx % 2 ^ d0 := by
          intro hcon
          refine hnbj ?_
          rw [← hsij, ← hbidg]
          refine hInv.complete i idx hi hidx ?_
          rw [hbidg, hbg, hd0]
          exact hcon
        obtain ⟨hei, _⟩ := hdirOth i hi h0i
        rw [hei, hej, hsij]
    · -- keysRes
      intro i hi k hk
      rw [hdlen2] at hi
      by_cases h0 : i % 2 ^ d0 = idx % 2 ^ d0
      · rcases mod_pow_succ_cases h0 with h1 | h1
        · obtain ⟨hei, _⟩ := hdirOld i hi h1
          rw [hei, hAtBid2] at hk ⊢
          simp only [List.mem_map] at hk
          obtain ⟨kv, hkv, rfl⟩ := hk
          rw [List.mem_filter] at hkv
          have hp := hkv.2
          simp only [decide_eq_true_eq, Nat.and_pow_two_sub_one_eq_mod]
            at hp
          rw [Nat.and_pow_two_sub_one_eq_mod] at hoh
          simp only []
          rw [hp, hoh, h1]
        · obtain ⟨hei, _⟩ := hdirNew i hi h1
          rw [hei, hAtNew2] at hk ⊢
          simp only [List.mem_map] at hk
          obtain ⟨kv, hkv, rfl⟩ := hk
          rw [List.mem_filter] at hkv
          have hp := hkv.2
          simp only [Bool.not_eq_eq_eq_not, Bool.not_true,
            decide_eq_false_iff_not, Nat.and_pow_two_sub_one_eq_mod] at hp
          rw [Nat.and_pow_two_sub_one_eq_mod] at hoh
          rw [hoh] at hp
          have hk0 : hash kv.1 % 2 ^ d0 = idx % 2 ^ d0 := by
            have hx := hInv.keysRes idx hidx kv.1 (by
              rw [hbidg, hbg]
              exact List.mem_map_of_mem Prod.fst hkv.1)
            rw [hbidg, hbg, hd0] at hx
            exact hx
          rcases mod_pow_succ_cases hk0 with h2 | h2
          · exact absurd h2 hp
          · simp only []
            rw [h2, h1]
      · obtain ⟨hei, hnbi⟩ := hdirOth i hi h0
        rw [hei, hAtOth2 _ (hInv.refs i hi) hnbi] at hk ⊢
        exact hInv.keysRes i hi k hk
    · -- keysNodup
      intro i hi
      rw [hdlen2] at hi
      by_cases h0 : i % 2 ^ d0 = idx % 2 ^ d0
      · rcases mod_pow_succ_cases h0 with h1 | h1
        · rw [(hdirOld i hi h1).1, hAtBid2]
          exact List.Nodup.sublist
            (List.Sublist.map Prod.fst (List.filter_sublist _)) hndB
        · rw [(hdirNew i hi h1).1, hAtNew2]
          exact List.Nodup.sublist
            (List.Sublist.map Prod.fst (List.filter_sublist _)) hndB
      · obtain ⟨hei, hnbi⟩ := hdirOth i hi h0
        rw [hei, hAtOth2 _ (hInv.refs i hi) hnbi]
        exact hInv.keysNodup i hi
    · -- lenLe
      intro i hi
      rw [hdlen2] at hi
      rw [hbs2]
      by_cases h0 : i % 2 ^ d0 = idx % 2 ^ d0
      · rcases mod_pow_succ_cases h0 with h1 | h1
        · rw [(hdirOld i hi h1).1, hAtBid2]
          exact le_trans (List.length_filter_le _ _) hlenB
        · rw [(hdirNew i hi h1).1, hAtNew2]
          exact le_trans (List.length_filter_le _ _) hlenB
      · obtain ⟨hei, hnbi⟩ := hdirOth i hi h0
        rw [hei, hAtOth2 _ (hInv.refs i hi) hnbi]
        exact hInv.lenLe i hi
  · -- find preservation
    intro k2
    have hIdx2 : s2.IndexOf hash k2 = s.IndexOf hash k2 := by
      rw [IndexOf_eq_mod, IndexOf_eq_mod, hgd2]
    have hidx2lt : s.IndexOf hash k2 < s.dir.length := IndexOf_lt hInv k2
    unfold Find
    rw [hIdx2]
    rw [Nat.and_pow_two_sub_one_eq_mod] at hoh
    by_cases h0 : s.IndexOf hash k2 % 2 ^ d0 = idx % 2 ^ d0
    · rcases mod_pow_succ_cases h0 with h1 | h1
      · obtain ⟨hei, hesi⟩ := hdirOld _ hidx2lt h1
        rw [hei, hesi, hAtBid2, hbg]
        unfold Bucket.Find
        simp only []
        rw [find?_filter_of_imp]
        intro kv _ hq
        simp only [decide_eq_true_eq] at hq
        simp only [decide_eq_true_eq, Nat.and_pow_two_sub_one_eq_mod, hoh]
        rw [hq]
        rw [← h1]
        exact hkeyClass k2
      · obtain ⟨hei, hesi⟩ := hdirNew _ hidx2lt h1
        rw [hei, hesi, hAtNew2, hbg]
        unfold Bucket.Find
        simp only []
        rw [find?_filter_of_imp]
        intro kv _ hq
        simp only [decide_eq_true_eq] at hq
        simp only [Bool.not_eq_eq_eq_not, Bool.not_true,
          decide_eq_false_iff_not, Nat.and_pow_two_sub_one_eq_mod, hoh]
        rw [hq]
        rw [hkeyClass k2, h1]
        omega
    · obtain ⟨hei, hnbi⟩ := hdirOth _ hidx2lt h0
      rw [hei, hAtOth2 _ (hInv.refs _ hidx2lt) hnbi]
  · -- the split bucket's depth grew by one
    rcases mod_pow_succ_cases (rfl : idx % 2 ^ d0 = idx % 2 ^ d0) with
        h1 | h1
    · rw [(hdirOld idx hidx h1).1, hAtBid2]
    · rw [(hdirNew idx hidx h1).1, hAtNew2]
  · -- no fresh keys
    intro k hk
    rw [mem_allKeys] at hk
    obtain ⟨bb, hbb, hkbb⟩ := hk
    have hbmem : b ∈ s.buckets := by
      rw [← hbg]
      exact bucketAt_mem hbid
    rw [hsE] at hbb
    simp only [List.mem_append, List.mem_singleton] at hbb
    rcases hbb with hbb2 | hbb2
    · rcases List.mem_or_eq_of_mem_set hbb2 with hbb3 | rfl
      · exact mem_allKeys.mpr ⟨bb, hbb3, hkbb⟩
      · refine mem_allKeys.mpr ⟨b, hbmem, ?_⟩
        simp only [List.mem_map] at hkbb ⊢
        obtain ⟨kv, hkv, rfl⟩ := hkbb
        exact ⟨kv, (List.mem_filter.mp hkv).1, rfl⟩
    · subst hbb2
      refine mem_allKeys.mpr ⟨b, hbmem, ?_⟩
      simp only [List.mem_map] at hkbb ⊢
      obtain ⟨kv, hkv, rfl⟩ := hkbb
      exact ⟨kv, (List.mem_filter.mp hkv).1, rfl⟩

theorem insertOnce_inl {hash : K → Nat} {s s1 : EHT K V} {key : K}
    {value : V} (h : insertOnce hash s key value = Sum.inl s1) :
    ∃ b2, Bucket.Insert s.bucketSize
        (s.bucketAt (s.dir.getD (s.IndexOf hash key) 0)) key value =
        some b2 ∧
      s1 = { s with
        buckets := s.buckets.set (s.dir.getD (s.IndexOf hash key) 0) b2 } := by
  simp only [insertOnce] at h
  cases hins : Bucket.Insert s.bucketSize
      (s.bucketAt (s.dir.getD (s.IndexOf hash key) 0)) key value with
  | some b2 =>
    rw [hins] at h
    exact ⟨b2, rfl, (Sum.inl.inj h).symm⟩
  | none =>
    rw [hins] at h
    by_cases hd : (s.bucketAt (s.dir.getD (s.IndexOf hash key) 0)).depth =
        s.globalDepth
    · rw [if_pos hd] at h
      cases h
    · rw [if_neg hd] at h
      cases h

theorem insertOnce_inr {hash : K → Nat} {s s1 : EHT K V} {key : K}
    {value : V} (h : insertOnce hash s key value = Sum.inr s1) :
    Bucket.Insert s.bucketSize
      (s.bucketAt (s.dir.getD (s.IndexOf hash key) 0)) key value = none ∧
    (((s.bucketAt (s.dir.getD (s.IndexOf hash key) 0)).depth =
        s.globalDepth ∧
      s1 =
        { s with globalDepth := s.globalDepth + 1,
                 dir := s.dir ++ s.dir }) ∨
     ((s.bucketAt (s.dir.getD (s.IndexOf hash key) 0)).depth ≠
        s.globalDepth ∧
      s1 = RedistributeBucket hash
        { s with
          buckets := s.buckets.set (s.dir.getD (s.IndexOf hash key) 0)
            { s.bucketAt (s.dir.getD (s.IndexOf hash key) 0) with
              depth :=
                (s.bucketAt (s.dir.getD (s.IndexOf hash key) 0)).depth +
                  1 } }
        (s.dir.getD (s.IndexOf hash key) 0))) := by
  simp only [insertOnce] at h
  cases hins : Bucket.Insert s.bucketSize
      (s.bucketAt (s.dir.getD (s.IndexOf hash key) 0)) key value with
  | some b2 =>
    rw [hins] at h
    cases h
  | none =>
    rw [hins] at h
    refine ⟨rfl, ?_⟩
    by_cases hd : (s.bucketAt (s.dir.getD (s.IndexOf hash key) 0)).depth =
        s.globalDepth
    · rw [if_pos hd] at h
      exact Or.inl ⟨hd, (Sum.inr.inj h).symm⟩
    · rw [if_neg hd] at h
      exact Or.inr ⟨hd, (Sum.inr.inj h).symm⟩

theorem Insert_spec {hash : K → Nat} {key : K} {value : V} :
    ∀ {fuel : Nat} {s s2 : EHT K V}, Inv hash s →
      Insert hash key value fuel s = some s2 →
      Inv hash s2 ∧ Find hash s2 key = some value ∧
        (∀ k2, k2 ≠ key → Find hash s2 k2 = Find hash s k2) ∧
        (∀ k ∈ s2.allKeys, k ∈ s.allKeys ∨ k = key) := by
  intro fuel
  induction fuel with
  | zero =>
    intro s s2 _ h
    simp [Insert] at h
  | succ n ih =>
    intro s s2 hInv h
    rw [Insert] at h
    cases hstep : insertOnce hash s key value with
    | inl s1 =>
      rw [hstep] at h
      cases h
      obtain ⟨b2, hins, hs1⟩ := insertOnce_inl hstep
      obtain ⟨h1, h2, h3, h4⟩ := succStep_spec hInv hins hs1
      exact ⟨h1, h2, h3, h4⟩
    | inr s1 =>
      rw [hstep] at h
      obtain ⟨hins, hcase⟩ := insertOnce_inr hstep
      rw [Bucket.Insert_eq_none] at hins
      rcases hcase with ⟨hd, hs1⟩ | ⟨hd, hs1⟩
      · obtain ⟨h1, h2, h3, h4⟩ := doubleStep_spec hInv hs1
        obtain ⟨g1, g2, g3, g4⟩ := ih h1 h
        refine ⟨g1, g2, ?_, ?_⟩
        · intro k2 hne
          rw [g3 k2 hne, h2 k2]
        · intro k hk
          rcases g4 k hk with hk2 | hk2
          · rw [h3] at hk2
            exact Or.inl hk2
          · exact Or.inr hk2
      · have hdlt : (s.bucketAt (s.dir.getD (s.IndexOf hash key) 0)).depth <
            s.globalDepth :=
          lt_of_le_of_ne (hInv.depthLe _ (IndexOf_lt hInv key)) hd
        obtain ⟨h1, h2, _, _, _, h6⟩ :=
          splitStep_spec hInv (IndexOf_lt hInv key) hins.2 hdlt hs1
        obtain ⟨g1, g2, g3, g4⟩ := ih h1 h
        refine ⟨g1, g2, ?_, ?_⟩
        · intro k2 hne
          rw [g3 k2 hne, h2 k2]
        · intro k hk
          rcases g4 k hk with hk2 | hk2
          · exact Or.inl (h6 k hk2)
          · exact Or.inr hk2

theorem Remove_spec {hash : K → Nat} {s : EHT K V} (hInv : Inv hash s)
    (key : K) :
    Inv hash (Remove hash s key).1 ∧
      Find hash (Remove hash s key).1 key = none ∧
      (∀ k2, k2 ≠ key →
        Find hash (Remove hash s key).1 k2 = Find hash s k2) ∧
      (∀ k ∈ (Remove hash s key).1.allKeys, k ∈ s.allKeys) := by
  have hidx : s.IndexOf hash key < s.dir.length := IndexOf_lt hInv key
  have hbid : s.dir.getD (s.IndexOf hash key) 0 < s.buckets.length :=
    hInv.refs _ hidx
  obtain ⟨s2, hs2⟩ : ∃ s2, (Remove hash s key).1 = s2 := ⟨_, rfl⟩
  have hs2eq : s2 = { s with
      buckets := s.buckets.set (s.dir.getD (s.IndexOf hash key) 0)
        { s.bucketAt (s.dir.getD (s.IndexOf hash key) 0) with
          items := (Bucket.removeFirst key
            (s.bucketAt (s.dir.getD (s.IndexOf hash key) 0)).items).1 } } := by
    rw [← hs2]
    rfl
  rw [hs2]
  have hsub : ((Bucket.removeFirst key
      (s.bucketAt (s.dir.getD (s.IndexOf hash key) 0)).items).1).Sublist
      (s.bucketAt (s.dir.getD (s.IndexOf hash key) 0)).items :=
    Bucket.removeFirst_sublist key _
  have hAtBid : s2.bucketAt (s.dir.getD (s.IndexOf hash key) 0) =
      { s.bucketAt (s.dir.getD (s.IndexOf hash key) 0) with
        items := (Bucket.removeFirst key
          (s.bucketAt (s.dir.getD (s.IndexOf hash key) 0)).items).1 } := by
    rw [hs2eq]
    exact bucketAt_set_self hbid
  have hAtNe : ∀ c, c ≠ s.dir.getD (s.IndexOf hash key) 0 →
      s2.bucketAt c = s.bucketAt c := by
    intro c hc
    rw [hs2eq]
    exact bucketAt_set_ne hc
  have hdepth : ∀ c, (s2.bucketAt c).depth = (s.bucketAt c).depth := by
    intro c
    by_cases hc : c = s.dir.getD (s.IndexOf hash key) 0
    · rw [hc, hAtBid]
    · rw [hAtNe c hc]
  have hdir2 : s2.dir = s.dir := by rw [hs2eq]
  have hgd2 : s2.globalDepth = s.globalDepth := by rw [hs2eq]
  have hbs2 : s2.bucketSize = s.bucketSize := by rw [hs2eq]
  have hkeySub : ∀ c, ∀ k ∈ (s2.bucketAt c).items.map Prod.fst,
      k ∈ (s.bucketAt c).items.map Prod.fst := by
    intro c k hk
    by_cases hc : c = s.dir.getD (s.IndexOf hash key) 0
    · rw [hc] at hk ⊢
      rw [hAtBid] at hk
      exact (hsub.map Prod.fst).mem hk
    · rw [hAtNe c hc] at hk
      exact hk
  have hIdxEq : ∀ k2, s2.IndexOf hash k2 = s.IndexOf hash k2 := by
    intro k2
    rw [IndexOf_eq_mod, IndexOf_eq_mod, hgd2]
  refine ⟨?_, ?_, ?_, ?_⟩
  · refine ⟨by rw [hbs2]; exact hInv.bsPos,
      by rw [hdir2, hgd2]; exact hInv.dlen, ?_, ?_, ?_, ?_, ?_, ?_, ?_⟩
    · intro i hi
      rw [hdir2] at hi ⊢
      rw [hs2eq]
      simpa using hInv.refs i hi
    · intro i hi
      rw [hdir2] at hi ⊢
      rw [hdepth, hgd2]
      exact hInv.depthLe i hi
    · intro i j hi hj heq
      rw [hdir2] at hi hj heq ⊢
      rw [hdepth]
      exact hInv.agree i j hi hj heq
    · intro i j hi hj heq
      rw [hdir2] at hi hj heq ⊢
      rw [hdepth] at heq
      exact hInv.complete i j hi hj heq
    · intro i hi k hk
      rw [hdir2] at hi hk ⊢
      rw [hdepth]
      exact hInv.keysRes i hi k (hkeySub _ k hk)
    · intro i hi
      rw [hdir2] at hi ⊢
      by_cases hc : s.dir.getD i 0 = s.dir.getD (s.IndexOf hash key) 0
      · rw [hc, hAtBid]
        exact List.Nodup.sublist (hsub.map Prod.fst)
          (hInv.keysNodup _ hidx)
      · rw [hAtNe _ hc]
        exact hInv.keysNodup i hi
    · intro i hi
      rw [hdir2] at hi ⊢
      rw [hbs2]
      by_cases hc : s.dir.getD i 0 = s.dir.getD (s.IndexOf hash key) 0
      · rw [hc, hAtBid]
        exact le_trans hsub.length_le (hInv.lenLe _ hidx)
      · rw [hAtNe _ hc]
        exact hInv.lenLe i hi
  · unfold Find
    rw [hIdxEq, hdir2, hAtBid]
    unfold Bucket.Find
    simp only []
    rw [Bucket.removeFirst_find_self key (hInv.keysNodup _ hidx)]
    rfl
  · intro k2 hne
    unfold Find
    rw [hIdxEq, hdir2]
    by_cases hc : s.dir.getD (s.IndexOf hash k2) 0 =
        s.dir.getD (s.IndexOf hash key) 0
    · rw [hc, hAtBid]
      unfold Bucket.Find
      simp only []
      rw [Bucket.removeFirst_find_other hne]
    · rw [hAtNe _ hc]
  · intro k hk
    rw [mem_allKeys] at hk
    obtain ⟨bb, hbb, hkbb⟩ := hk
    rw [hs2eq] at hbb
    simp only [] at hbb
    rcases List.mem_or_eq_of_mem_set hbb with hbb | rfl
    · exact mem_allKeys.mpr ⟨bb, hbb, hkbb⟩
    · refine mem_allKeys.mpr
        ⟨s.bucketAt (s.dir.getD (s.IndexOf hash key) 0), bucketAt_mem hbid,
          ?_⟩
      exact (hsub.map Prod.fst).mem hkbb

theorem init_Inv {hash : K → Nat} {bucketSize : Nat} (h : 0 < bucketSize) :
    Inv hash (init bucketSize : EHT K V) := by
  have hone : ∀ i : Nat, i < 1 → i = 0 := by omega
  refine ⟨h, rfl, ?_, ?_, ?_, ?_, ?_, ?_, ?_⟩
  · intro i hi
    rw [hone i (by simpa [init] using hi)]
    simp [init, bucketAt]
  · intro i hi
    rw [hone i (by simpa [init] using hi)]
    simp [init, bucketAt]
  · intro i j hi hj _
    rw [hone i (by simpa [init] using hi), hone j (by simpa [init] using hj)]
  · intro i j hi hj _
    rw [hone i (by simpa [init] using hi), hone j (by simpa [init] using hj)]
  · intro i hi k hk
    rw [hone i (by simpa [init] using hi)] at hk ⊢
    simp [init, bucketAt] at hk
  · intro i hi
    rw [hone i (by simpa [init] using hi)]
    simp [init, bucketAt]
  · intro i hi
    rw [hone i (by simpa [init] using hi)]
    simp [init, bucketAt]

theorem Reach_Inv {hash : K → Nat} {s : EHT K V} (h : Reach hash s) :
    Inv hash s := by
  induction h with
  | init bs hbs => exact init_Inv hbs
  | insert s s2 key v fuel hr hins ih => exact (Insert_spec ih hins).1
  | remove s key hr ih => exact (Remove_spec ih key).1

theorem failure_depth_lt {hash : K → Nat} {s : EHT K V} {key : K} {D : Nat}
    (hInv : Inv hash s) (hSep : Separated hash D s key)
    (hkabs : key ∉ (s.bucketAt
      (s.dir.getD (s.IndexOf hash key) 0)).items.map Prod.fst)
    (hfull : s.bucketSize ≤
      (s.bucketAt (s.dir.getD (s.IndexOf hash key) 0)).items.length) :
    localDepthOf hash s key < D := by
  have hidx : s.IndexOf hash key < s.dir.length := IndexOf_lt hInv key
  by_contra hge
  push_neg at hge
  cases hitems : (s.bucketAt (s.dir.getD (s.IndexOf hash key) 0)).items with
  | nil =>
    rw [hitems] at hfull
    simp at hfull
    have := hInv.bsPos
    omega
  | cons e tail =>
    have he1 : e.1 ∈ (s.bucketAt
        (s.dir.getD (s.IndexOf hash key) 0)).items.map Prod.fst := by
      rw [hitems]
      simp
    have hnekey : e.1 ≠ key := fun hh => hkabs (hh ▸ he1)
    have hdepLe : (s.bucketAt (s.dir.getD (s.IndexOf hash key) 0)).depth ≤
        s.globalDepth := hInv.depthLe _ hidx
    have hres := hInv.keysRes _ hidx e.1 he1
    have hkeyres : hash key %
        2 ^ (s.bucketAt (s.dir.getD (s.IndexOf hash key) 0)).depth =
        s.IndexOf hash key %
          2 ^ (s.bucketAt (s.dir.getD (s.IndexOf hash key) 0)).depth := by
      conv_lhs => rw [← mod_pow_mod hdepLe, ← IndexOf_eq_mod s key]
    have hcong : hash e.1 %
        2 ^ (s.bucketAt (s.dir.getD (s.IndexOf hash key) 0)).depth =
        hash key %
          2 ^ (s.bucketAt (s.dir.getD (s.IndexOf hash key) 0)).depth :=
      hres.trans hkeyres.symm
    refine hSep e.1 ?_ hnekey ?_
    · exact mem_allKeys.mpr
        ⟨s.bucketAt (s.dir.getD (s.IndexOf hash key) 0),
          bucketAt_mem (hInv.refs _ hidx), he1⟩
    · calc hash e.1 % 2 ^ D
          = hash e.1 %
              2 ^ (s.bucketAt (s.dir.getD (s.IndexOf hash key) 0)).depth %
              2 ^ D := (mod_pow_mod hge).symm
      _ = hash key %
              2 ^ (s.bucketAt (s.dir.getD (s.IndexOf hash key) 0)).depth %
              2 ^ D := by rw [hcong]
      _ = hash key % 2 ^ D := mod_pow_mod hge

theorem Insert_terminates {hash : K → Nat} {key : K} {value : V} {D : Nat} :
    ∀ (n : Nat) (s : EHT K V), Inv hash s → Separated hash D s key →
      (D - min s.globalDepth D) + (D - min (localDepthOf hash s key) D) <
        n →
      (Insert hash key value n s).isSome := by
  intro n
  induction n with
  | zero =>
    intro s _ _ h
    omega
  | succ m ih =>
    intro s hInv hSep hmu
    rw [Insert]
    cases hstep : insertOnce hash s key value with
    | inl s1 => simp
    | inr s1 =>
      simp only []
      obtain ⟨hins, hcase⟩ := insertOnce_inr hstep
      rw [Bucket.Insert_eq_none] at hins
      obtain ⟨hkabs, hfull⟩ := hins
      have hidx := IndexOf_lt hInv key
      have hdep : localDepthOf hash s key < D :=
        failure_depth_lt hInv hSep hkabs hfull
      rcases hcase with ⟨hd, hs1⟩ | ⟨hd, hs1⟩
      · obtain ⟨h1, _, h3, h4⟩ := doubleStep_spec hInv hs1
        have hbAt : ∀ c, s1.bucketAt c = s.bucketAt c := by
          intro c
          rw [hs1]
          rfl
        have hld : localDepthOf hash s1 key = localDepthOf hash s key := by
          unfold localDepthOf
          rw [h4 key, hbAt]
        have hgd1 : s1.globalDepth = s.globalDepth + 1 := by rw [hs1]
        have hdd : localDepthOf hash s key = s.globalDepth := hd
        refine ih s1 h1 (fun k hk hne => hSep k (h3 ▸ hk) hne) ?_
        rw [hld, hgd1, hdd]
        omega
      · have hdlt : (s.bucketAt
            (s.dir.getD (s.IndexOf hash key) 0)).depth < s.globalDepth :=
          lt_of_le_of_ne (hInv.depthLe _ hidx) hd
        obtain ⟨h1, _, h3, _, h5, h6⟩ := splitStep_spec hInv hidx hfull hdlt hs1
        have hld : localDepthOf hash s1 key = localDepthOf hash s key + 1 := by
          unfold localDepthOf
          have hIdxeq : s1.IndexOf hash key = s.IndexOf hash key := by
            rw [IndexOf_eq_mod, IndexOf_eq_mod, h3]
          rw [hIdxeq]
          exact h5
        refine ih s1 h1 (fun k hk hne => hSep k (h6 k hk) hne) ?_
        rw [hld, h3]
        omega

end EHT

/-! ### Claims about the extendible hash table -/

/-- C3: for every sequence of operations on the extendible hash table and
every key K, immediately after `insert(K, V)`, `find(K)` returns V;
immediately after `remove(K)`, `find(K)` returns nothing; after an
overwriting `insert(K, V2)` on a key already present, `find(K)`
returns V2. -/
theorem c3_insert_remove_find {K V : Type} [DecidableEq K] (hash : K → Nat)
    (s : EHT K V) (hreach : EHT.Reach hash s) (key : K) (value : V) :
    (∀ fuel s2, EHT.Insert hash key value fuel s = some s2 →
      EHT.Find hash s2 key = some value) ∧
    EHT.Find hash (EHT.Remove hash s key).1 key = none ∧
    (∀ value0 fuel s2, EHT.Find hash s key = some value0 →
      EHT.Insert hash key value fuel s = some s2 →
      EHT.Find hash s2 key = some value) := by
  have hInv := EHT.Reach_Inv hreach
  refine ⟨?_, (EHT.Remove_spec hInv key).2.1, ?_⟩
  · intro fuel s2 h
    exact (EHT.Insert_spec hInv h).2.1
  · intro v0 fuel s2 _ h
    exact (EHT.Insert_spec hInv h).2.1

theorem c3_witness :
    EHT.Find (fun n => n)
      ((EHT.Insert (K := Nat) (V := Nat) (fun n => n) 5 7 3
        (EHT.init 2)).getD (EHT.init 2)) 5 = some 7 := by
  have hr : EHT.Reach (K := Nat) (V := Nat) (fun n => n) (EHT.init 2) :=
    EHT.Reach.init 2 (by norm_num)
  exact (c3_insert_remove_find (fun n => n) (EHT.init 2) hr 5 7).1 3 _ rfl

/-- C4: after every sequence of insert, remove, and find operations on the
extendible hash table, the directory length is a power of two equal to
`2^global_depth`; for every bucket, all directory slots referencing it agree
in their low `local_depth` bits; and every local depth is at most the global
depth. -/
theorem c4_directory_invariant {K V : Type} [DecidableEq K] (hash : K → Nat)
    (s : EHT K V) (hreach : EHT.Reach hash s) :
    s.dir.length = 2 ^ s.globalDepth ∧
    (∀ i j, i < s.dir.length → j < s.dir.length →
      s.dir.getD i 0 = s.dir.getD j 0 →
      i % 2 ^ (s.bucketAt (s.dir.getD i 0)).depth =
        j % 2 ^ (s.bucketAt (s.dir.getD i 0)).depth) ∧
    (∀ i, i < s.dir.length →
      (s.bucketAt (s.dir.getD i 0)).depth ≤ s.globalDepth) := by
  have hInv := EHT.Reach_Inv hreach
  exact ⟨hInv.dlen, hInv.agree, hInv.depthLe⟩

theorem c4_witness :
    (EHT.init (K := Nat) (V := Nat) 2).dir.length =
      2 ^ (EHT.init (K := Nat) (V := Nat) 2).globalDepth :=
  (c4_directory_invariant (fun n => n) (EHT.init 2)
    (EHT.Reach.init 2 (by norm_num))).1

/-- C5 counterexample: with identity hash and bucket capacity 2, insert keys
0 and 4 (reaching `c5Base`), then start inserting key 8.  The first loop
pass doubles the directory (`c5State`); the second pass splits the overfull
bucket, but both entries keep residue 0, so the pass leaves the global depth
at 1 and the overfull bucket still holding its 2 entries: the pass neither
strictly increases `global_depth` nor strictly decreases the entry count of
the overfull bucket. -/
theorem c5_counterexample :
    (EHT.Insert (K := Nat) (V := Nat) (fun n => n) 4 0 3
        ((EHT.Insert (K := Nat) (V := Nat) (fun n => n) 0 0 3
          (EHT.init 2)).getD (EHT.init 2))).getD (EHT.init 2) = c5Base ∧
    EHT.insertOnce (fun n => n) c5Base 8 99 = Sum.inr c5State ∧
    EHT.insertOnce (fun n => n) c5State 8 99 = Sum.inr c5State2 ∧
    c5State2.globalDepth = c5State.globalDepth ∧
    (c5State2.bucketAt (c5State2.dir.getD
        (EHT.IndexOf (fun n => n) c5State2 8) 0)).items.length = 2 ∧
    (c5State.bucketAt (c5State.dir.getD
        (EHT.IndexOf (fun n => n) c5State 8) 0)).items.length = 2 :=
  ⟨rfl, rfl, rfl, rfl, rfl, rfl⟩

/-- C5 (amended): for every reachable table state and key-value pair,
`insert(key, value)` terminates whenever some width `D` separates the hash
of the inserted key from the hashes of the other stored keys (a
non-degenerate hash); each pass of the grow-and-split loop either strictly
increases `global_depth` or strictly increases the local depth of the
overfull bucket that forced the split. -/
theorem c5_insert_terminates {K V : Type} [DecidableEq K] (hash : K → Nat)
    (s : EHT K V) (key : K) (value : V) (D : Nat)
    (hreach : EHT.Reach hash s) (hsep : EHT.Separated hash D s key) :
    (∃ fuel s2, EHT.Insert hash key value fuel s = some s2) ∧
    (∀ (t s1 : EHT K V), EHT.Inv hash t →
      EHT.insertOnce hash t key value = Sum.inr s1 →
      s1.globalDepth = t.globalDepth + 1 ∨
      (s1.globalDepth = t.globalDepth ∧
        EHT.localDepthOf hash s1 key = EHT.localDepthOf hash t key + 1)) := by
  have hInv := EHT.Reach_Inv hreach
  constructor
  · have hterm := @EHT.Insert_terminates K V _ hash key value D
      ((D - min s.globalDepth D) +
        (D - min (EHT.localDepthOf hash s key) D) + 1) s hInv hsep
      (by omega)
    cases hsome : EHT.Insert hash key value
        ((D - min s.globalDepth D) +
          (D - min (EHT.localDepthOf hash s key) D) + 1) s with
    | none => rw [hsome] at hterm; simp at hterm
    | some s2 => exact ⟨_, s2, hsome⟩
  · intro t s1 hInvT hstep
    obtain ⟨hins, hcase⟩ := EHT.insertOnce_inr hstep
    rw [Bucket.Insert_eq_none] at hins
    rcases hcase with ⟨hd, hs1⟩ | ⟨hd, hs1⟩
    · left
      rw [hs1]
    · right
      have hidx := EHT.IndexOf_lt hInvT key
      have hdlt : (t.bucketAt
          (t.dir.getD (t.IndexOf hash key) 0)).depth < t.globalDepth :=
        lt_of_le_of_ne (hInvT.depthLe _ hidx) hd
      obtain ⟨_, _, h3, _, h5, _⟩ :=
        EHT.splitStep_spec hInvT hidx hins.2 hdlt hs1
      refine ⟨h3, ?_⟩
      unfold EHT.localDepthOf
      have hIdxeq : s1.IndexOf hash key = t.IndexOf hash key := by
        rw [EHT.IndexOf_eq_mod, EHT.IndexOf_eq_mod, h3]
      rw [hIdxeq]
      exact h5

theorem c5_witness :
    ∃ fuel s2, EHT.Insert (K := Nat) (V := Nat) (fun n => n) 5 0 fuel
      (EHT.init 2) = some s2 :=
  (c5_insert_terminates (fun n => n) (EHT.init 2) 5 0 0
    (EHT.Reach.init 2 (by norm_num))
    (by
      intro k hk
      simp [EHT.allKeys, EHT.init] at hk)).1

/-! ### LRU-K replacer lemmas -/

namespace LRUK

theorem find?_key_of_mem {fid : Nat} {info : FrameInfo} :
    ∀ {l : List (Nat × FrameInfo)}, (l.map Prod.fst).Nodup →
      (fid, info) ∈ l →
      (l.find? fun p => decide (p.1 = fid)) = some (fid, info) := by
  intro l
  induction l with
  | nil => intro _ h; simp at h
  | cons p rest ih =>
    intro hnd hmem
    simp only [List.map_cons, List.nodup_cons] at hnd
    rw [List.mem_cons] at hmem
    rcases hmem with rfl | hmem
    · rw [List.find?_cons_of_pos _ (by simp)]
    · have hne : p.1 ≠ fid := by
        intro hh
        exact hnd.1 (hh ▸ List.mem_map_of_mem Prod.fst hmem)
      rw [List.find?_cons_of_neg _ (by simpa using hne)]
      exact ih hnd.2 hmem

theorem getInfo_of_mem {r : LRUK} {fid : Nat} {info : FrameInfo}
    (hnd : (r.frameInfos.map Prod.fst).Nodup)
    (hmem : (fid, info) ∈ r.frameInfos) : r.getInfo fid = some info := by
  unfold getInfo
  rw [find?_key_of_mem hnd hmem]
  rfl

theorem mem_of_getInfo {r : LRUK} {fid : Nat} {info : FrameInfo}
    (h : r.getInfo fid = some info) : (fid, info) ∈ r.frameInfos := by
  unfold getInfo at h
  cases hf : r.frameInfos.find? fun p => decide (p.1 = fid) with
  | none => rw [hf] at h; simp at h
  | some p =>
    rw [hf] at h
    have hp := List.find?_some hf
    have hmem := List.mem_of_find?_eq_some hf
    simp only [decide_eq_true_eq] at hp
    simp only [Option.map_some', Option.some.injEq] at h
    have : p = (fid, info) := by
      cases p
      simp_all
    exact this ▸ hmem

theorem setInfo_self {fid : Nat} {info : FrameInfo} :
    ∀ {l : List (Nat × FrameInfo)},
      (l.find? fun p => decide (p.1 = fid)) = some (fid, info) →
      setInfo fid info l = l := by
  intro l
  induction l with
  | nil => intro h; simp at h
  | cons p rest ih =>
    intro h
    by_cases hp : p.1 = fid
    · rw [List.find?_cons_of_pos _ (by simpa using hp)] at h
      cases h
      rw [setInfo, if_pos hp]
    · rw [List.find?_cons_of_neg _ (by simpa using hp)] at h
      rw [setInfo, if_neg hp, ih h]

theorem find?_setInfo_self {fid : Nat} {info : FrameInfo} :
    ∀ (l : List (Nat × FrameInfo)),
      ((setInfo fid info l).find? fun p => decide (p.1 = fid)) =
        some (fid, info) := by
  intro l
  induction l with
  | nil => simp [setInfo]
  | cons p rest ih =>
    by_cases hp : p.1 = fid
    · rw [setInfo, if_pos hp, List.find?_cons_of_pos _ (by simp)]
    · rw [setInfo, if_neg hp, List.find?_cons_of_neg _ (by simpa using hp)]
      exact ih

theorem find?_setInfo_ne {fid g : Nat} {info : FrameInfo} (hne : g ≠ fid) :
    ∀ (l : List (Nat × FrameInfo)),
      ((setInfo fid info l).find? fun p => decide (p.1 = g)) =
        l.find? fun p => decide (p.1 = g) := by
  intro l
  induction l with
  | nil =>
    simp only [setInfo, List.find?_nil]
    rw [List.find?_cons_of_neg _ (by simpa using Ne.symm hne),
      List.find?_nil]
  | cons p rest ih =>
    by_cases hp : p.1 = fid
    · rw [setInfo, if_pos hp]
      have hpg : ¬p.1 = g := fun hh => hne (hh ▸ hp.symm ▸ rfl)
      rw [List.find?_cons_of_neg _ (by simpa using Ne.symm hne),
        List.find?_cons_of_neg _ (by simpa using hpg)]
    · rw [setInfo, if_neg hp]
      by_cases hpg : p.1 = g
      · rw [List.find?_cons_of_pos _ (by simpa using hpg),
          List.find?_cons_of_pos _ (by simpa using hpg)]
      · rw [List.find?_cons_of_neg _ (by simpa using hpg),
          List.find?_cons_of_neg _ (by simpa using hpg)]
        exact ih

theorem prefers_trans {k : Nat} {a b c : FrameInfo}
    (hla : a.timeSeq.length ≤ k) (hlb : b.timeSeq.length ≤ k)
    (hlc : c.timeSeq.length ≤ k)
    (hab : Prefers k a b) (hbc : Prefers k b c) : Prefers k a c := by
  unfold Prefers at *
  omega

theorem prefers_total {k : Nat} {a b : FrameInfo}
    (hla : a.timeSeq.length ≤ k) (hlb : b.timeSeq.length ≤ k)
    (hfr : a.timeSeq.headD 0 ≠ b.timeSeq.headD 0) :
    Prefers k a b ∨ Prefers k b a := by
  unfold Prefers
  omega

theorem evictCmp_iff {r : LRUK} {a b : Nat} {ia ib : FrameInfo}
    (ha : r.getInfo a = some ia) (hb : r.getInfo b = some ib)
    (hla : ia.timeSeq.length ≤ r.k) (hlb : ib.timeSeq.length ≤ r.k) :
    (evictCmp r a b = true ↔ Prefers r.k ia ib) := by
  unfold evictCmp
  rw [ha, hb]
  simp only [Option.getD_some]
  unfold Prefers
  by_cases h1 : ia.timeSeq.length < r.k ∧ ib.timeSeq.length = r.k
  · rw [if_pos h1]
    simp only [true_iff]
    exact Or.inl h1
  · rw [if_neg h1]
    by_cases h2 : ib.timeSeq.length < r.k ∧ ia.timeSeq.length = r.k
    · rw [if_pos h2]
      constructor
      · intro h
        simp at h
      · intro h
        exfalso
        omega
    · rw [if_neg h2]
      simp only [decide_eq_true_eq]
      omega

theorem evictScan_cons_none {r : LRUK} (p : Nat × FrameInfo)
    (rest : List (Nat × FrameInfo)) :
    evictScan r (p :: rest) none =
      if p.2.evictable then evictScan r rest (some p.1)
      else evictScan r rest none := by
  simp only [evictScan]

theorem evictScan_cons_some {r : LRUK} (p : Nat × FrameInfo)
    (rest : List (Nat × FrameInfo)) (b : Nat) :
    evictScan r (p :: rest) (some b) =
      if p.2.evictable then
        (if evictCmp r p.1 b then evictScan r rest (some p.1)
         else evictScan r rest (some b))
      else evictScan r rest (some b) := by
  simp only [evictScan]

theorem evictScan_some_of_best {r : LRUK} :
    ∀ (l : List (Nat × FrameInfo)) (b : Nat),
      ∃ f, evictScan r l (some b) = some f := by
  intro l
  induction l with
  | nil => intro b; exact ⟨b, rfl⟩
  | cons p rest ih =>
    intro b
    rw [evictScan_cons_some]
    by_cases hev : p.2.evictable = true
    · rw [if_pos hev]
      by_cases hc : evictCmp r p.1 b = true
      · rw [if_pos hc]
        exact ih p.1
      · rw [if_neg hc]
        exact ih b
    · rw [if_neg hev]
      exact ih b

theorem evictScan_none_iff {r : LRUK} :
    ∀ (l : List (Nat × FrameInfo)),
      (evictScan r l none = none ↔ ∀ p ∈ l, p.2.evictable = false) := by
  intro l
  induction l with
  | nil => simp [evictScan]
  | cons p rest ih =>
    rw [evictScan_cons_none]
    by_cases hev : p.2.evictable = true
    · rw [if_pos hev]
      obtain ⟨f, hf⟩ := evictScan_some_of_best rest p.1
      rw [hf]
      constructor
      · intro h
        simp at h
      · intro h
        have := h p (by simp)
        rw [hev] at this
        exact absurd this (by simp)
    · have hevf : p.2.evictable = false := Bool.eq_false_iff.mpr hev
      rw [if_neg hev, ih, List.forall_mem_cons]
      simp [hevf]

theorem evictScan_spec {r : LRUK} (hnd : (r.frameInfos.map Prod.fst).Nodup)
    (hbnd : ∀ p ∈ r.frameInfos, p.2.timeSeq.length ≤ r.k)
    (hpw : r.frameInfos.Pairwise fun p q =>
      p.2.timeSeq.headD 0 ≠ q.2.timeSeq.headD 0) :
    ∀ (l : List (Nat × FrameInfo)) (best : Option Nat) (f : Nat),
      (∀ p ∈ l, p ∈ r.frameInfos) →
      (∀ b, best = some b →
        ∃ bi, r.getInfo b = some bi ∧ bi.evictable = true) →
      evictScan r l best = some f →
      ∃ fi, r.getInfo f = some fi ∧ fi.evictable = true ∧
        (∀ b bi, best = some b → r.getInfo b = some bi →
          f = b ∨ Prefers r.k fi bi) ∧
        (∀ p ∈ l, p.2.evictable = true → p.1 ≠ f →
          Prefers r.k fi p.2) := by
  have hdistinct : ∀ {p q : Nat × FrameInfo}, p ∈ r.frameInfos →
      q ∈ r.frameInfos → p ≠ q →
      p.2.timeSeq.headD 0 ≠ q.2.timeSeq.headD 0 := by
    intro p q hp hq hne
    exact List.Pairwise.forall (fun {x y} h => h.symm) hpw hp hq hne
  intro l
  induction l with
  | nil =>
    intro best f hl hbest hscan
    simp only [evictScan] at hscan
    obtain ⟨bi, hbi, hbev⟩ := hbest f hscan
    refine ⟨bi, hbi, hbev, ?_, ?_⟩
    · intro b bi2 hb hbi2
      rw [hscan] at hb
      exact Or.inl (Option.some.inj hb)
    · intro p hp
      simp at hp
  | cons p rest ih =>
    intro best f hl hbest hscan
    have hpmem : p ∈ r.frameInfos := hl p (by simp)
    have hrest : ∀ q ∈ rest, q ∈ r.frameInfos :=
      fun q hq => hl q (List.mem_cons_of_mem p hq)
    have hpinfo : r.getInfo p.1 = some p.2 := getInfo_of_mem hnd hpmem
    have hlp : p.2.timeSeq.length ≤ r.k := hbnd p hpmem
    by_cases hev : p.2.evictable = true
    · cases best with
      | none =>
        rw [evictScan_cons_none, if_pos hev] at hscan
        obtain ⟨fi, hfi, hfev, hbestcl, hlcl⟩ := ih (some p.1) f hrest
          (by
            intro b hb
            cases hb
            exact ⟨p.2, hpinfo, hev⟩) hscan
        refine ⟨fi, hfi, hfev, ?_, ?_⟩
        · intro b bi hb
          cases hb
        · intro q hq hqev hqne
          rcases List.mem_cons.mp hq with rfl | hq
          · rcases hbestcl q.1 q.2 rfl hpinfo with hfb | hpref
            · exact absurd hfb.symm hqne
            · exact hpref
          · exact hlcl q hq hqev hqne
      | some b =>
        obtain ⟨bi, hbi, hbev⟩ := hbest b rfl
        have hbmem : (b, bi) ∈ r.frameInfos := mem_of_getInfo hbi
        have hlb : bi.timeSeq.length ≤ r.k := hbnd (b, bi) hbmem
        rw [evictScan_cons_some, if_pos hev] at hscan
        by_cases hpb : p.1 = b
        · have hpeq : p.2 = bi := by
            rw [hpb, hbi] at hpinfo
            exact (Option.some.inj hpinfo).symm
          have hcmp : evictCmp r p.1 b = false := by
            rw [Bool.eq_false_iff]
            intro hc
            have hpr := (evictCmp_iff hpinfo hbi hlp hlb).mp hc
            rw [hpeq] at hpr
            unfold Prefers at hpr
            omega
          rw [if_neg (by simp [hcmp])] at hscan
          obtain ⟨fi, hfi, hfev, hbestcl, hlcl⟩ := ih (some b) f hrest
            (by
              intro b' hb'
              cases hb'
              exact ⟨bi, hbi, hbev⟩) hscan
          refine ⟨fi, hfi, hfev, ?_, ?_⟩
          · intro b' bi' hb' hbi'
            cases hb'
            exact hbestcl b bi' rfl hbi'
          · intro q hq hqev hqne
            rcases List.mem_cons.mp hq with rfl | hq
            · rcases hbestcl b bi rfl hbi with hfb | hpref
              · exact absurd ((hfb.trans hpb.symm)).symm hqne
              · rw [hpeq]
                exact hpref
            · exact hlcl q hq hqev hqne
        · have hfr : p.2.timeSeq.headD 0 ≠ bi.timeSeq.headD 0 :=
            hdistinct hpmem hbmem (by
              intro hcon
              exact hpb (by rw [hcon]))
          by_cases hcmp : evictCmp r p.1 b = true
          · have hpref : Prefers r.k p.2 bi :=
              (evictCmp_iff hpinfo hbi hlp hlb).mp hcmp
            rw [if_pos hcmp] at hscan
            obtain ⟨fi, hfi, hfev, hbestcl, hlcl⟩ := ih (some p.1) f hrest
              (by
                intro b' hb'
                cases hb'
                exact ⟨p.2, hpinfo, hev⟩) hscan
            have hfik : fi.timeSeq.length ≤ r.k :=
              hbnd (f, fi) (mem_of_getInfo hfi)
            refine ⟨fi, hfi, hfev, ?_, ?_⟩
            · intro b' bi' hb' hbi'
              cases hb'
              rw [hbi] at hbi'
              cases Option.some.inj hbi'
              rcases hbestcl p.1 p.2 rfl hpinfo with hfb | hpref2
              · right
                have heq : fi = p.2 := by
                  rw [hfb, hpinfo] at hfi
                  exact (Option.some.inj hfi).symm
                rw [heq]
                exact hpref
              · exact Or.inr (prefers_trans hfik hlp hlb hpref2 hpref)
            · intro q hq hqev hqne
              rcases List.mem_cons.mp hq with rfl | hq
              · rcases hbestcl q.1 q.2 rfl hpinfo with hfb | hpref2
                · exact absurd hfb.symm hqne
                · exact hpref2
              · exact hlcl q hq hqev hqne
          · have hnpref : ¬Prefers r.k p.2 bi := by
              intro hc
              exact hcmp ((evictCmp_iff hpinfo hbi hlp hlb).mpr hc)
            have hpref : Prefers r.k bi p.2 := by
              rcases prefers_total hlp hlb hfr with hc | hc
              · exact absurd hc hnpref
              · exact hc
            rw [if_neg hcmp] at hscan
            obtain ⟨fi, hfi, hfev, hbestcl, hlcl⟩ := ih (some b) f hrest
              (by
                intro b' hb'
                cases hb'
                exact ⟨bi, hbi, hbev⟩) hscan
            have hfik : fi.timeSeq.length ≤ r.k :=
              hbnd (f, fi) (mem_of_getInfo hfi)
            refine ⟨fi, hfi, hfev, ?_, ?_⟩
            · intro b' bi' hb' hbi'
              cases hb'
              exact hbestcl b bi' rfl hbi'
            · intro q hq hqev hqne
              rcases List.mem_cons.mp hq with rfl | hq
              · rcases hbestcl b bi rfl hbi with hfb | hpref2
                · have heq : fi = bi := by
                    rw [hfb, hbi] at hfi
                    exact (Option.some.inj hfi).symm
                  rw [heq]
                  exact hpref
                · exact prefers_trans hfik hlb hlp hpref2 hpref
              · exact hlcl q hq hqev hqne
    · have hevf : p.2.evictable = false := Bool.eq_false_iff.mpr hev
      have hscan2 : evictScan r rest best = some f := by
        cases best with
        | none => rwa [evictScan_cons_none, if_neg hev] at hscan
        | some b => rwa [evictScan_cons_some, if_neg hev] at hscan
      obtain ⟨fi, hfi, hfev, hbestcl, hlcl⟩ :=
        ih best f hrest hbest hscan2
      refine ⟨fi, hfi, hfev, hbestcl, ?_⟩
      intro q hq hqev hqne
      rcases List.mem_cons.mp hq with rfl | hq
      · rw [hevf] at hqev
        simp at hqev
      · exact hlcl q hq hqev hqne

theorem Evict_none_iff {r : LRUK} :
    r.Evict = none ↔ ∀ p ∈ r.frameInfos, p.2.evictable = false := by
  unfold Evict
  rw [← evictScan_none_iff r.frameInfos]
  cases hscan : evictScan r r.frameInfos none with
  | none => simp
  | some fid => simp

theorem Evict_some_spec {r : LRUK}
    (hnd : (r.frameInfos.map Prod.fst).Nodup)
    (hbnd : ∀ p ∈ r.frameInfos, p.2.timeSeq.length ≤ r.k)
    (hpw : r.frameInfos.Pairwise fun p q =>
      p.2.timeSeq.headD 0 ≠ q.2.timeSeq.headD 0)
    {f : Nat} {r2 : LRUK} (hev : r.Evict = some (f, r2)) :
    (∃ fi, r.getInfo f = some fi ∧ fi.evictable = true ∧
       ∀ p ∈ r.frameInfos, p.2.evictable = true → p.1 ≠ f →
         Prefers r.k fi p.2) ∧
    r2.getInfo f = none ∧
    (∀ g, g ≠ f → r2.getInfo g = r.getInfo g) ∧
    r2.currSize = r.currSize - 1 ∧ r2.k = r.k := by
  unfold Evict at hev
  cases hscan : evictScan r r.frameInfos none with
  | none =>
    rw [hscan] at hev
    exact Option.noConfusion hev
  | some fid =>
    rw [hscan] at hev
    obtain ⟨rfl, rfl⟩ := Prod.mk.inj (Option.some.inj hev)
    obtain ⟨fi, hfi, hfev, _, hbetter⟩ :=
      evictScan_spec hnd hbnd hpw r.frameInfos none fid
        (fun p hp => hp) (by intro b hb; cases hb) hscan
    refine ⟨⟨fi, hfi, hfev, hbetter⟩, ?_, ?_, rfl, rfl⟩
    · have hfind : List.find? (fun p => decide (p.1 = fid))
          (r.frameInfos.filter fun p => decide (p.1 ≠ fid)) = none := by
        rw [List.find?_eq_none]
        intro x hx
        have hxne := (List.mem_filter.mp hx).2
        simp at hxne ⊢
        exact hxne
      simp [getInfo, hfind]
    · intro g hg
      have hfind : List.find? (fun p => decide (p.1 = g))
          (r.frameInfos.filter fun p => decide (p.1 ≠ fid)) =
          r.frameInfos.find? fun p => decide (p.1 = g) := by
        apply find?_filter_of_imp
        intro x _ hx
        simp at hx ⊢
        rw [hx]
        exact hg
      simp only [getInfo]
      rw [hfind]

theorem getInfo_none_iff {r : LRUK} {fid : Nat} :
    r.getInfo fid = none ↔ fid ∉ r.frameInfos.map Prod.fst := by
  unfold getInfo
  rw [Option.map_eq_none', List.find?_eq_none]
  constructor
  · intro h hmem
    obtain ⟨p, hp, hfst⟩ := List.mem_map.mp hmem
    exact h p hp (by simpa using hfst)
  · intro h x hx
    simp only [decide_eq_true_eq]
    intro hxf
    exact h (hxf ▸ List.mem_map_of_mem Prod.fst hx)

theorem setInfo_keys {fid : Nat} {info : FrameInfo} :
    ∀ (l : List (Nat × FrameInfo)),
      (setInfo fid info l).map Prod.fst =
        if fid ∈ l.map Prod.fst then l.map Prod.fst
        else l.map Prod.fst ++ [fid] := by
  intro l
  induction l with
  | nil => simp [setInfo]
  | cons p rest ih =>
    by_cases hp : p.1 = fid
    · rw [setInfo, if_pos hp]
      simp [hp]
    · rw [setInfo, if_neg hp]
      simp only [List.map_cons, ih]
      by_cases hmem : fid ∈ rest.map Prod.fst
      · rw [if_pos hmem, if_pos (by simp [hmem])]
      · have hnot : fid ∉ p.1 :: rest.map Prod.fst := by
          simp only [List.mem_cons]
          rintro (h | h)
          · exact hp h.symm
          · exact hmem h
        rw [if_neg hmem, if_neg hnot]
        simp

theorem tracked_of_full {r : LRUK} {n : Nat}
    (hnd : (r.frameInfos.map Prod.fst).Nodup)
    (hlt : ∀ p ∈ r.frameInfos, p.1 < n)
    (hlen : r.frameInfos.length = n) {f : Nat} (hf : f < n) :
    r.getInfo f ≠ none := by
  intro hnot
  rw [getInfo_none_iff] at hnot
  have hsub : (r.frameInfos.map Prod.fst) ⊆ List.range n := by
    intro x hx
    rw [List.mem_range]
    obtain ⟨p, hp, rfl⟩ := List.mem_map.mp hx
    exact hlt p hp
  have hsp : List.Subperm (r.frameInfos.map Prod.fst) (List.range n) :=
    List.subperm_of_subset hnd hsub
  have hperm : (r.frameInfos.map Prod.fst).Perm (List.range n) :=
    hsp.perm_of_length_le (by simp [hlen])
  exact hnot (hperm.mem_iff.mpr (List.mem_range.mpr hf))

theorem RecordAccess_replacerSize (r : LRUK) (fid : Nat) :
    (r.RecordAccess fid).replacerSize = r.replacerSize := by
  unfold RecordAccess
  by_cases h : r.getInfo fid = none ∧ r.frameInfos.length = r.replacerSize
  · rw [if_pos h]
  · rw [if_neg h]

theorem RecordAccess_keys (r : LRUK) (fid : Nat) :
    (r.RecordAccess fid).frameInfos.map Prod.fst =
      r.frameInfos.map Prod.fst ∨
    ((r.RecordAccess fid).frameInfos.map Prod.fst =
      r.frameInfos.map Prod.fst ++ [fid] ∧
      fid ∉ r.frameInfos.map Prod.fst) := by
  unfold RecordAccess
  by_cases h : r.getInfo fid = none ∧ r.frameInfos.length = r.replacerSize
  · rw [if_pos h]
    exact Or.inl rfl
  · rw [if_neg h]
    dsimp only
    rw [setInfo_keys]
    by_cases hmem : fid ∈ r.frameInfos.map Prod.fst
    · rw [if_pos hmem]
      exact Or.inl rfl
    · rw [if_neg hmem]
      exact Or.inr ⟨rfl, hmem⟩

theorem getInfo_RecordAccess_ne {r : LRUK} {fid g : Nat} (hne : g ≠ fid) :
    (r.RecordAccess fid).getInfo g = r.getInfo g := by
  unfold RecordAccess
  by_cases h : r.getInfo fid = none ∧ r.frameInfos.length = r.replacerSize
  · rw [if_pos h]
  · rw [if_neg h]
    unfold getInfo
    dsimp only
    rw [find?_setInfo_ne hne]

theorem getInfo_RecordAccess_self {r : LRUK} {fid : Nat}
    (h : ¬(r.getInfo fid = none ∧ r.frameInfos.length = r.replacerSize)) :
    ∃ info, (r.RecordAccess fid).getInfo fid = some info := by
  unfold RecordAccess
  rw [if_neg h]
  unfold getInfo
  dsimp only
  rw [find?_setInfo_self]
  exact ⟨_, rfl⟩

theorem SetEvictable_replacerSize (r : LRUK) (fid : Nat) (b : Bool) :
    (r.SetEvictable fid b).replacerSize = r.replacerSize := by
  unfold SetEvictable
  cases h : r.getInfo fid with
  | none => rfl
  | some info =>
    cases hb : b <;> cases hie : info.evictable <;> simp [hie]

theorem SetEvictable_keys (r : LRUK) (fid : Nat) (b : Bool) :
    (r.SetEvictable fid b).frameInfos.map Prod.fst =
      r.frameInfos.map Prod.fst := by
  unfold SetEvictable
  cases h : r.getInfo fid with
  | none => rfl
  | some info =>
    have hmem : fid ∈ r.frameInfos.map Prod.fst := by
      by_contra hnot
      rw [← getInfo_none_iff] at hnot
      rw [hnot] at h
      exact Option.noConfusion h
    cases hb : b <;> cases hie : info.evictable <;>
      simp [hie] <;> rw [setInfo_keys, if_pos hmem]

theorem getInfo_SetEvictable_ne {r : LRUK} {fid g : Nat} (hne : g ≠ fid)
    (b : Bool) : (r.SetEvictable fid b).getInfo g = r.getInfo g := by
  unfold SetEvictable
  cases h : r.getInfo fid with
  | none => rfl
  | some info =>
    cases hb : b <;> cases hie : info.evictable <;>
      simp [hie, getInfo] <;> rw [find?_setInfo_ne hne]

theorem getInfo_SetEvictable_self {r : LRUK} {fid : Nat} {info : FrameInfo}
    (hinfo : r.getInfo fid = some info) (b : Bool) :
    (r.SetEvictable fid b).getInfo fid =
      some { info with evictable := b } := by
  unfold SetEvictable
  rw [hinfo]
  cases hb : b <;> cases hie : info.evictable <;>
    simp [hie, getInfo] <;> rw [find?_setInfo_self] <;> simp

theorem Evict_frameInfos {r r2 : LRUK} {f : Nat}
    (hev : r.Evict = some (f, r2)) :
    r2.frameInfos = r.frameInfos.filter (fun p => decide (p.1 ≠ f)) ∧
    r2.replacerSize = r.replacerSize := by
  unfold Evict at hev
  cases hscan : evictScan r r.frameInfos none with
  | none =>
    rw [hscan] at hev
    exact Option.noConfusion hev
  | some fid =>
    rw [hscan] at hev
    obtain ⟨rfl, rfl⟩ := Prod.mk.inj (Option.some.inj hev)
    exact ⟨rfl, rfl⟩

theorem find?_erase_self (fid : Nat) (l : List (Nat × FrameInfo)) :
    List.find? (fun p => decide (p.1 = fid))
      (l.filter fun p => decide (p.1 ≠ fid)) = none := by
  rw [List.find?_eq_none]
  intro x hx
  have hxne := (List.mem_filter.mp hx).2
  simp at hxne ⊢
  exact hxne

theorem find?_erase_ne {fid g : Nat} (hne : g ≠ fid)
    (l : List (Nat × FrameInfo)) :
    List.find? (fun p => decide (p.1 = g))
      (l.filter fun p => decide (p.1 ≠ fid)) =
    List.find? (fun p => decide (p.1 = g)) l := by
  apply find?_filter_of_imp
  intro x _ hx
  simp at hx ⊢
  rw [hx]
  exact hne

theorem Remove_cases {r : LRUK} {fid : Nat} {rep : LRUK}
    (h : r.Remove fid = some rep) :
    (r.getInfo fid = none ∧ rep = r) ∨
    (rep.frameInfos = r.frameInfos.filter (fun p => decide (p.1 ≠ fid)) ∧
      rep.replacerSize = r.replacerSize ∧
      rep.currSize = r.currSize - 1) := by
  unfold Remove at h
  cases hinfo : r.getInfo fid with
  | none =>
    rw [hinfo] at h
    exact Or.inl ⟨rfl, (Option.some.inj h).symm⟩
  | some info =>
    rw [hinfo] at h
    replace h : (if ¬info.evictable = true then none
        else some { r with
          frameInfos := r.frameInfos.filter fun p => decide (p.1 ≠ fid),
          currSize := r.currSize - 1 }) = some rep := h
    by_cases hev : ¬info.evictable = true
    · rw [if_pos hev] at h
      exact Option.noConfusion h
    · rw [if_neg hev] at h
      obtain rfl := (Option.some.inj h).symm
      exact Or.inr ⟨rfl, rfl, rfl⟩

theorem Remove_eq_none_iff {r : LRUK} {fid : Nat} :
    r.Remove fid = none ↔
      ∃ info, r.getInfo fid = some info ∧ info.evictable = false := by
  unfold Remove
  cases hinfo : r.getInfo fid with
  | none =>
    constructor
    · intro h
      exact Option.noConfusion h
    · rintro ⟨info, hinfo2, _⟩
      exact Option.noConfusion hinfo2
  | some info =>
    show (if ¬info.evictable = true then none
        else some { r with
          frameInfos := r.frameInfos.filter fun p => decide (p.1 ≠ fid),
          currSize := r.currSize - 1 }) = none ↔
      ∃ info2, some info = some info2 ∧ info2.evictable = false
    by_cases hev : ¬info.evictable = true
    · rw [if_pos hev]
      simp only [true_iff]
      exact ⟨info, rfl, Bool.eq_false_iff.mpr hev⟩
    · rw [if_neg hev]
      constructor
      · intro h
        exact Option.noConfusion h
      · rintro ⟨info2, hinfo2, hfev⟩
        obtain rfl := Option.some.inj hinfo2
        rw [hfev] at hev
        exact absurd (by simp) hev

theorem getInfo_Remove_self {r rep : LRUK} {fid : Nat}
    (h : r.Remove fid = some rep) : rep.getInfo fid = none := by
  rcases Remove_cases h with ⟨hnone, rfl⟩ | ⟨hfr, _, _⟩
  · exact hnone
  · unfold getInfo
    rw [hfr, find?_erase_self]
    rfl

theorem getInfo_Remove_ne {r rep : LRUK} {fid g : Nat} (hne : g ≠ fid)
    (h : r.Remove fid = some rep) : rep.getInfo g = r.getInfo g := by
  rcases Remove_cases h with ⟨_, rfl⟩ | ⟨hfr, _, _⟩
  · rfl
  · unfold getInfo
    rw [hfr, find?_erase_ne hne]

theorem getInfo_Evict_self {r r2 : LRUK} {f : Nat}
    (hev : r.Evict = some (f, r2)) : r2.getInfo f = none := by
  unfold getInfo
  rw [(Evict_frameInfos hev).1, find?_erase_self]
  rfl

theorem getInfo_Evict_ne {r r2 : LRUK} {f g : Nat} (hne : g ≠ f)
    (hev : r.Evict = some (f, r2)) : r2.getInfo g = r.getInfo g := by
  unfold getInfo
  rw [(Evict_frameInfos hev).1, find?_erase_ne hne]

theorem evictScan_mem {r : LRUK} :
    ∀ (l : List (Nat × FrameInfo)) (best : Option Nat) (f : Nat),
      evictScan r l best = some f → best = some f ∨ ∃ p ∈ l, p.1 = f := by
  intro l
  induction l with
  | nil =>
    intro best f h
    exact Or.inl h
  | cons p rest ih =>
    intro best f h
    cases best with
    | none =>
      rw [evictScan_cons_none] at h
      by_cases hev : p.2.evictable = true
      · rw [if_pos hev] at h
        rcases ih (some p.1) f h with h1 | ⟨q, hq, hq2⟩
        · exact Or.inr ⟨p, by simp, Option.some.inj h1⟩
        · exact Or.inr ⟨q, by simp [hq], hq2⟩
      · rw [if_neg hev] at h
        rcases ih none f h with h1 | ⟨q, hq, hq2⟩
        · exact Option.noConfusion h1
        · exact Or.inr ⟨q, by simp [hq], hq2⟩
    | some b =>
      rw [evictScan_cons_some] at h
      by_cases hev : p.2.evictable = true
      · rw [if_pos hev] at h
        by_cases hc : evictCmp r p.1 b = true
        · rw [if_pos hc] at h
          rcases ih (some p.1) f h with h1 | ⟨q, hq, hq2⟩
          · exact Or.inr ⟨p, by simp, Option.some.inj h1⟩
          · exact Or.inr ⟨q, by simp [hq], hq2⟩
        · rw [if_neg hc] at h
          rcases ih (some b) f h with h1 | ⟨q, hq, hq2⟩
          · exact Or.inl h1
          · exact Or.inr ⟨q, by simp [hq], hq2⟩
      · rw [if_neg hev] at h
        rcases ih (some b) f h with h1 | ⟨q, hq, hq2⟩
        · exact Or.inl h1
        · exact Or.inr ⟨q, by simp [hq], hq2⟩

theorem Evict_mem {r r2 : LRUK} {f : Nat} (hev : r.Evict = some (f, r2)) :
    ∃ p ∈ r.frameInfos, p.1 = f := by
  unfold Evict at hev
  cases hscan : evictScan r r.frameInfos none with
  | none =>
    rw [hscan] at hev
    exact Option.noConfusion hev
  | some fid =>
    rw [hscan] at hev
    obtain ⟨rfl, rfl⟩ := Prod.mk.inj (Option.some.inj hev)
    rcases evictScan_mem r.frameInfos none fid hscan with h1 | h2
    · exact Option.noConfusion h1
    · exact h2

theorem no_drop {r : LRUK} {n f : Nat}
    (hnd : (r.frameInfos.map Prod.fst).Nodup)
    (hlt : ∀ p ∈ r.frameInfos, p.1 < n)
    (hsz : r.replacerSize = n) (hf : f < n) :
    ¬(r.getInfo f = none ∧ r.frameInfos.length = r.replacerSize) := by
  rintro ⟨hnone, hlen⟩
  exact tracked_of_full hnd hlt (hlen.trans hsz) hf hnone

end LRUK

/-! ### Claims about the LRU-K replacer: set_evictable -/

/-- C9 counterexample: `c9State` tracks frame 1 with its evictable flag
already set; a further `SetEvictable(1, true)` leaves `Size()` at 1 instead
of increasing it by one. -/
theorem c9_counterexample :
    LRUK.c9State.getInfo 1 ≠ none ∧ LRUK.c9State.Size = 1 ∧
      (LRUK.c9State.SetEvictable 1 true).Size = 1 := by
  refine ⟨by decide, by decide, by decide⟩

/-- C9 (amended): `set_evictable(F, b)` on a tracked frame whose flag
differs from `b` increases `size()` by exactly one when `b` is true and
decreases it by exactly one (`curr_size_ - 1`) when `b` is false; when the
flag already equals `b`, and on untracked frames, the whole state is left
unchanged. -/
theorem c9_set_evictable_size (r : LRUK) (fid : Nat) :
    (∀ info, r.getInfo fid = some info →
      (info.evictable = false →
        (r.SetEvictable fid true).Size = r.Size + 1) ∧
      (info.evictable = true →
        (r.SetEvictable fid false).Size = r.Size - 1) ∧
      (info.evictable = true → r.SetEvictable fid true = r) ∧
      (info.evictable = false → r.SetEvictable fid false = r)) ∧
    (r.getInfo fid = none → ∀ b, r.SetEvictable fid b = r) := by
  constructor
  · intro info hinfo
    have hfind : (r.frameInfos.find? fun p => decide (p.1 = fid)) =
        some (fid, info) := by
      unfold LRUK.getInfo at hinfo
      cases hf : r.frameInfos.find? fun p => decide (p.1 = fid) with
      | none => rw [hf] at hinfo; simp at hinfo
      | some p =>
        rw [hf] at hinfo
        have hp := List.find?_some hf
        simp only [decide_eq_true_eq] at hp
        simp only [Option.map_some', Option.some.injEq] at hinfo
        rw [show p = (fid, info) from by cases p; simp_all]
    refine ⟨?_, ?_, ?_, ?_⟩
    · intro hev
      unfold LRUK.SetEvictable
      rw [hinfo]
      simp only [hev]
      rfl
    · intro hev
      unfold LRUK.SetEvictable
      rw [hinfo]
      simp only [hev]
      rfl
    · intro hev
      unfold LRUK.SetEvictable
      rw [hinfo]
      simp only [hev]
      have : ({ info with evictable := true } : FrameInfo) = info := by
        cases info
        simp_all
      rw [this, LRUK.setInfo_self hfind]
      simp
    · intro hev
      unfold LRUK.SetEvictable
      rw [hinfo]
      simp only [hev]
      have : ({ info with evictable := false } : FrameInfo) = info := by
        cases info
        simp_all
      rw [this, LRUK.setInfo_self hfind]
      simp
  · intro hnone b
    unfold LRUK.SetEvictable
    rw [hnone]

theorem c9_witness :
    (LRUK.c9State.SetEvictable 1 false).Size = LRUK.c9State.Size - 1 :=
  ((c9_set_evictable_size LRUK.c9State 1).1
    { timeSeq := [0], evictable := true } (by decide)).2.1 (by decide)

/-- C2: for every well-formed replacer state, `Evict` returns nothing exactly
when no tracked frame is evictable; otherwise it returns an evictable frame
that the policy prefers to every other evictable frame (a history of fewer
than `k` accesses beats a full one, ties fall to the older front-of-queue
timestamp), erases that frame's record and decrements the size; and in the
k = 2, capacity-7 scenario with accesses 1,2,3,4,5,6, 1,2,3,4,5,6, 1 (all
frames made evictable) six successive evictions return 2, 3, 4, 5, 6, 1. -/
theorem c2_evict_policy :
    (∀ r : LRUK, LRUK.WFrep r →
      (r.Evict = none ↔ ∀ p ∈ r.frameInfos, p.2.evictable = false) ∧
      (∀ f r2, r.Evict = some (f, r2) →
        (∃ fi, r.getInfo f = some fi ∧ fi.evictable = true ∧
          ∀ p ∈ r.frameInfos, p.2.evictable = true → p.1 ≠ f →
            LRUK.Prefers r.k fi p.2) ∧
        r2.getInfo f = none ∧
        (∀ g, g ≠ f → r2.getInfo g = r.getInfo g) ∧
        r2.Size = r.Size - 1)) ∧
    LRUK.evictList 6 LRUK.c2Scenario = [2, 3, 4, 5, 6, 1] := by
  constructor
  · intro r hwf
    obtain ⟨hnd, hbnd, hpw⟩ := hwf
    refine ⟨LRUK.Evict_none_iff, ?_⟩
    intro f r2 hev
    obtain ⟨hvict, hnone, hoth, hsz, _⟩ :=
      LRUK.Evict_some_spec hnd hbnd hpw hev
    exact ⟨hvict, hnone, hoth, hsz⟩
  · decide

/-- Witness for C2: the freshly initialised replacer is well-formed and, with
no tracked frame at all, `Evict` returns nothing. -/
theorem c2_witness :
    LRUK.WFrep (LRUK.init 7 2) ∧ (LRUK.init 7 2).Evict = none := by
  have hwf : LRUK.WFrep (LRUK.init 7 2) :=
    ⟨by simp [LRUK.init], by simp [LRUK.init], by simp [LRUK.init]⟩
  exact ⟨hwf, ((c2_evict_policy.1 (LRUK.init 7 2) hwf).1).mpr
    (by intro p hp; simp [LRUK.init] at hp)⟩

/-! ### Buffer-pool invariant preservation -/

omit [DecidableEq K] in
theorem getD_set_ne {α : Type} {l : List α} {i j : Nat} {a d : α}
    (h : i ≠ j) : (l.set i a).getD j d = l.getD j d := by
  rw [List.getD_eq_getElem?_getD, List.getD_eq_getElem?_getD,
    List.getElem?_set_ne h]

omit [DecidableEq K] in
theorem getD_set_self {α : Type} {l : List α} {i : Nat} {a d : α}
    (h : i < l.length) : (l.set i a).getD i d = a := by
  rw [List.getD_eq_getElem?_getD, List.getElem?_set_self h]
  rfl

theorem EHT.Find_init (hash : K → Nat) (bucketSize : Nat) (key : K) :
    EHT.Find hash (EHT.init (K := K) (V := V) bucketSize) key = none := by
  have h : (EHT.init (K := K) (V := V) bucketSize).dir.getD
      ((EHT.init (K := K) (V := V) bucketSize).IndexOf hash key) 0 = 0 := by
    cases hidx : (EHT.init (K := K) (V := V) bucketSize).IndexOf hash key with
    | zero => rfl
    | succ n => rfl
  unfold EHT.Find
  rw [h]
  rfl

namespace BPM

theorem init_inv {poolSize bucketSize k : Nat} (hb : 0 < bucketSize) :
    Inv (init poolSize bucketSize k) := by
  have hfind : ∀ pid : Int,
      EHT.Find pidHash (init poolSize bucketSize k).pageTable pid = none :=
    fun pid => EHT.Find_init pidHash bucketSize pid
  refine ⟨?_, ?_, ?_, ?_, ?_, ?_, ?_, ?_, ?_, ?_, ?_, ?_⟩
  · simp [init]
  · exact EHT.init_Inv hb
  · intro pid f h
    rw [hfind pid] at h
    exact Option.noConfusion h
  · intro pid f h
    rw [hfind pid] at h
    exact Option.noConfusion h
  · intro f hf
    simp only [init, List.mem_range] at hf
    exact hf
  · show (List.range poolSize).Nodup
    exact List.nodup_range poolSize
  · intro f _ pid hcon
    rw [hfind pid] at hcon
    exact Option.noConfusion hcon
  · intro p hp
    simp [init, LRUK.init] at hp
  · simp [init, LRUK.init]
  · rfl
  · intro pid f h
    rw [hfind pid] at h
    exact Option.noConfusion h
  · intro pid f h
    rw [hfind pid] at h
    exact Option.noConfusion h

theorem acquireFrame_spec {m m1 : BPM} {f : Nat} {ev : List BPEv}
    (hInv : Inv m) (hacq : acquireFrame m = some (m1, f, ev)) :
    Inv m1 ∧ f < m.poolSize ∧
    (∀ pid', EHT.Find pidHash m1.pageTable pid' ≠ some f) ∧
    f ∉ m1.freeList ∧
    m1.poolSize = m.poolSize ∧ m1.pages = m.pages := by
  unfold acquireFrame at hacq
  cases hfl : m.freeList with
  | cons g rest =>
    rw [hfl] at hacq
    obtain ⟨rfl, h2⟩ := Prod.mk.inj (Option.some.inj hacq)
    obtain ⟨rfl, rfl⟩ := Prod.mk.inj h2
    have hgmem : g ∈ m.freeList := by
      rw [hfl]
      exact List.mem_cons_self g rest
    have hnd : (g :: rest).Nodup := hfl ▸ hInv.freeNodup
    refine ⟨?_, hInv.freeLt g hgmem, ?_, ?_, rfl, rfl⟩
    · refine ⟨hInv.pagesLen, hInv.tableInv, hInv.framesLt, hInv.pidMatch,
        ?_, ?_, ?_, hInv.trackedLt, hInv.replNodup, hInv.replSize,
        hInv.resTracked, hInv.unpinnedEv⟩
      · intro g2 hg2
        show g2 < m.poolSize
        replace hg2 : g2 ∈ rest := hg2
        exact hInv.freeLt g2 (by rw [hfl]; exact List.mem_cons_of_mem g hg2)
      · show rest.Nodup
        exact (List.nodup_cons.mp hnd).2
      · intro g2 hg2 pid'
        replace hg2 : g2 ∈ rest := hg2
        show EHT.Find pidHash m.pageTable pid' ≠ some g2
        exact hInv.freeNotRes g2
          (by rw [hfl]; exact List.mem_cons_of_mem g hg2) pid'
    · intro pid'
      show EHT.Find pidHash m.pageTable pid' ≠ some g
      exact hInv.freeNotRes g hgmem pid'
    · show g ∉ rest
      exact (List.nodup_cons.mp hnd).1
  | nil =>
    rw [hfl] at hacq
    cases hev : m.replacer.Evict with
    | none =>
      rw [hev] at hacq
      exact Option.noConfusion hacq
    | some pr =>
      obtain ⟨vf, rep⟩ := pr
      rw [hev] at hacq
      obtain ⟨rfl, h2⟩ := Prod.mk.inj (Option.some.inj hacq)
      obtain ⟨rfl, rfl⟩ := Prod.mk.inj h2
      obtain ⟨p, hpmem, hpfst⟩ := LRUK.Evict_mem hev
      have hflt : vf < m.poolSize := hpfst ▸ hInv.trackedLt p hpmem
      have hrem := EHT.Remove_spec hInv.tableInv (m.getPage vf).pageId
      have hfind_ne : ∀ pid', pid' ≠ (m.getPage vf).pageId →
          EHT.Find pidHash
            ((EHT.Remove pidHash m.pageTable (m.getPage vf).pageId).1) pid' =
          EHT.Find pidHash m.pageTable pid' :=
        fun pid' hne => hrem.2.2.1 pid' hne
      have hfind_self : EHT.Find pidHash
          ((EHT.Remove pidHash m.pageTable (m.getPage vf).pageId).1)
          (m.getPage vf).pageId = none := hrem.2.1
      have hnotvf : ∀ pid' f',
          EHT.Find pidHash
            ((EHT.Remove pidHash m.pageTable (m.getPage vf).pageId).1) pid' =
            some f' → f' ≠ vf := by
        intro pid' f' hfind hcon
        by_cases hpe : pid' = (m.getPage vf).pageId
        · rw [hpe, hfind_self] at hfind
          exact Option.noConfusion hfind
        · rw [hfind_ne pid' hpe] at hfind
          have hpm := hInv.pidMatch pid' f' hfind
          rw [hcon] at hpm
          exact hpe hpm.symm
      refine ⟨?_, hflt, ?_, ?_, rfl, rfl⟩
      · refine ⟨hInv.pagesLen, hrem.1, ?_, ?_, ?_, ?_, ?_, ?_, ?_, ?_,
          ?_, ?_⟩
        · intro pid' f' hfind
          replace hfind : EHT.Find pidHash
              ((EHT.Remove pidHash m.pageTable (m.getPage vf).pageId).1)
              pid' = some f' := hfind
          show f' < m.poolSize
          by_cases hpe : pid' = (m.getPage vf).pageId
          · rw [hpe, hfind_self] at hfind
            exact Option.noConfusion hfind
          · exact hInv.framesLt pid' f' (hfind_ne pid' hpe ▸ hfind)
        · intro pid' f' hfind
          replace hfind : EHT.Find pidHash
              ((EHT.Remove pidHash m.pageTable (m.getPage vf).pageId).1)
              pid' = some f' := hfind
          show (m.getPage f').pageId = pid'
          by_cases hpe : pid' = (m.getPage vf).pageId
          · rw [hpe, hfind_self] at hfind
            exact Option.noConfusion hfind
          · exact hInv.pidMatch pid' f' (hfind_ne pid' hpe ▸ hfind)
        · intro g2 hg2
          replace hg2 : g2 ∈ ([] : List Nat) := hg2
          exact absurd hg2 (List.not_mem_nil g2)
        · show ([] : List Nat).Nodup
          exact List.nodup_nil
        · intro g2 hg2 pid'
          replace hg2 : g2 ∈ ([] : List Nat) := hg2
          exact absurd hg2 (List.not_mem_nil g2)
        · intro p2 hp2
          replace hp2 : p2 ∈ rep.frameInfos := hp2
          show p2.1 < m.poolSize
          have hp3 : p2 ∈ m.replacer.frameInfos :=
            List.mem_of_mem_filter ((LRUK.Evict_frameInfos hev).1 ▸ hp2)
          exact hInv.trackedLt p2 hp3
        · show (rep.frameInfos.map Prod.fst).Nodup
          have hsub : ((rep.frameInfos).map Prod.fst).Sublist
              (m.replacer.frameInfos.map Prod.fst) := by
            rw [(LRUK.Evict_frameInfos hev).1]
            exact (List.filter_sublist m.replacer.frameInfos).map Prod.fst
          exact hInv.replNodup.sublist hsub
        · show rep.replacerSize = m.poolSize
          rw [(LRUK.Evict_frameInfos hev).2]
          exact hInv.replSize
        · intro pid' f' hfind
          replace hfind : EHT.Find pidHash
              ((EHT.Remove pidHash m.pageTable (m.getPage vf).pageId).1)
              pid' = some f' := hfind
          show rep.getInfo f' ≠ none
          have hne : f' ≠ vf := hnotvf pid' f' hfind
          rw [LRUK.getInfo_Evict_ne hne hev]
          by_cases hpe : pid' = (m.getPage vf).pageId
          · rw [hpe, hfind_self] at hfind
            exact Option.noConfusion hfind
          · exact hInv.resTracked pid' f' (hfind_ne pid' hpe ▸ hfind)
        · intro pid' f' hfind hpin
          replace hfind : EHT.Find pidHash
              ((EHT.Remove pidHash m.pageTable (m.getPage vf).pageId).1)
              pid' = some f' := hfind
          replace hpin : (m.getPage f').pinCount = 0 := hpin
          show ∃ info, rep.getInfo f' = some info ∧ info.evictable = true
          have hne : f' ≠ vf := hnotvf pid' f' hfind
          rw [LRUK.getInfo_Evict_ne hne hev]
          by_cases hpe : pid' = (m.getPage vf).pageId
          · rw [hpe, hfind_self] at hfind
            exact Option.noConfusion hfind
          · exact hInv.unpinnedEv pid' f' (hfind_ne pid' hpe ▸ hfind) hpin
      · intro pid' hcon
        exact hnotvf pid' vf hcon rfl
      · show vf ∉ ([] : List Nat)
        exact List.not_mem_nil vf

theorem installPage_Inv {fuel : Nat} {m m2 : BPM} {f : Nat} {pid : Int}
    {ev ev2 : List BPEv} {res : Option (Int × Nat)}
    (hInv : Inv m) (hf : f < m.poolSize)
    (hfns : ∀ pid', EHT.Find pidHash m.pageTable pid' ≠ some f)
    (hffree : f ∉ m.freeList)
    (hins : installPage fuel m f pid ev = some (m2, res, ev2)) :
    Inv m2 ∧ res = some (pid, f) ∧
      EHT.Find pidHash m2.pageTable pid = some f := by
  unfold installPage at hins
  cases hpt : EHT.Insert pidHash pid f fuel m.pageTable with
  | none =>
    rw [hpt] at hins
    exact Option.noConfusion hins
  | some pt =>
    rw [hpt] at hins
    obtain ⟨rfl, h2⟩ := Prod.mk.inj (Option.some.inj hins)
    obtain ⟨rfl, rfl⟩ := Prod.mk.inj h2
    obtain ⟨hptInv, hfindSelf, hfindNe, _⟩ := EHT.Insert_spec hInv.tableInv hpt
    have hnodrop := LRUK.no_drop hInv.replNodup hInv.trackedLt
      hInv.replSize hf
    obtain ⟨i0, hi0⟩ := LRUK.getInfo_RecordAccess_self hnodrop
    have hRself : ((m.replacer.RecordAccess f).SetEvictable f false).getInfo f
        = some { i0 with evictable := false } :=
      LRUK.getInfo_SetEvictable_self hi0 false
    have hRne : ∀ g, g ≠ f →
        ((m.replacer.RecordAccess f).SetEvictable f false).getInfo g =
          m.replacer.getInfo g := by
      intro g hg
      rw [LRUK.getInfo_SetEvictable_ne hg, LRUK.getInfo_RecordAccess_ne hg]
    have hRsz : ((m.replacer.RecordAccess f).SetEvictable f
        false).replacerSize = m.replacer.replacerSize := by
      rw [LRUK.SetEvictable_replacerSize, LRUK.RecordAccess_replacerSize]
    have hRkeys : ∀ x, x ∈ ((m.replacer.RecordAccess f).SetEvictable f
        false).frameInfos.map Prod.fst →
        x ∈ m.replacer.frameInfos.map Prod.fst ∨ x = f := by
      intro x hx
      rw [LRUK.SetEvictable_keys] at hx
      rcases LRUK.RecordAccess_keys m.replacer f with hk | ⟨hk, _⟩
      · rw [hk] at hx
        exact Or.inl hx
      · rw [hk] at hx
        rcases List.mem_append.mp hx with h | h
        · exact Or.inl h
        · exact Or.inr (by simpa using h)
    have hRnd : (((m.replacer.RecordAccess f).SetEvictable f
        false).frameInfos.map Prod.fst).Nodup := by
      rw [LRUK.SetEvictable_keys]
      rcases LRUK.RecordAccess_keys m.replacer f with hk | ⟨hk, hnm⟩
      · rw [hk]
        exact hInv.replNodup
      · rw [hk]
        simp [List.nodup_append, hInv.replNodup, hnm]
    have hfne : ∀ pid' f', EHT.Find pidHash pt pid' = some f' →
        pid' ≠ pid → f' ≠ f := by
      intro pid' f' hfind hne hcon
      rw [hfindNe pid' hne] at hfind
      exact hfns pid' (hcon ▸ hfind)
    have hplen : f < m.pages.length := by
      rw [hInv.pagesLen]
      exact hf
    refine ⟨⟨?_, hptInv, ?_, ?_, ?_, ?_, ?_, ?_, ?_, ?_, ?_, ?_⟩, rfl,
      hfindSelf⟩
    · show (m.pages.set f
          { pageId := pid, pinCount := 1, isDirty := false }).length =
        m.poolSize
      rw [List.length_set]
      exact hInv.pagesLen
    · intro pid' f' hfind
      replace hfind : EHT.Find pidHash pt pid' = some f' := hfind
      show f' < m.poolSize
      by_cases hpe : pid' = pid
      · rw [hpe, hfindSelf] at hfind
        exact (Option.some.inj hfind).symm ▸ hf
      · rw [hfindNe pid' hpe] at hfind
        exact hInv.framesLt pid' f' hfind
    · intro pid' f' hfind
      replace hfind : EHT.Find pidHash pt pid' = some f' := hfind
      by_cases hpe : pid' = pid
      · rw [hpe, hfindSelf] at hfind
        have hfeq : f' = f := (Option.some.inj hfind).symm
        show ((m.pages.set f
            { pageId := pid, pinCount := 1, isDirty := false }).getD f'
            { pageId := -1, pinCount := 0, isDirty := false }).pageId = pid'
        rw [hfeq, getD_set_self hplen, hpe]
      · have hne := hfne pid' f' hfind hpe
        show ((m.pages.set f
            { pageId := pid, pinCount := 1, isDirty := false }).getD f'
            { pageId := -1, pinCount := 0, isDirty := false }).pageId = pid'
        rw [getD_set_ne (Ne.symm hne)]
        rw [hfindNe pid' hpe] at hfind
        exact hInv.pidMatch pid' f' hfind
    · intro g hg
      replace hg : g ∈ m.freeList := hg
      exact hInv.freeLt g hg
    · show m.freeList.Nodup
      exact hInv.freeNodup
    · intro g hg pid'
      replace hg : g ∈ m.freeList := hg
      show EHT.Find pidHash pt pid' ≠ some g
      intro hfind
      by_cases hpe : pid' = pid
      · rw [hpe, hfindSelf] at hfind
        obtain rfl := Option.some.inj hfind
        exact hffree hg
      · rw [hfindNe pid' hpe] at hfind
        exact hInv.freeNotRes g hg pid' hfind
    · intro p hp
      replace hp : p ∈ ((m.replacer.RecordAccess f).SetEvictable f
          false).frameInfos := hp
      show p.1 < m.poolSize
      have hx := List.mem_map_of_mem Prod.fst hp
      rcases hRkeys p.1 hx with h | h
      · obtain ⟨q, hq, hqf⟩ := List.mem_map.mp h
        exact hqf ▸ hInv.trackedLt q hq
      · exact h ▸ hf
    · exact hRnd
    · show ((m.replacer.RecordAccess f).SetEvictable f false).replacerSize =
        m.poolSize
      rw [hRsz]
      exact hInv.replSize
    · intro pid' f' hfind
      replace hfind : EHT.Find pidHash pt pid' = some f' := hfind
      show ((m.replacer.RecordAccess f).SetEvictable f false).getInfo f' ≠
        none
      by_cases hpe : pid' = pid
      · rw [hpe, hfindSelf] at hfind
        have hfeq : f' = f := (Option.some.inj hfind).symm
        rw [hfeq, hRself]
        exact Option.noConfusion
      · have hne := hfne pid' f' hfind hpe
        rw [hRne f' hne]
        rw [hfindNe pid' hpe] at hfind
        exact hInv.resTracked pid' f' hfind
    · intro pid' f' hfind hpin
      replace hfind : EHT.Find pidHash pt pid' = some f' := hfind
      by_cases hpe : pid' = pid
      · rw [hpe, hfindSelf] at hfind
        have hfeq : f' = f := (Option.some.inj hfind).symm
        replace hpin : ((m.pages.set f
            { pageId := pid, pinCount := 1, isDirty := false }).getD f'
            { pageId := -1, pinCount := 0, isDirty := false }).pinCount =
            0 := hpin
        rw [hfeq, getD_set_self hplen] at hpin
        exact absurd hpin (by simp)
      · have hne := hfne pid' f' hfind hpe
        replace hpin : ((m.pages.set f
            { pageId := pid, pinCount := 1, isDirty := false }).getD f'
            { pageId := -1, pinCount := 0, isDirty := false }).pinCount =
            0 := hpin
        rw [getD_set_ne (Ne.symm hne)] at hpin
        show ∃ info, ((m.replacer.RecordAccess f).SetEvictable f
            false).getInfo f' = some info ∧ info.evictable = true
        rw [hRne f' hne]
        rw [hfindNe pid' hpe] at hfind
        exact hInv.unpinnedEv pid' f' hfind hpin

theorem NewPgImp_Inv {fuel : Nat} {m m2 : BPM} {res : Option (Int × Nat)}
    {ev : List BPEv} (hInv : Inv m)
    (h : NewPgImp fuel m = some (m2, res, ev)) : Inv m2 := by
  unfold NewPgImp at h
  cases hacq : acquireFrame m with
  | none =>
    rw [hacq] at h
    obtain ⟨rfl, h2⟩ := Prod.mk.inj (Option.some.inj h)
    exact hInv
  | some tr =>
    obtain ⟨m1, f, aev⟩ := tr
    rw [hacq] at h
    obtain ⟨hInv1, hflt, hfns, hffree, hpool, hpages⟩ :=
      acquireFrame_spec hInv hacq
    have hInv1' : Inv { m1 with nextPageId := m1.nextPageId + 1 } :=
      ⟨hInv1.pagesLen, hInv1.tableInv, hInv1.framesLt, hInv1.pidMatch,
        hInv1.freeLt, hInv1.freeNodup, hInv1.freeNotRes, hInv1.trackedLt,
        hInv1.replNodup, hInv1.replSize, hInv1.resTracked, hInv1.unpinnedEv⟩
    exact (installPage_Inv hInv1' (hpool.symm ▸ hflt) hfns hffree h).1

theorem FetchPgImp_hit_Inv {m : BPM} {pid : Int} {f : Nat} (hInv : Inv m)
    (hfind : EHT.Find pidHash m.pageTable pid = some f) :
    Inv { m with
      replacer := (m.replacer.RecordAccess f).SetEvictable f false,
      pages := m.pages.set f
        { m.getPage f with pinCount := (m.getPage f).pinCount + 1 } } := by
  have hf : f < m.poolSize := hInv.framesLt pid f hfind
  have hplen : f < m.pages.length := by
    rw [hInv.pagesLen]
    exact hf
  have hnodrop := LRUK.no_drop hInv.replNodup hInv.trackedLt
    hInv.replSize hf
  obtain ⟨i0, hi0⟩ := LRUK.getInfo_RecordAccess_self hnodrop
  have hRself : ((m.replacer.RecordAccess f).SetEvictable f false).getInfo f
      = some { i0 with evictable := false } :=
    LRUK.getInfo_SetEvictable_self hi0 false
  have hRne : ∀ g, g ≠ f →
      ((m.replacer.RecordAccess f).SetEvictable f false).getInfo g =
        m.replacer.getInfo g := by
    intro g hg
    rw [LRUK.getInfo_SetEvictable_ne hg, LRUK.getInfo_RecordAccess_ne hg]
  refine ⟨?_, hInv.tableInv, hInv.framesLt, ?_, ?_, ?_, ?_, ?_, ?_, ?_,
    ?_, ?_⟩
  · show (m.pages.set f
        { m.getPage f with
          pinCount := (m.getPage f).pinCount + 1 }).length = m.poolSize
    rw [List.length_set]
    exact hInv.pagesLen
  · intro pid' f' hfind'
    replace hfind' : EHT.Find pidHash m.pageTable pid' = some f' := hfind'
    show ((m.pages.set f
        { m.getPage f with pinCount := (m.getPage f).pinCount + 1 }).getD f'
        { pageId := -1, pinCount := 0, isDirty := false }).pageId = pid'
    by_cases hfe : f' = f
    · rw [hfe, getD_set_self hplen]
      have := hInv.pidMatch pid' f' hfind'
      rw [hfe] at this
      exact this
    · rw [getD_set_ne (Ne.symm hfe)]
      exact hInv.pidMatch pid' f' hfind'
  · intro g hg
    replace hg : g ∈ m.freeList := hg
    exact hInv.freeLt g hg
  · show m.freeList.Nodup
    exact hInv.freeNodup
  · intro g hg pid'
    replace hg : g ∈ m.freeList := hg
    exact hInv.freeNotRes g hg pid'
  · intro p hp
    replace hp : p ∈ ((m.replacer.RecordAccess f).SetEvictable f
        false).frameInfos := hp
    show p.1 < m.poolSize
    have hx := List.mem_map_of_mem Prod.fst hp
    rw [LRUK.SetEvictable_keys] at hx
    rcases LRUK.RecordAccess_keys m.replacer f with hk | ⟨hk, _⟩
    · rw [hk] at hx
      obtain ⟨q, hq, hqf⟩ := List.mem_map.mp hx
      exact hqf ▸ hInv.trackedLt q hq
    · rw [hk] at hx
      rcases List.mem_append.mp hx with hx2 | hx2
      · obtain ⟨q, hq, hqf⟩ := List.mem_map.mp hx2
        exact hqf ▸ hInv.trackedLt q hq
      · have : p.1 = f := by simpa using hx2
        exact this ▸ hf
  · show (((m.replacer.RecordAccess f).SetEvictable f
        false).frameInfos.map Prod.fst).Nodup
    rw [LRUK.SetEvictable_keys]
    rcases LRUK.RecordAccess_keys m.replacer f with hk | ⟨hk, hnm⟩
    · rw [hk]
      exact hInv.replNodup
    · rw [hk]
      simp [List.nodup_append, hInv.replNodup, hnm]
  · show ((m.replacer.RecordAccess f).SetEvictable f false).replacerSize =
      m.poolSize
    rw [LRUK.SetEvictable_replacerSize, LRUK.RecordAccess_replacerSize]
    exact hInv.replSize
  · intro pid' f' hfind'
    replace hfind' : EHT.Find pidHash m.pageTable pid' = some f' := hfind'
    show ((m.replacer.RecordAccess f).SetEvictable f false).getInfo f' ≠ none
    by_cases hfe : f' = f
    · rw [hfe, hRself]
      exact Option.noConfusion
    · rw [hRne f' hfe]
      exact hInv.resTracked pid' f' hfind'
  · intro pid' f' hfind' hpin
    replace hfind' : EHT.Find pidHash m.pageTable pid' = some f' := hfind'
    replace hpin : ((m.pages.set f
        { m.getPage f with pinCount := (m.getPage f).pinCount + 1 }).getD f'
        { pageId := -1, pinCount := 0, isDirty := false }).pinCount = 0 :=
      hpin
    show ∃ info, ((m.replacer.RecordAccess f).SetEvictable f
        false).getInfo f' = some info ∧ info.evictable = true
    by_cases hfe : f' = f
    · rw [hfe, getD_set_self hplen] at hpin
      exact absurd hpin (by simp)
    · rw [getD_set_ne (Ne.symm hfe)] at hpin
      rw [hRne f' hfe]
      exact hInv.unpinnedEv pid' f' hfind' hpin

theorem FetchPgImp_Inv {fuel : Nat} {pid : Int} {m m2 : BPM}
    {res : Option (Int × Nat)} {ev : List BPEv} (hInv : Inv m)
    (h : FetchPgImp fuel pid m = some (m2, res, ev)) : Inv m2 := by
  unfold FetchPgImp at h
  cases hfind : EHT.Find pidHash m.pageTable pid with
  | some f =>
    rw [hfind] at h
    obtain ⟨rfl, h2⟩ := Prod.mk.inj (Option.some.inj h)
    exact FetchPgImp_hit_Inv hInv hfind
  | none =>
    rw [hfind] at h
    cases hacq : acquireFrame m with
    | none =>
      rw [hacq] at h
      obtain ⟨rfl, _⟩ := Prod.mk.inj (Option.some.inj h)
      exact hInv
    | some tr =>
      obtain ⟨m1, f, aev⟩ := tr
      rw [hacq] at h
      replace h : (match installPage fuel m1 f pid aev with
          | none => none
          | some (m2, r, ev2) => some (m2, r, ev2 ++ [BPEv.read pid])) =
          some (m2, res, ev) := h
      cases hins : installPage fuel m1 f pid aev with
      | none =>
        rw [hins] at h
        exact Option.noConfusion h
      | some tr2 =>
        obtain ⟨m2', res2, ev2⟩ := tr2
        rw [hins] at h
        obtain ⟨rfl, _⟩ := Prod.mk.inj (Option.some.inj h)
        obtain ⟨hInv1, hflt, hfns, hffree, hpool, _⟩ :=
          acquireFrame_spec hInv hacq
        exact (installPage_Inv hInv1 (hpool.symm ▸ hflt) hfns hffree hins).1

theorem set0_clean_Inv {m : BPM} (hInv : Inv m) :
    Inv { m with pages :=
      m.pages.set 0 { m.getPage 0 with isDirty := false } } := by
  refine ⟨?_, hInv.tableInv, hInv.framesLt, ?_, ?_, ?_, ?_,
    hInv.trackedLt, hInv.replNodup, hInv.replSize, hInv.resTracked, ?_⟩
  · show (m.pages.set 0 { m.getPage 0 with isDirty := false }).length =
      m.poolSize
    rw [List.length_set]
    exact hInv.pagesLen
  · intro pid' f' hfind'
    replace hfind' : EHT.Find pidHash m.pageTable pid' = some f' := hfind'
    show ((m.pages.set 0 { m.getPage 0 with isDirty := false }).getD f'
        { pageId := -1, pinCount := 0, isDirty := false }).pageId = pid'
    by_cases hf0 : f' = 0
    · have hlen0 : 0 < m.pages.length := by
        rw [hInv.pagesLen]
        have := hInv.framesLt pid' f' hfind'
        omega
      rw [hf0, getD_set_self hlen0]
      have := hInv.pidMatch pid' f' hfind'
      rw [hf0] at this
      exact this
    · rw [getD_set_ne (Ne.symm hf0)]
      exact hInv.pidMatch pid' f' hfind'
  · intro g hg
    replace hg : g ∈ m.freeList := hg
    exact hInv.freeLt g hg
  · show m.freeList.Nodup
    exact hInv.freeNodup
  · intro g hg pid'
    replace hg : g ∈ m.freeList := hg
    exact hInv.freeNotRes g hg pid'
  · intro pid' f' hfind' hpin
    replace hfind' : EHT.Find pidHash m.pageTable pid' = some f' := hfind'
    replace hpin : ((m.pages.set 0
        { m.getPage 0 with isDirty := false }).getD f'
        { pageId := -1, pinCount := 0, isDirty := false }).pinCount = 0 :=
      hpin
    show ∃ info, m.replacer.getInfo f' = some info ∧ info.evictable = true
    by_cases hf0 : f' = 0
    · have hlen0 : 0 < m.pages.length := by
        rw [hInv.pagesLen]
        have := hInv.framesLt pid' f' hfind'
        omega
      rw [hf0, getD_set_self hlen0] at hpin
      exact hInv.unpinnedEv pid' f' hfind' (by rw [hf0]; exact hpin)
    · rw [getD_set_ne (Ne.symm hf0)] at hpin
      exact hInv.unpinnedEv pid' f' hfind' hpin

theorem delete_tail_Inv {M1 : BPM} {f : Nat} {pid : Int} {rep : LRUK}
    (hInv1 : Inv M1)
    (hfind : EHT.Find pidHash M1.pageTable pid = some f)
    (hrem : M1.replacer.Remove f = some rep) :
    Inv { M1 with
      replacer := rep,
      freeList := M1.freeList ++ [f],
      pageTable := (EHT.Remove pidHash M1.pageTable pid).1 } := by
  have hremSpec := EHT.Remove_spec hInv1.tableInv pid
  have hfind_self : EHT.Find pidHash
      ((EHT.Remove pidHash M1.pageTable pid).1) pid = none := hremSpec.2.1
  have hfind_ne : ∀ pid', pid' ≠ pid →
      EHT.Find pidHash ((EHT.Remove pidHash M1.pageTable pid).1) pid' =
      EHT.Find pidHash M1.pageTable pid' :=
    fun pid' hne => hremSpec.2.2.1 pid' hne
  have hflt : f < M1.poolSize := hInv1.framesLt pid f hfind
  have hnotf : ∀ pid' f',
      EHT.Find pidHash ((EHT.Remove pidHash M1.pageTable pid).1) pid' =
        some f' → f' ≠ f := by
    intro pid' f' hfind' hcon
    by_cases hpe : pid' = pid
    · rw [hpe, hfind_self] at hfind'
      exact Option.noConfusion hfind'
    · rw [hfind_ne pid' hpe] at hfind'
      have h1 := hInv1.pidMatch pid' f' hfind'
      have h2 := hInv1.pidMatch pid f hfind
      rw [hcon] at h1
      rw [h1] at h2
      exact hpe h2
  have hfnotfree : f ∉ M1.freeList := by
    intro hmem
    exact hInv1.freeNotRes f hmem pid hfind
  refine ⟨hInv1.pagesLen, hremSpec.1, ?_, ?_, ?_, ?_, ?_, ?_, ?_, ?_,
    ?_, ?_⟩
  · intro pid' f' hfind'
    replace hfind' : EHT.Find pidHash
        ((EHT.Remove pidHash M1.pageTable pid).1) pid' = some f' := hfind'
    show f' < M1.poolSize
    by_cases hpe : pid' = pid
    · rw [hpe, hfind_self] at hfind'
      exact Option.noConfusion hfind'
    · rw [hfind_ne pid' hpe] at hfind'
      exact hInv1.framesLt pid' f' hfind'
  · intro pid' f' hfind'
    replace hfind' : EHT.Find pidHash
        ((EHT.Remove pidHash M1.pageTable pid).1) pid' = some f' := hfind'
    show (M1.getPage f').pageId = pid'
    by_cases hpe : pid' = pid
    · rw [hpe, hfind_self] at hfind'
      exact Option.noConfusion hfind'
    · rw [hfind_ne pid' hpe] at hfind'
      exact hInv1.pidMatch pid' f' hfind'
  · intro g hg
    replace hg : g ∈ M1.freeList ++ [f] := hg
    show g < M1.poolSize
    rcases List.mem_append.mp hg with h | h
    · exact hInv1.freeLt g h
    · have : g = f := by simpa using h
      exact this ▸ hflt
  · show (M1.freeList ++ [f]).Nodup
    rw [List.nodup_append]
    refine ⟨hInv1.freeNodup, List.nodup_singleton f, ?_⟩
    intro g hg hgf
    have : g = f := by simpa using hgf
    exact hfnotfree (this ▸ hg)
  · intro g hg pid'
    replace hg : g ∈ M1.freeList ++ [f] := hg
    show EHT.Find pidHash ((EHT.Remove pidHash M1.pageTable pid).1) pid' ≠
      some g
    intro hfind'
    rcases List.mem_append.mp hg with h | h
    · by_cases hpe : pid' = pid
      · rw [hpe, hfind_self] at hfind'
        exact Option.noConfusion hfind'
      · rw [hfind_ne pid' hpe] at hfind'
        exact hInv1.freeNotRes g h pid' hfind'
    · have hgf : g = f := by simpa using h
      exact hnotf pid' g hfind' (hgf ▸ rfl)
  · intro p hp
    replace hp : p ∈ rep.frameInfos := hp
    show p.1 < M1.poolSize
    rcases LRUK.Remove_cases hrem with ⟨_, rfl⟩ | ⟨hfr, _, _⟩
    · exact hInv1.trackedLt p hp
    · rw [hfr] at hp
      exact hInv1.trackedLt p (List.mem_of_mem_filter hp)
  · show (rep.frameInfos.map Prod.fst).Nodup
    rcases LRUK.Remove_cases hrem with ⟨_, rfl⟩ | ⟨hfr, _, _⟩
    · exact hInv1.replNodup
    · rw [hfr]
      exact hInv1.replNodup.sublist
        ((List.filter_sublist M1.replacer.frameInfos).map Prod.fst)
  · show rep.replacerSize = M1.poolSize
    rcases LRUK.Remove_cases hrem with ⟨_, rfl⟩ | ⟨_, hsz, _⟩
    · exact hInv1.replSize
    · rw [hsz]
      exact hInv1.replSize
  · intro pid' f' hfind'
    replace hfind' : EHT.Find pidHash
        ((EHT.Remove pidHash M1.pageTable pid).1) pid' = some f' := hfind'
    show rep.getInfo f' ≠ none
    have hne : f' ≠ f := hnotf pid' f' hfind'
    rw [LRUK.getInfo_Remove_ne hne hrem]
    by_cases hpe : pid' = pid
    · rw [hpe, hfind_self] at hfind'
      exact Option.noConfusion hfind'
    · rw [hfind_ne pid' hpe] at hfind'
      exact hInv1.resTracked pid' f' hfind'
  · intro pid' f' hfind' hpin
    replace hfind' : EHT.Find pidHash
        ((EHT.Remove pidHash M1.pageTable pid).1) pid' = some f' := hfind'
    replace hpin : (M1.getPage f').pinCount = 0 := hpin
    show ∃ info, rep.getInfo f' = some info ∧ info.evictable = true
    have hne : f' ≠ f := hnotf pid' f' hfind'
    rw [LRUK.getInfo_Remove_ne hne hrem]
    by_cases hpe : pid' = pid
    · rw [hpe, hfind_self] at hfind'
      exact Option.noConfusion hfind'
    · rw [hfind_ne pid' hpe] at hfind'
      exact hInv1.unpinnedEv pid' f' hfind' hpin

theorem unpin_dec_Inv {m : BPM} {pid : Int} {f : Nat} {d : Bool}
    (hInv : Inv m) (hfind : EHT.Find pidHash m.pageTable pid = some f)
    (hne0 : (m.getPage f).pinCount - 1 ≠ 0) :
    Inv { m with
      pages :=
        m.pages.set f
          { m.getPage f with
            pinCount := (m.getPage f).pinCount - 1,
            isDirty := (m.getPage f).isDirty || d } } := by
  have hf : f < m.poolSize := hInv.framesLt pid f hfind
  have hplen : f < m.pages.length := by
    rw [hInv.pagesLen]
    exact hf
  refine ⟨?_, hInv.tableInv, hInv.framesLt, ?_, ?_, ?_, ?_,
    hInv.trackedLt, hInv.replNodup, hInv.replSize, hInv.resTracked, ?_⟩
  · show (m.pages.set f
        { m.getPage f with
          pinCount := (m.getPage f).pinCount - 1,
          isDirty := (m.getPage f).isDirty || d }).length = m.poolSize
    rw [List.length_set]
    exact hInv.pagesLen
  · intro pid' f' hfind'
    replace hfind' : EHT.Find pidHash m.pageTable pid' = some f' := hfind'
    show ((m.pages.set f
        { m.getPage f with
          pinCount := (m.getPage f).pinCount - 1,
          isDirty := (m.getPage f).isDirty || d }).getD f'
        { pageId := -1, pinCount := 0, isDirty := false }).pageId = pid'
    by_cases hfe : f' = f
    · rw [hfe, getD_set_self hplen]
      have := hInv.pidMatch pid' f' hfind'
      rw [hfe] at this
      exact this
    · rw [getD_set_ne (Ne.symm hfe)]
      exact hInv.pidMatch pid' f' hfind'
  · intro g hg
    replace hg : g ∈ m.freeList := hg
    exact hInv.freeLt g hg
  · show m.freeList.Nodup
    exact hInv.freeNodup
  · intro g hg pid'
    replace hg : g ∈ m.freeList := hg
    exact hInv.freeNotRes g hg pid'
  · intro pid' f' hfind' hpin
    replace hfind' : EHT.Find pidHash m.pageTable pid' = some f' := hfind'
    replace hpin : ((m.pages.set f
        { m.getPage f with
          pinCount := (m.getPage f).pinCount - 1,
          isDirty := (m.getPage f).isDirty || d }).getD f'
        { pageId := -1, pinCount := 0, isDirty := false }).pinCount = 0 :=
      hpin
    show ∃ info, m.replacer.getInfo f' = some info ∧ info.evictable = true
    by_cases hfe : f' = f
    · rw [hfe, getD_set_self hplen] at hpin
      exact absurd hpin hne0
    · rw [getD_set_ne (Ne.symm hfe)] at hpin
      exact hInv.unpinnedEv pid' f' hfind' hpin

theorem unpin_zero_Inv {m : BPM} {pid : Int} {f : Nat} {d : Bool}
    (hInv : Inv m) (hfind : EHT.Find pidHash m.pageTable pid = some f) :
    Inv { m with
      pages :=
        m.pages.set f
          { m.getPage f with
            pinCount := (m.getPage f).pinCount - 1,
            isDirty := (m.getPage f).isDirty || d },
      replacer := m.replacer.SetEvictable f true } := by
  have hf : f < m.poolSize := hInv.framesLt pid f hfind
  have hplen : f < m.pages.length := by
    rw [hInv.pagesLen]
    exact hf
  obtain ⟨infoF, hinfoF⟩ : ∃ i, m.replacer.getInfo f = some i := by
    cases hgi : m.replacer.getInfo f with
    | none => exact absurd hgi (hInv.resTracked pid f hfind)
    | some i => exact ⟨i, rfl⟩
  have hSelf : (m.replacer.SetEvictable f true).getInfo f =
      some { infoF with evictable := true } :=
    LRUK.getInfo_SetEvictable_self hinfoF true
  refine ⟨?_, hInv.tableInv, hInv.framesLt, ?_, ?_, ?_, ?_, ?_, ?_, ?_,
    ?_, ?_⟩
  · show (m.pages.set f
        { m.getPage f with
          pinCount := (m.getPage f).pinCount - 1,
          isDirty := (m.getPage f).isDirty || d }).length = m.poolSize
    rw [List.length_set]
    exact hInv.pagesLen
  · intro pid' f' hfind'
    replace hfind' : EHT.Find pidHash m.pageTable pid' = some f' := hfind'
    show ((m.pages.set f
        { m.getPage f with
          pinCount := (m.getPage f).pinCount - 1,
          isDirty := (m.getPage f).isDirty || d }).getD f'
        { pageId := -1, pinCount := 0, isDirty := false }).pageId = pid'
    by_cases hfe : f' = f
    · rw [hfe, getD_set_self hplen]
      have := hInv.pidMatch pid' f' hfind'
      rw [hfe] at this
      exact this
    · rw [getD_set_ne (Ne.symm hfe)]
      exact hInv.pidMatch pid' f' hfind'
  · intro g hg
    replace hg : g ∈ m.freeList := hg
    exact hInv.freeLt g hg
  · show m.freeList.Nodup
    exact hInv.freeNodup
  · intro g hg pid'
    replace hg : g ∈ m.freeList := hg
    exact hInv.freeNotRes g hg pid'
  · intro p hp
    replace hp : p ∈ (m.replacer.SetEvictable f true).frameInfos := hp
    show p.1 < m.poolSize
    have hx := List.mem_map_of_mem Prod.fst hp
    rw [LRUK.SetEvictable_keys] at hx
    obtain ⟨q, hq, hqf⟩ := List.mem_map.mp hx
    exact hqf ▸ hInv.trackedLt q hq
  · show ((m.replacer.SetEvictable f true).frameInfos.map Prod.fst).Nodup
    rw [LRUK.SetEvictable_keys]
    exact hInv.replNodup
  · show (m.replacer.SetEvictable f true).replacerSize = m.poolSize
    rw [LRUK.SetEvictable_replacerSize]
    exact hInv.replSize
  · intro pid' f' hfind'
    replace hfind' : EHT.Find pidHash m.pageTable pid' = some f' := hfind'
    show (m.replacer.SetEvictable f true).getInfo f' ≠ none
    by_cases hfe : f' = f
    · rw [hfe, hSelf]
      exact Option.noConfusion
    · rw [LRUK.getInfo_SetEvictable_ne hfe]
      exact hInv.resTracked pid' f' hfind'
  · intro pid' f' hfind' hpin
    replace hfind' : EHT.Find pidHash m.pageTable pid' = some f' := hfind'
    show ∃ info, (m.replacer.SetEvictable f true).getInfo f' = some info ∧
      info.evictable = true
    by_cases hfe : f' = f
    · rw [hfe, hSelf]
      exact ⟨{ infoF with evictable := true }, rfl, rfl⟩
    · replace hpin : ((m.pages.set f
          { m.getPage f with
            pinCount := (m.getPage f).pinCount - 1,
            isDirty := (m.getPage f).isDirty || d }).getD f'
          { pageId := -1, pinCount := 0, isDirty := false }).pinCount = 0 :=
        hpin
      rw [getD_set_ne (Ne.symm hfe)] at hpin
      rw [LRUK.getInfo_SetEvictable_ne hfe]
      exact hInv.unpinnedEv pid' f' hfind' hpin

theorem UnpinPgImp_Inv {pid : Int} {d : Bool} {m : BPM} (hInv : Inv m) :
    Inv (UnpinPgImp pid d m).1 := by
  unfold UnpinPgImp
  cases hfind : EHT.Find pidHash m.pageTable pid with
  | none => exact hInv
  | some f =>
    show Inv ((if (m.getPage f).pinCount = 0 then (m, false)
      else
        if (m.getPage f).pinCount - 1 = 0 then
          ({ m with
              pages :=
                m.pages.set f
                  { m.getPage f with
                    pinCount := (m.getPage f).pinCount - 1,
                    isDirty := (m.getPage f).isDirty || d },
              replacer := m.replacer.SetEvictable f true }, true)
        else
          ({ m with
              pages :=
                m.pages.set f
                  { m.getPage f with
                    pinCount := (m.getPage f).pinCount - 1,
                    isDirty := (m.getPage f).isDirty || d } }, true)).1)
    by_cases hp0 : (m.getPage f).pinCount = 0
    · rw [if_pos hp0]
      exact hInv
    · rw [if_neg hp0]
      by_cases h1 : (m.getPage f).pinCount - 1 = 0
      · rw [if_pos h1]
        exact unpin_zero_Inv hInv hfind
      · rw [if_neg h1]
        exact unpin_dec_Inv hInv hfind h1

theorem FlushPgImp_Inv {pid : Int} {m : BPM} (hInv : Inv m) :
    Inv (FlushPgImp pid m).1 := by
  unfold FlushPgImp
  cases hfind : EHT.Find pidHash m.pageTable pid with
  | none => exact hInv
  | some f => exact set0_clean_Inv hInv

theorem DeletePgImp_Inv {pid : Int} {m m2 : BPM} {r : Bool}
    {ev : List BPEv} (hInv : Inv m)
    (h : DeletePgImp pid m = some (m2, r, ev)) : Inv m2 := by
  unfold DeletePgImp at h
  cases hfind : EHT.Find pidHash m.pageTable pid with
  | none =>
    rw [hfind] at h
    obtain ⟨rfl, _⟩ := Prod.mk.inj (Option.some.inj h)
    exact hInv
  | some f =>
    rw [hfind] at h
    replace h : (if 0 < (m.getPage f).pinCount then
          some (m, false, [BPEv.dealloc pid])
        else
          match (if (m.getPage f).isDirty = true then
              ({ m with
                pages :=
                  m.pages.set 0
                    { m.getPage 0 with isDirty := false } } : BPM)
            else m).replacer.Remove f with
          | none => (none : Option (BPM × Bool × List BPEv))
          | some rep =>
            some ({ (if (m.getPage f).isDirty = true then
                  ({ m with
                    pages :=
                      m.pages.set 0
                        { m.getPage 0 with isDirty := false } } : BPM)
                else m) with
                replacer := rep,
                freeList :=
                  (if (m.getPage f).isDirty = true then
                      ({ m with
                        pages :=
                          m.pages.set 0
                            { m.getPage 0 with isDirty := false } } : BPM)
                    else m).freeList ++ [f],
                pageTable :=
                  (EHT.Remove pidHash
                    (if (m.getPage f).isDirty = true then
                        ({ m with
                          pages :=
                            m.pages.set 0
                              { m.getPage 0 with
                                isDirty := false } } : BPM)
                      else m).pageTable pid).1 },
              true,
              [BPEv.dealloc pid] ++
                (if (m.getPage f).isDirty = true then
                  [BPEv.write (m.getPage f).pageId] else []))) =
        some (m2, r, ev) := h
    by_cases hpin : 0 < (m.getPage f).pinCount
    · rw [if_pos hpin] at h
      obtain ⟨rfl, _⟩ := Prod.mk.inj (Option.some.inj h)
      exact hInv
    · rw [if_neg hpin] at h
      by_cases hwb : (m.getPage f).isDirty = true
      · rw [if_pos hwb] at h
        replace h : (match m.replacer.Remove f with
            | none => (none : Option (BPM × Bool × List BPEv))
            | some rep =>
              some ({ m with
                  pages :=
                    m.pages.set 0
                      { m.getPage 0 with isDirty := false },
                  replacer := rep,
                  freeList := m.freeList ++ [f],
                  pageTable := (EHT.Remove pidHash m.pageTable pid).1 },
                true,
                [BPEv.dealloc pid] ++
                  (if (m.getPage f).isDirty = true then
                    [BPEv.write (m.getPage f).pageId] else []))) =
            some (m2, r, ev) := h
        cases hrem : m.replacer.Remove f with
        | none =>
          rw [hrem] at h
          exact Option.noConfusion h
        | some rep =>
          rw [hrem] at h
          obtain ⟨rfl, _⟩ := Prod.mk.inj (Option.some.inj h)
          exact delete_tail_Inv (set0_clean_Inv hInv) hfind hrem
      · rw [if_neg hwb] at h
        replace h : (match m.replacer.Remove f with
            | none => (none : Option (BPM × Bool × List BPEv))
            | some rep =>
              some ({ m with
                  replacer := rep,
                  freeList := m.freeList ++ [f],
                  pageTable := (EHT.Remove pidHash m.pageTable pid).1 },
                true,
                [BPEv.dealloc pid] ++
                  (if (m.getPage f).isDirty = true then
                    [BPEv.write (m.getPage f).pageId] else []))) =
            some (m2, r, ev) := h
        cases hrem : m.replacer.Remove f with
        | none =>
          rw [hrem] at h
          exact Option.noConfusion h
        | some rep =>
          rw [hrem] at h
          obtain ⟨rfl, _⟩ := Prod.mk.inj (Option.some.inj h)
          exact delete_tail_Inv hInv hfind hrem

theorem reach_inv {m : BPM} (h : Reach m) : Inv m := by
  induction h with
  | init poolSize bucketSize k hb => exact init_inv hb
  | newPage m m2 fuel r ev hr hstep ih => exact NewPgImp_Inv ih hstep
  | fetchPage m m2 fuel pid r ev hr hstep ih =>
    exact FetchPgImp_Inv ih hstep
  | unpinPage m pid d hr ih => exact UnpinPgImp_Inv ih
  | flushPage m pid hr ih => exact FlushPgImp_Inv ih
  | deletePage m m2 pid r ev hr hstep ih => exact DeletePgImp_Inv ih hstep

end BPM

/-- C10: in every buffer-pool state reachable through the five public
operations, a resident frame whose pin count is zero is marked evictable in
the replacer; consequently `DeletePgImp` never hits the fatal
remove-non-evictable branch (it never returns `none`, the model of the
thrown exception). -/
theorem c10_unpinned_evictable {m : BPM} (h : BPM.Reach m) :
    (∀ pid f, EHT.Find pidHash m.pageTable pid = some f →
      (m.getPage f).pinCount = 0 →
      ∃ info, m.replacer.getInfo f = some info ∧ info.evictable = true) ∧
    (∀ pid, BPM.DeletePgImp pid m ≠ none) := by
  have hInv := BPM.reach_inv h
  refine ⟨hInv.unpinnedEv, ?_⟩
  intro pid hcon
  unfold BPM.DeletePgImp at hcon
  cases hfind : EHT.Find pidHash m.pageTable pid with
  | none =>
    rw [hfind] at hcon
    exact Option.noConfusion hcon
  | some f =>
    rw [hfind] at hcon
    replace hcon : (if 0 < (m.getPage f).pinCount then
          some (m, false, [BPEv.dealloc pid])
        else
          match (if (m.getPage f).isDirty = true then
              ({ m with
                pages :=
                  m.pages.set 0
                    { m.getPage 0 with isDirty := false } } : BPM)
            else m).replacer.Remove f with
          | none => (none : Option (BPM × Bool × List BPEv))
          | some rep =>
            some ({ (if (m.getPage f).isDirty = true then
                  ({ m with
                    pages :=
                      m.pages.set 0
                        { m.getPage 0 with isDirty := false } } : BPM)
                else m) with
                replacer := rep,
                freeList :=
                  (if (m.getPage f).isDirty = true then
                      ({ m with
                        pages :=
                          m.pages.set 0
                            { m.getPage 0 with isDirty := false } } : BPM)
                    else m).freeList ++ [f],
                pageTable :=
                  (EHT.Remove pidHash
                    (if (m.getPage f).isDirty = true then
                        ({ m with
                          pages :=
                            m.pages.set 0
                              { m.getPage 0 with
                                isDirty := false } } : BPM)
                      else m).pageTable pid).1 },
              true,
              [BPEv.dealloc pid] ++
                (if (m.getPage f).isDirty = true then
                  [BPEv.write (m.getPage f).pageId] else []))) =
        none := hcon
    by_cases hpin : 0 < (m.getPage f).pinCount
    · rw [if_pos hpin] at hcon
      exact Option.noConfusion hcon
    · rw [if_neg hpin] at hcon
      have hpin0 : (m.getPage f).pinCount = 0 := by omega
      obtain ⟨info, hinfo, hev⟩ := hInv.unpinnedEv pid f hfind hpin0
      have hremNe : m.replacer.Remove f ≠ none := by
        intro hnone
        obtain ⟨info2, hinfo2, hev2⟩ := LRUK.Remove_eq_none_iff.mp hnone
        rw [hinfo] at hinfo2
        obtain rfl := Option.some.inj hinfo2
        rw [hev] at hev2
        exact Bool.noConfusion hev2
      by_cases hwb : (m.getPage f).isDirty = true
      · rw [if_pos hwb] at hcon
        replace hcon : (match m.replacer.Remove f with
            | none => (none : Option (BPM × Bool × List BPEv))
            | some rep =>
              some ({ m with
                  pages :=
                    m.pages.set 0
                      { m.getPage 0 with isDirty := false },
                  replacer := rep,
                  freeList := m.freeList ++ [f],
                  pageTable := (EHT.Remove pidHash m.pageTable pid).1 },
                true,
                [BPEv.dealloc pid] ++
                  (if (m.getPage f).isDirty = true then
                    [BPEv.write (m.getPage f).pageId] else []))) =
            none := hcon
        cases hrem : m.replacer.Remove f with
        | none => exact hremNe hrem
        | some rep =>
          rw [hrem] at hcon
          exact Option.noConfusion hcon
      · rw [if_neg hwb] at hcon
        replace hcon : (match m.replacer.Remove f with
            | none => (none : Option (BPM × Bool × List BPEv))
            | some rep =>
              some ({ m with
                  replacer := rep,
                  freeList := m.freeList ++ [f],
                  pageTable := (EHT.Remove pidHash m.pageTable pid).1 },
                true,
                [BPEv.dealloc pid] ++
                  (if (m.getPage f).isDirty = true then
                    [BPEv.write (m.getPage f).pageId] else []))) =
            none := hcon
        cases hrem : m.replacer.Remove f with
        | none => exact hremNe hrem
        | some rep =>
          rw [hrem] at hcon
          exact Option.noConfusion hcon

/-- Witness for C10 at the freshly constructed manager with two frames:
deleting any page never throws. -/
theorem c10_witness : BPM.DeletePgImp 0 (BPM.init 2 1 2) ≠ none :=
  (c10_unpinned_evictable (BPM.Reach.init 2 1 2 (by decide))).2 0

/-- C6: in every reachable state, `UnpinPgImp` returns false with the whole
state unchanged exactly when the page is not resident or its pin count is
already zero; otherwise it returns true, decrements the pin count, OR-merges
the caller's dirty bit into the frame's flag (never clearing a set bit),
leaves every other frame and the page table unchanged, marks the frame
evictable in the replacer exactly when the pin count reaches zero and leaves
the replacer untouched otherwise. -/
theorem c6_unpin {m : BPM} (h : BPM.Reach m) (pid : Int) (d : Bool) :
    (BPM.UnpinPgImp pid d m = (m, false) ↔
      (∀ f, EHT.Find pidHash m.pageTable pid ≠ some f) ∨
      (∃ f, EHT.Find pidHash m.pageTable pid = some f ∧
        (m.getPage f).pinCount = 0)) ∧
    (∀ f, EHT.Find pidHash m.pageTable pid = some f →
      0 < (m.getPage f).pinCount →
      (BPM.UnpinPgImp pid d m).2 = true ∧
      ((BPM.UnpinPgImp pid d m).1.getPage f).pinCount =
        (m.getPage f).pinCount - 1 ∧
      ((BPM.UnpinPgImp pid d m).1.getPage f).isDirty =
        ((m.getPage f).isDirty || d) ∧
      (∀ g, g ≠ f →
        (BPM.UnpinPgImp pid d m).1.getPage g = m.getPage g) ∧
      (BPM.UnpinPgImp pid d m).1.pageTable = m.pageTable ∧
      ((m.getPage f).pinCount - 1 = 0 →
        ∃ info, m.replacer.getInfo f = some info ∧
          (BPM.UnpinPgImp pid d m).1.replacer.getInfo f =
            some { info with evictable := true }) ∧
      ((m.getPage f).pinCount - 1 ≠ 0 →
        (BPM.UnpinPgImp pid d m).1.replacer = m.replacer)) := by
  have hInv := BPM.reach_inv h
  cases hfind : EHT.Find pidHash m.pageTable pid with
  | none =>
    have hU : BPM.UnpinPgImp pid d m = (m, false) := by
      unfold BPM.UnpinPgImp
      rw [hfind]
    rw [hU]
    refine ⟨⟨fun _ => Or.inl (fun f hc => Option.noConfusion hc),
      fun _ => rfl⟩, ?_⟩
    intro f hf
    exact Option.noConfusion hf
  | some f =>
    have hf : f < m.poolSize := hInv.framesLt pid f hfind
    have hplen : f < m.pages.length := by
      rw [hInv.pagesLen]
      exact hf
    have hU : BPM.UnpinPgImp pid d m =
        (if (m.getPage f).pinCount = 0 then (m, false)
         else
           if (m.getPage f).pinCount - 1 = 0 then
             ({ m with
                 pages :=
                   m.pages.set f
                     { m.getPage f with
                       pinCount := (m.getPage f).pinCount - 1,
                       isDirty := (m.getPage f).isDirty || d },
                 replacer := m.replacer.SetEvictable f true }, true)
           else
             ({ m with
                 pages :=
                   m.pages.set f
                     { m.getPage f with
                       pinCount := (m.getPage f).pinCount - 1,
                       isDirty := (m.getPage f).isDirty || d } },
               true)) := by
      unfold BPM.UnpinPgImp
      rw [hfind]
    by_cases hp0 : (m.getPage f).pinCount = 0
    · rw [if_pos hp0] at hU
      rw [hU]
      refine ⟨⟨fun _ => Or.inr ⟨f, rfl, hp0⟩, fun _ => rfl⟩, ?_⟩
      intro f2 hf2 hpin2
      have hfe : f2 = f := (Option.some.inj hf2).symm
      rw [hfe] at hpin2
      omega
    · rw [if_neg hp0] at hU
      by_cases h1 : (m.getPage f).pinCount - 1 = 0
      · rw [if_pos h1] at hU
        refine ⟨⟨?_, ?_⟩, ?_⟩
        · intro hcon
          rw [hU] at hcon
          have := (Prod.mk.inj hcon).2
          exact absurd this (by simp)
        · intro hor
          rcases hor with hnone | ⟨f2, hf2, hp2⟩
          · exact absurd rfl (hnone f)
          · have hfe : f2 = f := (Option.some.inj hf2).symm
            rw [hfe] at hp2
            exact absurd hp2 hp0
        · intro f2 hf2 hpin2
          have hfe : f2 = f := (Option.some.inj hf2).symm
          subst hfe
          rw [hU]
          obtain ⟨infoF, hinfoF⟩ : ∃ i, m.replacer.getInfo f2 = some i := by
            cases hgi : m.replacer.getInfo f2 with
            | none => exact absurd hgi (hInv.resTracked pid f2 hfind)
            | some i => exact ⟨i, rfl⟩
          refine ⟨rfl, ?_, ?_, ?_, rfl, ?_, ?_⟩
          · show ((m.pages.set f2
                { m.getPage f2 with
                  pinCount := (m.getPage f2).pinCount - 1,
                  isDirty := (m.getPage f2).isDirty || d }).getD f2
                { pageId := -1, pinCount := 0,
                  isDirty := false }).pinCount =
              (m.getPage f2).pinCount - 1
            rw [getD_set_self hplen]
          · show ((m.pages.set f2
                { m.getPage f2 with
                  pinCount := (m.getPage f2).pinCount - 1,
                  isDirty := (m.getPage f2).isDirty || d }).getD f2
                { pageId := -1, pinCount := 0,
                  isDirty := false }).isDirty =
              ((m.getPage f2).isDirty || d)
            rw [getD_set_self hplen]
          · intro g hg
            show (m.pages.set f2
                { m.getPage f2 with
                  pinCount := (m.getPage f2).pinCount - 1,
                  isDirty := (m.getPage f2).isDirty || d }).getD g
                { pageId := -1, pinCount := 0, isDirty := false } =
              m.getPage g
            rw [getD_set_ne (Ne.symm hg)]
            rfl
          · intro _
            exact ⟨infoF, hinfoF,
              LRUK.getInfo_SetEvictable_self hinfoF true⟩
          · intro hcon
            exact absurd h1 hcon
      · rw [if_neg h1] at hU
        refine ⟨⟨?_, ?_⟩, ?_⟩
        · intro hcon
          rw [hU] at hcon
          have := (Prod.mk.inj hcon).2
          exact absurd this (by simp)
        · intro hor
          rcases hor with hnone | ⟨f2, hf2, hp2⟩
          · exact absurd rfl (hnone f)
          · have hfe : f2 = f := (Option.some.inj hf2).symm
            rw [hfe] at hp2
            exact absurd hp2 hp0
        · intro f2 hf2 hpin2
          have hfe : f2 = f := (Option.some.inj hf2).symm
          subst hfe
          rw [hU]
          refine ⟨rfl, ?_, ?_, ?_, rfl, ?_, ?_⟩
          · show ((m.pages.set f2
                { m.getPage f2 with
                  pinCount := (m.getPage f2).pinCount - 1,
                  isDirty := (m.getPage f2).isDirty || d }).getD f2
                { pageId := -1, pinCount := 0,
                  isDirty := false }).pinCount =
              (m.getPage f2).pinCount - 1
            rw [getD_set_self hplen]
          · show ((m.pages.set f2
                { m.getPage f2 with
                  pinCount := (m.getPage f2).pinCount - 1,
                  isDirty := (m.getPage f2).isDirty || d }).getD f2
                { pageId := -1, pinCount := 0,
                  isDirty := false }).isDirty =
              ((m.getPage f2).isDirty || d)
            rw [getD_set_self hplen]
          · intro g hg
            show (m.pages.set f2
                { m.getPage f2 with
                  pinCount := (m.getPage f2).pinCount - 1,
                  isDirty := (m.getPage f2).isDirty || d }).getD g
                { pageId := -1, pinCount := 0, isDirty := false } =
              m.getPage g
            rw [getD_set_ne (Ne.symm hg)]
            rfl
          · intro hcon
            exact absurd hcon h1
          · intro _
            rfl

/-- Witness for C6: on the fresh two-frame manager no page is resident, so
unpinning page 0 fails and leaves the state unchanged. -/
theorem c6_witness :
    BPM.UnpinPgImp 0 false (BPM.init 2 1 2) = (BPM.init 2 1 2, false) :=
  ((c6_unpin (BPM.Reach.init 2 1 2 (by decide)) 0 false).1).mpr
    (Or.inl fun f hc =>
      Option.noConfusion ((EHT.Find_init pidHash 1 0).symm.trans hc))

/-- C7: in every reachable state, `DeletePgImp` deallocates the id at the
external allocator in every case; it returns true leaving the state
unchanged when the page is not resident; it returns false leaving the state
(and hence the directory binding) unchanged when the resident frame is
pinned; and on an unpinned resident frame it writes the frame back exactly
when it is dirty, drops the frame's replacer record, removes the directory
binding (all other bindings survive) and appends the frame to the free
list, returning true. -/
theorem c7_delete {m : BPM} (h : BPM.Reach m) (pid : Int) :
    ((∀ f, EHT.Find pidHash m.pageTable pid ≠ some f) →
      BPM.DeletePgImp pid m = some (m, true, [BPEv.dealloc pid])) ∧
    (∀ f, EHT.Find pidHash m.pageTable pid = some f →
      0 < (m.getPage f).pinCount →
      BPM.DeletePgImp pid m = some (m, false, [BPEv.dealloc pid])) ∧
    (∀ f, EHT.Find pidHash m.pageTable pid = some f →
      (m.getPage f).pinCount = 0 →
      ∃ m2, BPM.DeletePgImp pid m = some (m2, true,
          [BPEv.dealloc pid] ++
            (if (m.getPage f).isDirty then
              [BPEv.write (m.getPage f).pageId] else [])) ∧
        EHT.Find pidHash m2.pageTable pid = none ∧
        (∀ pid2, pid2 ≠ pid → EHT.Find pidHash m2.pageTable pid2 =
          EHT.Find pidHash m.pageTable pid2) ∧
        m2.replacer.getInfo f = none ∧
        m2.freeList = m.freeList ++ [f]) := by
  have hInv := BPM.reach_inv h
  cases hfind : EHT.Find pidHash m.pageTable pid with
  | none =>
    refine ⟨?_, ?_, ?_⟩
    · intro _
      unfold BPM.DeletePgImp
      rw [hfind]
    · intro f hf
      exact Option.noConfusion hf
    · intro f hf
      exact Option.noConfusion hf
  | some f =>
    refine ⟨?_, ?_, ?_⟩
    · intro hnone
      exact absurd rfl (hnone f)
    · intro f2 hf2 hpin2
      have hfe : f2 = f := (Option.some.inj hf2).symm
      subst hfe
      unfold BPM.DeletePgImp
      rw [hfind]
      show (if 0 < (m.getPage f2).pinCount then
            some (m, false, [BPEv.dealloc pid])
          else
            match (if (m.getPage f2).isDirty = true then
                ({ m with
                  pages :=
                    m.pages.set 0
                      { m.getPage 0 with isDirty := false } } : BPM)
              else m).replacer.Remove f2 with
            | none => (none : Option (BPM × Bool × List BPEv))
            | some rep =>
              some ({ (if (m.getPage f2).isDirty = true then
                    ({ m with
                      pages :=
                        m.pages.set 0
                          { m.getPage 0 with isDirty := false } } : BPM)
                  else m) with
                  replacer := rep,
                  freeList :=
                    (if (m.getPage f2).isDirty = true then
                        ({ m with
                          pages :=
                            m.pages.set 0
                              { m.getPage 0 with
                                isDirty := false } } : BPM)
                      else m).freeList ++ [f2],
                  pageTable :=
                    (EHT.Remove pidHash
                      (if (m.getPage f2).isDirty = true then
                          ({ m with
                            pages :=
                              m.pages.set 0
                                { m.getPage 0 with
                                  isDirty := false } } : BPM)
                        else m).pageTable pid).1 },
                true,
                [BPEv.dealloc pid] ++
                  (if (m.getPage f2).isDirty = true then
                    [BPEv.write (m.getPage f2).pageId] else []))) =
          some (m, false, [BPEv.dealloc pid])
      rw [if_pos hpin2]
    · intro f2 hf2 hpin0
      have hfe : f2 = f := (Option.some.inj hf2).symm
      subst hfe
      have hpinNot : ¬0 < (m.getPage f2).pinCount := by omega
      obtain ⟨infoF, hinfoF, hevF⟩ := hInv.unpinnedEv pid f2 hfind hpin0
      cases hremC : m.replacer.Remove f2 with
      | none =>
        obtain ⟨info2, hinfo2, hev2⟩ := LRUK.Remove_eq_none_iff.mp hremC
        rw [hinfoF] at hinfo2
        obtain rfl := Option.some.inj hinfo2
        rw [hevF] at hev2
        exact Bool.noConfusion hev2
      | some rep =>
        have hremSpec := EHT.Remove_spec hInv.tableInv pid
        by_cases hwb : (m.getPage f2).isDirty = true
        · refine ⟨{ m with
              pages :=
                m.pages.set 0 { m.getPage 0 with isDirty := false },
              replacer := rep,
              freeList := m.freeList ++ [f2],
              pageTable := (EHT.Remove pidHash m.pageTable pid).1 },
            ?_, ?_, ?_, ?_, rfl⟩
          · unfold BPM.DeletePgImp
            rw [hfind]
            show (if 0 < (m.getPage f2).pinCount then
                  some (m, false, [BPEv.dealloc pid])
                else
                  match (if (m.getPage f2).isDirty = true then
                      ({ m with
                        pages :=
                          m.pages.set 0
                            { m.getPage 0 with
                              isDirty := false } } : BPM)
                    else m).replacer.Remove f2 with
                  | none => (none : Option (BPM × Bool × List BPEv))
                  | some rep =>
                    some ({ (if (m.getPage f2).isDirty = true then
                          ({ m with
                            pages :=
                              m.pages.set 0
                                { m.getPage 0 with
                                  isDirty := false } } : BPM)
                        else m) with
                        replacer := rep,
                        freeList :=
                          (if (m.getPage f2).isDirty = true then
                              ({ m with
                                pages :=
                                  m.pages.set 0
                                    { m.getPage 0 with
                                      isDirty := false } } : BPM)
                            else m).freeList ++ [f2],
                        pageTable :=
                          (EHT.Remove pidHash
                            (if (m.getPage f2).isDirty = true then
                                ({ m with
                                  pages :=
                                    m.pages.set 0
                                      { m.getPage 0 with
                                        isDirty := false } } : BPM)
                              else m).pageTable pid).1 },
                      true,
                      [BPEv.dealloc pid] ++
                        (if (m.getPage f2).isDirty = true then
                          [BPEv.write (m.getPage f2).pageId] else []))) =
                some ({ m with
                    pages :=
                      m.pages.set 0
                        { m.getPage 0 with isDirty := false },
                    replacer := rep,
                    freeList := m.freeList ++ [f2],
                    pageTable := (EHT.Remove pidHash m.pageTable pid).1 },
                  true,
                  [BPEv.dealloc pid] ++
                    (if (m.getPage f2).isDirty = true then
                      [BPEv.write (m.getPage f2).pageId] else []))
            rw [if_neg hpinNot, if_pos hwb]
            show (match m.replacer.Remove f2 with
                | none => (none : Option (BPM × Bool × List BPEv))
                | some rep =>
                  some ({ m with
                      pages :=
                        m.pages.set 0
                          { m.getPage 0 with isDirty := false },
                      replacer := rep,
                      freeList := m.freeList ++ [f2],
                      pageTable :=
                        (EHT.Remove pidHash m.pageTable pid).1 },
                    true,
                    [BPEv.dealloc pid] ++
                      (if (m.getPage f2).isDirty = true then
                        [BPEv.write (m.getPage f2).pageId] else []))) = _
            rw [hremC]
          · show EHT.Find pidHash
                ((EHT.Remove pidHash m.pageTable pid).1) pid = none
            exact hremSpec.2.1
          · intro pid2 hne
            show EHT.Find pidHash
                ((EHT.Remove pidHash m.pageTable pid).1) pid2 =
              EHT.Find pidHash m.pageTable pid2
            exact hremSpec.2.2.1 pid2 hne
          · exact LRUK.getInfo_Remove_self hremC
        · refine ⟨{ m with
              replacer := rep,
              freeList := m.freeList ++ [f2],
              pageTable := (EHT.Remove pidHash m.pageTable pid).1 },
            ?_, ?_, ?_, ?_, rfl⟩
          · unfold BPM.DeletePgImp
            rw [hfind]
            show (if 0 < (m.getPage f2).pinCount then
                  some (m, false, [BPEv.dealloc pid])
                else
                  match (if (m.getPage f2).isDirty = true then
                      ({ m with
                        pages :=
                          m.pages.set 0
                            { m.getPage 0 with
                              isDirty := false } } : BPM)
                    else m).replacer.Remove f2 with
                  | none => (none : Option (BPM × Bool × List BPEv))
                  | some rep =>
                    some ({ (if (m.getPage f2).isDirty = true then
                          ({ m with
                            pages :=
                              m.pages.set 0
                                { m.getPage 0 with
                                  isDirty := false } } : BPM)
                        else m) with
                        replacer := rep,
                        freeList :=
                          (if (m.getPage f2).isDirty = true then
                              ({ m with
                                pages :=
                                  m.pages.set 0
                                    { m.getPage 0 with
                                      isDirty := false } } : BPM)
                            else m).freeList ++ [f2],
                        pageTable :=
                          (EHT.Remove pidHash
                            (if (m.getPage f2).isDirty = true then
                                ({ m with
                                  pages :=
                                    m.pages.set 0
                                      { m.getPage 0 with
                                        isDirty := false } } : BPM)
                              else m).pageTable pid).1 },
                      true,
                      [BPEv.dealloc pid] ++
                        (if (m.getPage f2).isDirty = true then
                          [BPEv.write (m.getPage f2).pageId] else []))) =
                some ({ m with
                    replacer := rep,
                    freeList := m.freeList ++ [f2],
                    pageTable := (EHT.Remove pidHash m.pageTable pid).1 },
                  true,
                  [BPEv.dealloc pid] ++
                    (if (m.getPage f2).isDirty = true then
                      [BPEv.write (m.getPage f2).pageId] else []))
            rw [if_neg hpinNot, if_neg hwb]
            show (match m.replacer.Remove f2 with
                | none => (none : Option (BPM × Bool × List BPEv))
                | some rep =>
                  some ({ m with
                      replacer := rep,
                      freeList := m.freeList ++ [f2],
                      pageTable :=
                        (EHT.Remove pidHash m.pageTable pid).1 },
                    true,
                    [BPEv.dealloc pid] ++
                      (if (m.getPage f2).isDirty = true then
                        [BPEv.write (m.getPage f2).pageId] else []))) = _
            rw [hremC]
          · show EHT.Find pidHash
                ((EHT.Remove pidHash m.pageTable pid).1) pid = none
            exact hremSpec.2.1
          · intro pid2 hne
            show EHT.Find pidHash
                ((EHT.Remove pidHash m.pageTable pid).1) pid2 =
              EHT.Find pidHash m.pageTable pid2
            exact hremSpec.2.2.1 pid2 hne
          · exact LRUK.getInfo_Remove_self hremC

theorem installPage_events {fuel : Nat} {m m2 : BPM} {f : Nat} {pid : Int}
    {ev ev2 : List BPEv} {res : Option (Int × Nat)}
    (h : BPM.installPage fuel m f pid ev = some (m2, res, ev2)) :
    ev2 = ev ++ [BPEv.insertDir pid] := by
  unfold BPM.installPage at h
  cases hpt : EHT.Insert pidHash pid f fuel m.pageTable with
  | none =>
    rw [hpt] at h
    exact Option.noConfusion h
  | some pt =>
    rw [hpt] at h
    obtain ⟨_, h2⟩ := Prod.mk.inj (Option.some.inj h)
    exact (Prod.mk.inj h2).2.symm

theorem acquireFrame_cases {m : BPM} :
    (∀ g rest, m.freeList = g :: rest →
      BPM.acquireFrame m = some ({ m with freeList := rest }, g, [])) ∧
    (m.freeList = [] → m.replacer.Evict = none →
      BPM.acquireFrame m = none) ∧
    (m.freeList = [] → ∀ vf rep, m.replacer.Evict = some (vf, rep) →
      ∃ m1, BPM.acquireFrame m = some (m1, vf,
        (if (m.getPage vf).isDirty then
            [BPEv.write (m.getPage vf).pageId] else []) ++
          [BPEv.removeDir (m.getPage vf).pageId])) := by
  refine ⟨?_, ?_, ?_⟩
  · intro g rest hfl
    unfold BPM.acquireFrame
    rw [hfl]
  · intro hfl hev
    unfold BPM.acquireFrame
    rw [hfl, hev]
  · intro hfl vf rep hev
    unfold BPM.acquireFrame
    rw [hfl, hev]
    exact ⟨_, rfl⟩

/-- C8: on every successful `NewPgImp` or `FetchPgImp` run, whenever the run
evicts a victim — the free list is empty (and, for a fetch, the page missed
the directory) and the replacer produces a victim frame — the emitted event
list begins with a disk write of the victim exactly when the victim's dirty
flag is set at eviction, immediately followed by the removal of the
victim's directory entry, and contains no other disk write; and every run
that does not evict (free-list acquisition, fetch hit, failed acquisition)
emits no disk write at all. -/
theorem c8_eviction_writeback {fuel : Nat} {m : BPM} :
    (∀ m2 res ev, BPM.NewPgImp fuel m = some (m2, res, ev) →
      (m.freeList = [] → ∀ vf rep, m.replacer.Evict = some (vf, rep) →
        ∃ tail, ev = ((if (m.getPage vf).isDirty then
            [BPEv.write (m.getPage vf).pageId] else []) ++
          [BPEv.removeDir (m.getPage vf).pageId]) ++ tail ∧
          ∀ p, BPEv.write p ∉ tail) ∧
      ((m.freeList ≠ [] ∨ m.replacer.Evict = none) →
        ∀ p, BPEv.write p ∉ ev)) ∧
    (∀ pid m2 res ev, BPM.FetchPgImp fuel pid m = some (m2, res, ev) →
      (EHT.Find pidHash m.pageTable pid = none → m.freeList = [] →
        ∀ vf rep, m.replacer.Evict = some (vf, rep) →
        ∃ tail, ev = ((if (m.getPage vf).isDirty then
            [BPEv.write (m.getPage vf).pageId] else []) ++
          [BPEv.removeDir (m.getPage vf).pageId]) ++ tail ∧
          ∀ p, BPEv.write p ∉ tail) ∧
      ((EHT.Find pidHash m.pageTable pid ≠ none ∨ m.freeList ≠ [] ∨
          m.replacer.Evict = none) →
        ∀ p, BPEv.write p ∉ ev)) := by
  constructor
  · intro m2 res ev h
    unfold BPM.NewPgImp at h
    constructor
    · intro hfl vf rep hev
      obtain ⟨m1, hacq⟩ := acquireFrame_cases.2.2 hfl vf rep hev
      rw [hacq] at h
      have hev2 := installPage_events h
      exact ⟨[BPEv.insertDir m1.nextPageId], hev2,
        by intro p hp; simp at hp⟩
    · intro hside p hp
      cases hflc : m.freeList with
      | cons g rest =>
        have hacq := acquireFrame_cases.1 g rest hflc
        rw [hacq] at h
        have hev2 := installPage_events h
        rw [hev2] at hp
        simp at hp
      | nil =>
        rcases hside with hfl | hevnone
        · exact hfl hflc
        · have hacq := acquireFrame_cases.2.1 hflc hevnone
          rw [hacq] at h
          obtain ⟨_, h2⟩ := Prod.mk.inj (Option.some.inj h)
          obtain ⟨_, hevq⟩ := Prod.mk.inj h2
          rw [← hevq] at hp
          simp at hp
  · intro pid m2 res ev h
    unfold BPM.FetchPgImp at h
    cases hfind : EHT.Find pidHash m.pageTable pid with
    | some f =>
      rw [hfind] at h
      obtain ⟨_, h2⟩ := Prod.mk.inj (Option.some.inj h)
      obtain ⟨_, hevq⟩ := Prod.mk.inj h2
      constructor
      · intro hmiss
        exact Option.noConfusion hmiss
      · intro _ p hp
        rw [← hevq] at hp
        simp at hp
    | none =>
      rw [hfind] at h
      constructor
      · intro _ hfl vf rep hev
        obtain ⟨m1, hacq⟩ := acquireFrame_cases.2.2 hfl vf rep hev
        rw [hacq] at h
        replace h : (match BPM.installPage fuel m1 vf pid
              ((if (m.getPage vf).isDirty then
                  [BPEv.write (m.getPage vf).pageId] else []) ++
                [BPEv.removeDir (m.getPage vf).pageId]) with
            | none => none
            | some (m2, r, ev2) =>
              some (m2, r, ev2 ++ [BPEv.read pid])) =
            some (m2, res, ev) := h
        cases hins : BPM.installPage fuel m1 vf pid
            ((if (m.getPage vf).isDirty then
                [BPEv.write (m.getPage vf).pageId] else []) ++
              [BPEv.removeDir (m.getPage vf).pageId]) with
        | none =>
          rw [hins] at h
          exact Option.noConfusion h
        | some tr2 =>
          obtain ⟨m2x, resx, evx⟩ := tr2
          rw [hins] at h
          obtain ⟨_, h2⟩ := Prod.mk.inj (Option.some.inj h)
          obtain ⟨_, hevq⟩ := Prod.mk.inj h2
          have hev2 := installPage_events hins
          refine ⟨[BPEv.insertDir pid] ++ [BPEv.read pid], ?_,
            by intro p hp; simp at hp⟩
          rw [← hevq, hev2, List.append_assoc]
      · intro hside p hp
        rcases hside with hres | hside2
        · exact hres rfl
        · cases hflc : m.freeList with
          | cons g rest =>
            have hacq := acquireFrame_cases.1 g rest hflc
            rw [hacq] at h
            replace h : (match BPM.installPage fuel
                  { m with freeList := rest } g pid [] with
                | none => none
                | some (m2, r, ev2) =>
                  some (m2, r, ev2 ++ [BPEv.read pid])) =
                some (m2, res, ev) := h
            cases hins : BPM.installPage fuel
                { m with freeList := rest } g pid [] with
            | none =>
              rw [hins] at h
              exact Option.noConfusion h
            | some tr2 =>
              obtain ⟨m2x, resx, evx⟩ := tr2
              rw [hins] at h
              obtain ⟨_, h2⟩ := Prod.mk.inj (Option.some.inj h)
              obtain ⟨_, hevq⟩ := Prod.mk.inj h2
              have hev2 := installPage_events hins
              rw [← hevq, hev2] at hp
              simp at hp
          | nil =>
            rcases hside2 with hfl | hevnone
            · exact hfl hflc
            · have hacq := acquireFrame_cases.2.1 hflc hevnone
              rw [hacq] at h
              obtain ⟨_, h2⟩ := Prod.mk.inj (Option.some.inj h)
              obtain ⟨_, hevq⟩ := Prod.mk.inj h2
              rw [← hevq] at hp
              simp at hp

/-- Witness for C8: the first `NewPgImp` on the fresh manager acquires a
frame from the non-empty free list, so its event trace carries no disk
write. -/
theorem c8_witness : BPEv.write 7 ∉ ([BPEv.insertDir 0] : List BPEv) :=
  ((@c8_eviction_writeback 4 (BPM.init 2 1 2)).1
    {
      poolSize := 2,
      pages := [{ pageId := 0, pinCount := 1, isDirty := false },
        { pageId := -1, pinCount := 0, isDirty := false }],
      pageTable := {
        globalDepth := 0, bucketSize := 1, numBuckets := 1,
        buckets := [{ items := [(0, 0)], depth := 0 }], dir := [0] },
      replacer := {
        frameInfos := [(0, { timeSeq := [0], evictable := false })],
        replacerSize := 2, k := 2,
        currSize := 0, currentTimestamp := 1 },
      freeList := [1], nextPageId := 1 }
    (some (0, 0)) [BPEv.insertDir 0] (by decide)).2
    (Or.inl (by decide)) 7

/-- C1 (source defect): in the two-page scenario, flushing page 1 returns
true and writes the page to disk, but the assignment `pages_->is_dirty_ =
false` in the source clears the dirty flag of frame 0 (the first element of
the frame array) instead of the flushed frame's: frame 1 is still dirty
after the call, contradicting the specified behavior of clearing the
flushed frame's own flag. -/
theorem c1_flush_wrong_frame :
    BPM.NewPgImp 4 (BPM.init 2 1 2) =
      some (c1m1, some (0, 0), [BPEv.insertDir 0]) ∧
    BPM.NewPgImp 4 c1m1 = some (c1m2, some (1, 1), [BPEv.insertDir 1]) ∧
    (BPM.UnpinPgImp 1 true c1m2).2 = true ∧
    (c1m3.getPage 1).isDirty = true ∧
    (c1m3.getPage 1).pinCount = 0 ∧
    (BPM.FlushPgImp 1 c1m3).2.1 = true ∧
    (BPM.FlushPgImp 1 c1m3).2.2 = [BPEv.write 1] ∧
    ((BPM.FlushPgImp 1 c1m3).1.getPage 1).isDirty = true ∧
    ((BPM.FlushPgImp 1 c1m3).1.getPage 0).isDirty = false :=
  ⟨rfl, rfl, rfl, rfl, rfl, rfl, rfl, rfl, rfl⟩

/-- Witness for C7: deleting a non-resident page on the fresh manager
deallocates the id and succeeds without touching the state. -/
theorem c7_witness :
    BPM.DeletePgImp 5 (BPM.init 2 1 2) =
      some (BPM.init 2 1 2, true, [BPEv.dealloc 5]) :=
  (c7_delete (BPM.Reach.init 2 1 2 (by decide)) 5).1
    (fun f hc =>
      Option.noConfusion ((EHT.Find_init pidHash 1 5).symm.trans hc))

end BusTub

